import Mathlib

/-!
# Automatic orientation engine (libslic3r/Orient.cpp)

A shallow embedding of `Slic3r::orientation::AutoOrienter` and of the functions it is
built from, followed by theorems about them.  The value logic of the spin control
(slic3r/GUI/Widgets/SpinInput.cpp) is embedded after the definitions of the engine.

Conventions of the embedding.

* `float` values are exact rationals (`ℚ`): rounding, NaN and infinities are not modelled.
  `x / 0` is `0` in `ℚ`; statements about quotients are meant where the divisor is non-zero.
* An Eigen column vector is a size together with a coefficient function (`VectorXf`), an
  `n x 3` Eigen matrix is a row count together with a row function (`MatrixX3f`).  Eigen
  expressions are evaluated coefficient by coefficient, as Eigen itself does.
* The mesh is owned by an external geometry provider.  It is consumed through the accessors
  the source calls (`facets_count`, `its.get_vertex`, `its.facet_area`, `its_face_normals`,
  `its.get_property`, `bounding_box`, `stats`, `its_volume`, `convex_hull_3d`).
* `std::unordered_map` is an association list with key equality `==`; its iteration order is
  unspecified and is a parameter (`HashOrder`).  `std::sort` is an insertion sort; since the
  order of its input is arbitrary, every order a conforming `std::sort` can produce among
  equal keys is covered.
* `sqrt` and `cos` come from the C library and are parameters (`Libm`).
-/

namespace Slic3r.orientation

/-! ## Vectors -/

/-- The type `Vec3f` (alias `stl_normal`, `stl_vertex`): three `float` coefficients. -/
structure Vec3f where
  x : ℚ
  y : ℚ
  z : ℚ
deriving DecidableEq

namespace Vec3f

/-- The vector `{0, 0, 0}`. -/
def all_zero : Vec3f := ⟨0, 0, 0⟩

/-- Unary minus, coefficient-wise. -/
def neg (a : Vec3f) : Vec3f := ⟨-a.x, -a.y, -a.z⟩

/-- Difference, coefficient-wise. -/
def sub (a b : Vec3f) : Vec3f := ⟨a.x - b.x, a.y - b.y, a.z - b.z⟩

/-- Inner product `a.dot(b)`. -/
def dot (a b : Vec3f) : ℚ := a.x * b.x + a.y * b.y + a.z * b.z

/-- Squared Euclidean norm `a.squaredNorm()`. -/
def squaredNorm (a : Vec3f) : ℚ := a.x * a.x + a.y * a.y + a.z * a.z

/-- Eigen `a.isApprox(b, prec)` for floating-point vectors:
`(a - b).squaredNorm() <= prec * prec * min(a.squaredNorm(), b.squaredNorm())`. -/
def isApprox (a b : Vec3f) (prec : ℚ) : Bool :=
  decide ((a.sub b).squaredNorm ≤ prec * prec * min a.squaredNorm b.squaredNorm)

end Vec3f

/-- An Eigen `VectorXf`: its size and its coefficients (meaningful below `size`). -/
structure VectorXf where
  size : Nat
  coeff : Nat → ℚ

/-- An Eigen `MatrixXf` with three columns: its row count and its rows. -/
structure MatrixX3f where
  rows : Nat
  row : Nat → Vec3f

/-- Eigen `sum()` of a coefficient-wise expression with `n` coefficients. -/
def eigen_sum (n : Nat) (f : Nat → ℚ) : ℚ := ((List.range n).map f).sum

/-- All coefficients of a three-column matrix, row after row. -/
def MatrixX3f.coeffs (m : MatrixX3f) : List ℚ :=
  (List.range m.rows).flatMap (fun i => [(m.row i).x, (m.row i).y, (m.row i).z])

/-- Eigen `minCoeff()`.  Eigen asserts that the matrix is not empty: `none` on an empty
matrix. -/
def MatrixX3f.minCoeff (m : MatrixX3f) : Option ℚ :=
  match m.coeffs with
  | [] => none
  | c :: cs => some (cs.foldl min c)

/-- The C macro `MAX3(a,b,c)`. -/
def MAX3 (a b c : ℚ) : ℚ := max (max a b) c

/-- The C macro `MEDIAN3(a,b,c)`. -/
def MEDIAN3 (a b c : ℚ) : ℚ := max (min a b) (min (max a b) c)

/-! ## Library services -/

/-- The C library functions the engine calls.  `cos_ascent a` stands for
`cos(PI - a * PI / 180)`. -/
structure Libm where
  sqrt : ℚ → ℚ
  cos_ascent : ℚ → ℚ

/-- Whether `k` is a key of the map. -/
def umap_contains {K V : Type} [DecidableEq K] (m : List (K × V)) (k : K) : Bool :=
  m.any (fun p => decide (p.1 = k))

/-- The call `m.insert({k, v})`: no effect when the key is present. -/
def umap_insert {K V : Type} [DecidableEq K] (m : List (K × V)) (k : K) (v : V) :
    List (K × V) :=
  if umap_contains m k then m else m ++ [(k, v)]

/-- The statement `m[k] = v`. -/
def umap_assign {K V : Type} [DecidableEq K] (m : List (K × V)) (k : K) (v : V) :
    List (K × V) :=
  if umap_contains m k then m.map (fun p => if p.1 = k then (p.1, v) else p)
  else m ++ [(k, v)]

/-- The statement `m[k] += a` on a map of floats (a missing key is value-initialised to
zero first). -/
def umap_add {K : Type} [DecidableEq K] (m : List (K × ℚ)) (k : K) (a : ℚ) : List (K × ℚ) :=
  if umap_contains m k then m.map (fun p => if p.1 = k then (p.1, p.2 + a) else p)
  else m ++ [(k, 0 + a)]

/-- Insertion of `a` into a list sorted for the comparator `comp`. -/
def sort_insert {α : Type} (comp : α → α → Bool) (a : α) : List α → List α
  | [] => [a]
  | b :: l => if comp b a then b :: sort_insert comp a l else a :: b :: l

/-- The call `sort(begin, end, comp)`. -/
def std_sort {α : Type} (comp : α → α → Bool) (l : List α) : List α :=
  l.foldr (sort_insert comp) []

/-! ## Data model -/

/-- The mesh as the engine sees it (`TriangleMesh` and its `indexed_triangle_set`). -/
structure TriangleMesh where
  /-- The value of `facets_count()`. -/
  facets_count : Nat
  /-- The value of `its.get_vertex(i, k)`. -/
  get_vertex : Nat → Nat → Vec3f
  /-- The value of `its.facet_area(i)`. -/
  facet_area : Nat → ℚ
  /-- The value of `its_face_normals(its)[i]`. -/
  face_normals : Nat → Vec3f
  /-- The value of `its.get_property(i).type == EnumFaceTypes::eExteriorAppearance`. -/
  is_exterior_appearance : Nat → Bool
  /-- The value of `bounding_box().area()`. -/
  bounding_box_area : ℚ
  /-- The value of `bounding_box().radius()`. -/
  bounding_box_radius : ℚ
  /-- The value of `stats().volume`. -/
  stats_volume : ℚ
  /-- The value of `its_volume(its)`. -/
  its_volume : ℚ

/-- An `OrientMesh`: the mesh, the hull its provider computes for it
(`mesh.convex_hull_3d()`), and the overhang angle of the object. -/
structure OrientMesh where
  mesh : TriangleMesh
  convex_hull_3d : TriangleMesh
  overhang_angle : ℚ

/-- Modelled from the spec: the declaration of `OrientParams` (Orient.hpp) is not part of
the sources at hand.  The fields are the ones Orient.cpp reads, named as there; section 6
of the specification lists them as the configuration of a run. -/
structure OrientParams where
  TAR_A : ℚ
  TAR_B : ℚ
  RELATIVE_F : ℚ
  CONTOUR_F : ℚ
  BOTTOM_F : ℚ
  BOTTOM_HULL_F : ℚ
  TAR_C : ℚ
  TAR_D : ℚ
  TAR_E : ℚ
  FIRST_LAY_H : ℚ
  NEGL_FACE_SIZE : ℚ
  ASCENT : ℚ
  LAF_MAX : ℚ
  LAF_MIN : ℚ
  TAR_LAF : ℚ
  TAR_PROJ_AREA : ℚ
  BOTTOM_MIN : ℚ
  APPERANCE_FACE_SUPP : ℚ
  use_low_angle_face : Bool
  min_volume : Bool
  parallel : Bool

/-- The struct `CostItems`. -/
structure CostItems where
  overhang : ℚ
  bottom : ℚ
  bottom_hull : ℚ
  contour : ℚ
  area_laf : ℚ
  area_projected : ℚ
  volume : ℚ
  area_total : ℚ
  radius : ℚ
  height_to_bottom_hull_ratio : ℚ
  unprintability : ℚ
deriving DecidableEq

/-- The constructor `CostItems()`: every field is zeroed by `memset`. -/
def CostItems.zero : CostItems := ⟨0, 0, 0, 0, 0, 0, 0, 0, 0, 0, 0⟩

/-- The iteration order of the two `std::unordered_map` types of the engine, which the
standard leaves unspecified: iterating a map yields some rearrangement of its entries.
`iterate_alignments` is for the map `alignments` of `area_cumulation`, `iterate_results`
for the map `results` of `process`. -/
structure HashOrder where
  iterate_alignments : List (Vec3f × ℚ) → List (Vec3f × ℚ)
  alignments_perm : ∀ l, (iterate_alignments l).Perm l
  iterate_results : List (Vec3f × CostItems) → List (Vec3f × CostItems)
  results_perm : ∀ l, (iterate_results l).Perm l

/-- Iteration in insertion order. -/
def HashOrder.insertion : HashOrder :=
  ⟨fun l => l, fun l => List.Perm.refl l, fun l => l, fun l => List.Perm.refl l⟩

/-- Iteration in reverse insertion order. -/
def HashOrder.reversed : HashOrder :=
  ⟨fun l => l.reverse, fun l => List.reverse_perm l, fun l => l.reverse,
    fun l => List.reverse_perm l⟩

/-- A `bool` used as a number. -/
def b2f (b : Bool) : ℚ := if b then 1 else 0

/-- The member variables of `AutoOrienter`. -/
structure AutoOrienter where
  orient_mesh : OrientMesh
  mesh : TriangleMesh
  mesh_convex_hull : TriangleMesh
  normals : MatrixX3f
  normals_hull : MatrixX3f
  areas : VectorXf
  areas_hull : VectorXf
  is_apperance : VectorXf
  z_projected : MatrixX3f
  z_max : VectorXf
  z_max_hull : VectorXf
  z_median : VectorXf
  z_mean : VectorXf
  params : OrientParams
  orientations : List Vec3f

/-! ## Construction and preprocessing -/

/-- The method `quantize_vec3f`: each coefficient is `floor(c * 1000) / 1000`. -/
def quantize_vec3f (n1 : Vec3f) : Vec3f :=
  ⟨(⌊n1.x * 1000⌋ : ℚ) / 1000, (⌊n1.y * 1000⌋ : ℚ) / 1000, (⌊n1.z * 1000⌋ : ℚ) / 1000⟩

/-- The test `params.NEGL_FACE_SIZE > 0 && area < params.NEGL_FACE_SIZE` after which
`preprocess` skips a facet. -/
def negligible (params : OrientParams) (area : ℚ) : Bool :=
  decide (0 < params.NEGL_FACE_SIZE) && decide (area < params.NEGL_FACE_SIZE)

/-- The entry `areas(i)` that the loop of `preprocess` leaves for facet `i` of a mesh: the
facet area, or the initial zero when the facet is skipped. -/
def kept_area (params : OrientParams) (m : TriangleMesh) (i : Nat) : ℚ :=
  if negligible params (m.facet_area i) then 0 else m.facet_area i

/-- The row `normals.row(i)` that the loop of `preprocess` leaves for facet `i`: the
quantized facet normal, or the initial zero row when the facet is skipped. -/
def kept_normal (params : OrientParams) (m : TriangleMesh) (i : Nat) : Vec3f :=
  if negligible params (m.facet_area i) then Vec3f.all_zero
  else quantize_vec3f (m.face_normals i)

/-- The entry `is_apperance(i)` that the loop of `preprocess` leaves for facet `i`: one for
an exterior appearance facet, zero otherwise and for a skipped facet. -/
def kept_appearance (params : OrientParams) (m : TriangleMesh) (i : Nat) : ℚ :=
  if negligible params (m.facet_area i) then 0 else b2f (m.is_exterior_appearance i)

/-- The method `preprocess`.  Every vector is zero-initialised with one entry per facet; the
loop fills the entries of the facets that are not skipped. -/
def preprocess (o : AutoOrienter) : AutoOrienter :=
  let mesh_convex_hull := o.orient_mesh.convex_hull_3d
  { o with
    areas := ⟨o.mesh.facets_count, kept_area o.params o.mesh⟩
    is_apperance := ⟨o.mesh.facets_count, kept_appearance o.params o.mesh⟩
    normals := ⟨o.mesh.facets_count, kept_normal o.params o.mesh⟩
    mesh_convex_hull := mesh_convex_hull
    areas_hull := ⟨mesh_convex_hull.facets_count, kept_area o.params mesh_convex_hull⟩
    normals_hull := ⟨mesh_convex_hull.facets_count, kept_normal o.params mesh_convex_hull⟩ }

/-- The constructor `AutoOrienter(orient_mesh_, params_, progressind_, stopcond_)`:
`ASCENT` is derived from the overhang angle of the object, then `preprocess` runs. -/
def AutoOrienter.new (libm : Libm) (orient_mesh_ : OrientMesh) (params_ : OrientParams) :
    AutoOrienter :=
  preprocess
    { orient_mesh := orient_mesh_
      mesh := orient_mesh_.mesh
      mesh_convex_hull := orient_mesh_.convex_hull_3d
      normals := ⟨0, fun _ => Vec3f.all_zero⟩
      normals_hull := ⟨0, fun _ => Vec3f.all_zero⟩
      areas := ⟨0, fun _ => 0⟩
      areas_hull := ⟨0, fun _ => 0⟩
      is_apperance := ⟨0, fun _ => 0⟩
      z_projected := ⟨0, fun _ => Vec3f.all_zero⟩
      z_max := ⟨0, fun _ => 0⟩
      z_max_hull := ⟨0, fun _ => 0⟩
      z_median := ⟨0, fun _ => 0⟩
      z_mean := ⟨0, fun _ => 0⟩
      params := { params_ with ASCENT := libm.cos_ascent orient_mesh_.overhang_angle }
      orientations := [] }

/-! ## Candidate generation -/

/-- The method `area_cumulation`: the buckets of equal rows of `normals_` with their
accumulated areas, sorted by decreasing area; the first `min(num_directions, #buckets)`
bucket normals are appended to `orientations`. -/
def area_cumulation (H : HashOrder) (o : AutoOrienter) (normals_ : MatrixX3f)
    (areas_ : VectorXf) (num_directions : Nat) : AutoOrienter :=
  let alignments0 : List (Vec3f × ℚ) :=
    (List.range areas_.size).foldl (fun m i => umap_insert m (normals_.row i) 0) []
  let alignments : List (Vec3f × ℚ) :=
    (List.range areas_.size).foldl (fun m i => umap_add m (normals_.row i) (areas_.coeff i))
      alignments0
  let align_counts := std_sort (fun p1 p2 => decide (p1.2 > p2.2)) (H.iterate_alignments alignments)
  let num_directions := min num_directions align_counts.length
  { o with orientations := o.orientations ++ (align_counts.take num_directions).map Prod.fst }

/-- The eighteen directions `vecs` of `add_supplements`. -/
def supplement_vecs : List Vec3f :=
  [⟨0, 0, -1⟩, ⟨70710678 / 100000000, 0, -(70710678 / 100000000)⟩,
   ⟨0, 70710678 / 100000000, -(70710678 / 100000000)⟩,
   ⟨-(70710678 / 100000000), 0, -(70710678 / 100000000)⟩,
   ⟨0, -(70710678 / 100000000), -(70710678 / 100000000)⟩,
   ⟨1, 0, 0⟩, ⟨70710678 / 100000000, 70710678 / 100000000, 0⟩, ⟨0, 1, 0⟩,
   ⟨-(70710678 / 100000000), 70710678 / 100000000, 0⟩,
   ⟨-1, 0, 0⟩, ⟨-(70710678 / 100000000), -(70710678 / 100000000), 0⟩, ⟨0, -1, 0⟩,
   ⟨70710678 / 100000000, -(70710678 / 100000000), 0⟩,
   ⟨70710678 / 100000000, 0, 70710678 / 100000000⟩,
   ⟨0, 70710678 / 100000000, 70710678 / 100000000⟩,
   ⟨-(70710678 / 100000000), 0, 70710678 / 100000000⟩,
   ⟨0, -(70710678 / 100000000), 70710678 / 100000000⟩, ⟨0, 0, 1⟩]

/-- The method `add_supplements`. -/
def add_supplements (o : AutoOrienter) : AutoOrienter :=
  { o with orientations := o.orientations ++ supplement_vecs }

/-- The loop of `remove_duplicates`: `kept` is the part of the vector before the iterator
`it` (nothing is erased there any more), the second list is the part from `it` on. -/
def remove_duplicates_loop (tol : ℚ) : List Vec3f → List Vec3f → List Vec3f
  | kept, [] => kept
  | kept, it :: rest =>
    let duplicate := kept.any (fun it_ok => it_ok.isApprox it tol)
    if duplicate || it.isApprox Vec3f.all_zero tol then remove_duplicates_loop tol kept rest
    else remove_duplicates_loop tol (kept ++ [it]) rest

/-- The method `remove_duplicates(tol)` on the vector `orientations`.  The scan starts at
`begin() + 1`; on an empty vector the loop body is never entered. -/
def remove_duplicates_list (tol : ℚ) : List Vec3f → List Vec3f
  | [] => []
  | first :: rest => remove_duplicates_loop tol [first] rest

/-- The method `remove_duplicates(tol)`. -/
def remove_duplicates (o : AutoOrienter) (tol : ℚ) : AutoOrienter :=
  { o with orientations := remove_duplicates_list tol o.orientations }

/-- The default argument `tol = 0.01` of `remove_duplicates`. -/
def default_tol : ℚ := 1 / 100

/-! ## Projection -/

/-- The projection `its.get_vertex(i, k).dot(orientation)` of corner `k` of facet `i`. -/
def vertex_z (m : TriangleMesh) (orientation : Vec3f) (i k : Nat) : ℚ :=
  (m.get_vertex i k).dot orientation

/-- The value `MAX3(z0, z1, z2)` of facet `i`. -/
def facet_z_max (m : TriangleMesh) (orientation : Vec3f) (i : Nat) : ℚ :=
  MAX3 (vertex_z m orientation i 0) (vertex_z m orientation i 1) (vertex_z m orientation i 2)

/-- The value `MEDIAN3(z0, z1, z2)` of facet `i`. -/
def facet_z_median (m : TriangleMesh) (orientation : Vec3f) (i : Nat) : ℚ :=
  MEDIAN3 (vertex_z m orientation i 0) (vertex_z m orientation i 1) (vertex_z m orientation i 2)

/-- The value `(z0 + z1 + z2) / 3` of facet `i`. -/
def facet_z_mean (m : TriangleMesh) (orientation : Vec3f) (i : Nat) : ℚ :=
  (vertex_z m orientation i 0 + vertex_z m orientation i 1 + vertex_z m orientation i 2) / 3

/-- The method `project_vertices`. -/
def project_vertices (o : AutoOrienter) (orientation : Vec3f) : AutoOrienter :=
  { o with
    z_projected := ⟨o.mesh.facets_count, fun i =>
      ⟨vertex_z o.mesh orientation i 0, vertex_z o.mesh orientation i 1,
        vertex_z o.mesh orientation i 2⟩⟩
    z_max := ⟨o.mesh.facets_count, facet_z_max o.mesh orientation⟩
    z_median := ⟨o.mesh.facets_count, facet_z_median o.mesh orientation⟩
    z_mean := ⟨o.mesh.facets_count, facet_z_mean o.mesh orientation⟩
    z_max_hull := ⟨o.mesh_convex_hull.facets_count, facet_z_max o.mesh_convex_hull orientation⟩ }

/-! ## Feature extraction -/

/-- The local `total_min_z = z_projected.minCoeff()` of `get_features`. -/
def total_min_z (o : AutoOrienter) : Option ℚ := o.z_projected.minCoeff

/-- The local `bottom_condition = z_max.array() < total_min_z + FIRST_LAY_H`, at index `i`. -/
def bottom_condition (o : AutoOrienter) (total_min_z : ℚ) (i : Nat) : Bool :=
  decide (o.z_max.coeff i < total_min_z + o.params.FIRST_LAY_H)

/-- The local `normal_projection(i) = normals.row(i).dot(orientation)`. -/
def normal_projection (o : AutoOrienter) (orientation : Vec3f) (i : Nat) : ℚ :=
  (o.normals.row i).dot orientation

/-- The local `areas_appearance = areas.cwiseProduct(is_apperance * APPERANCE_FACE_SUPP +
Ones)`, at index `i`. -/
def areas_appearance (o : AutoOrienter) (i : Nat) : ℚ :=
  o.areas.coeff i * (o.is_apperance.coeff i * o.params.APPERANCE_FACE_SUPP + 1)

/-- The local `overhang_areas = ((normal_projection < ASCENT) * (!bottom_condition))
.select(areas_appearance, 0)`, at index `i`. -/
def overhang_areas (o : AutoOrienter) (orientation : Vec3f) (total_min_z : ℚ) (i : Nat) : ℚ :=
  if decide (normal_projection o orientation i < o.params.ASCENT)
      && !bottom_condition o total_min_z i then areas_appearance o i
  else 0

/-- The local `inner = (normal_projection - ASCENT).cwiseMin(0).cwiseAbs()`, at index `i`. -/
def inner (o : AutoOrienter) (orientation : Vec3f) (i : Nat) : ℚ :=
  |min (normal_projection o orientation i - o.params.ASCENT) 0|

/-- The local `heights = z_mean.array() - total_min_z`, at index `i`. -/
def heights (o : AutoOrienter) (total_min_z : ℚ) (i : Nat) : ℚ :=
  o.z_mean.coeff i - total_min_z

/-- The local `laf_areas`, at index `i`: `areas` where the absolute normal projection is
below `LAF_MAX`, above `LAF_MIN`, and `z_max > total_min_z + FIRST_LAY_H`; zero elsewhere. -/
def laf_areas (o : AutoOrienter) (orientation : Vec3f) (total_min_z : ℚ) (i : Nat) : ℚ :=
  if decide (|normal_projection o orientation i| < o.params.LAF_MAX)
      && decide (|normal_projection o orientation i| > o.params.LAF_MIN)
      && decide (o.z_max.coeff i > total_min_z + o.params.FIRST_LAY_H) then o.areas.coeff i
  else 0

/-- The method `get_features` (with the contour estimate of the enabled `#if 1` branch).
Fields that are not assigned keep the zero of `CostItems()`. -/
def get_features (libm : Libm) (o : AutoOrienter) (orientation : Vec3f) (min_volume : Bool) :
    Option CostItems :=
  match total_min_z o with
  | none => none
  | some total_min_z =>
    let bottom :=
      eigen_sum o.z_max.size
        (fun i => if bottom_condition o total_min_z i then o.areas.coeff i else 0)
    let overhang :=
      if min_volume then
        eigen_sum o.z_mean.size (fun i =>
          heights o total_min_z i * overhang_areas o orientation total_min_z i
            * inner o orientation i)
      else
        eigen_sum o.normals.rows (fun i => |overhang_areas o orientation total_min_z i|)
    some
      { CostItems.zero with
        area_total := o.mesh.bounding_box_area
        radius := o.mesh.bounding_box_radius
        volume := if o.mesh.stats_volume > 0 then o.mesh.stats_volume else o.mesh.its_volume
        bottom := bottom
        overhang := overhang
        contour := 4 * libm.sqrt bottom
        bottom_hull :=
          eigen_sum o.z_max_hull.size (fun i =>
            if decide (o.z_max_hull.coeff i < total_min_z + o.params.FIRST_LAY_H)
            then o.areas_hull.coeff i else 0)
        area_laf := eigen_sum o.normals.rows (laf_areas o orientation total_min_z) }

/-! ## Cost model -/

/-- The method `target_function`: the returned cost and the feature set after the call
(the argument is passed by reference and its field `unprintability` is assigned). -/
def target_function (params : OrientParams) (costs : CostItems) (min_volume : Bool) :
    ℚ × CostItems :=
  let bottom := costs.bottom
  let bottom_hull := costs.bottom_hull
  let cost :=
    if min_volume then
      let overhang := costs.overhang / 25
      params.TAR_A * (overhang + params.TAR_B)
        + params.RELATIVE_F
            * (overhang * params.TAR_C + params.TAR_D
                + params.TAR_LAF * costs.area_laf * b2f params.use_low_angle_face)
          / (params.TAR_D + params.CONTOUR_F * costs.contour + params.BOTTOM_F * bottom
              + params.BOTTOM_HULL_F * bottom_hull + params.TAR_E * overhang
              + params.TAR_PROJ_AREA * costs.area_projected)
    else
      params.RELATIVE_F
          * (costs.overhang * params.TAR_C + params.TAR_D
              + params.TAR_LAF * costs.area_laf * b2f params.use_low_angle_face)
        / (params.TAR_D + params.CONTOUR_F * costs.contour + params.BOTTOM_F * bottom
            + params.BOTTOM_HULL_F * bottom_hull + params.TAR_PROJ_AREA * costs.area_projected)
  let cost := cost + b2f (decide (costs.bottom < params.BOTTOM_MIN)) * 100
  (cost, { costs with unprintability := cost })

/-! ## Selection -/

/-- Lines 112 to 123 of `process`: the candidate list is reset to the default direction,
extended by the mesh buckets, the hull buckets and the supplements, then deduplicated. -/
def process_candidates (H : HashOrder) (o : AutoOrienter) : AutoOrienter :=
  let o := { o with orientations := [⟨0, 0, -1⟩] }
  let o := area_cumulation H o o.normals o.areas 10
  let o := area_cumulation H o o.normals_hull o.areas_hull 10
  let o := add_supplements o
  remove_duplicates o default_tol

/-- The evaluation loop of `process` (lines 131 to 144) over the remaining candidates, with
the map `results` built so far. -/
def process_loop (libm : Libm) :
    AutoOrienter → List Vec3f → List (Vec3f × CostItems) → Option (List (Vec3f × CostItems))
  | _, [], results => some results
  | o, c :: rest, results =>
    let orientation := c.neg
    let o := project_vertices o orientation
    match get_features libm o orientation o.params.min_volume with
    | none => none
    | some cost_items =>
      let cost_items := (target_function o.params cost_items o.params.min_volume).2
      process_loop libm o rest (umap_assign results orientation cost_items)

/-- The map `results` of `process` once every candidate has been evaluated. -/
def process_results (H : HashOrder) (libm : Libm) (o : AutoOrienter) :
    Option (List (Vec3f × CostItems)) :=
  let o := process_candidates H o
  process_loop libm o o.orientations []

/-- The method `process`: the entries of `results` are copied to `results_vector` in the
iteration order of the map and sorted by `unprintability`; the direction of the first
entry is returned. -/
def process (H : HashOrder) (libm : Libm) (o : AutoOrienter) : Option Vec3f :=
  match process_results H libm o with
  | none => none
  | some results =>
    let results_vector :=
      std_sort (fun p1 p2 => decide (p1.2.unprintability < p2.2.unprintability))
        (H.iterate_results results)
    match results_vector with
    | [] => none
    | best :: _ => some best.1

/-- The unprintability that `process` computes for a direction: `project_vertices`, then
`get_features`, then `target_function`. -/
def unprintability_of (libm : Libm) (o : AutoOrienter) (orientation : Vec3f) : Option ℚ :=
  let o := project_vertices o orientation
  (get_features libm o orientation o.params.min_volume).map
    (fun cost_items => (target_function o.params cost_items o.params.min_volume).1)

/-- The feature set that `process` stores in `results` for a direction: the result of
`get_features` after `project_vertices`, with `unprintability` filled in by
`target_function`. -/
def evaluate (libm : Libm) (o : AutoOrienter) (orientation : Vec3f) : Option CostItems :=
  let o := project_vertices o orientation
  (get_features libm o orientation o.params.min_volume).map
    (fun cost_items => (target_function o.params cost_items o.params.min_volume).2)

/-- The state in which `get_features` runs for a direction: the orienter constructed for
the mesh, after `project_vertices(orientation)`. -/
def projected_orienter (libm : Libm) (om : OrientMesh) (params : OrientParams)
    (orientation : Vec3f) : AutoOrienter :=
  project_vertices (AutoOrienter.new libm om params) orientation

/-! ## Inputs used by the concrete checks -/

/-- A parameter set for the concrete checks, with `min_volume` on; `ASCENT` is the value
for an overhang angle of sixty degrees. -/
def sample_params : OrientParams :=
  { TAR_A := 15 / 1000, TAR_B := 177 / 1000, RELATIVE_F := 20, CONTOUR_F := 1 / 2,
    BOTTOM_F := 5 / 2, BOTTOM_HULL_F := 1 / 10, TAR_C := 1 / 10, TAR_D := 1,
    TAR_E := 115 / 10000, FIRST_LAY_H := 1 / 5, NEGL_FACE_SIZE := 1 / 10, ASCENT := -(1 / 2),
    LAF_MAX := 999 / 1000, LAF_MIN := 97 / 100, TAR_LAF := 1 / 1000, TAR_PROJ_AREA := 1 / 10,
    BOTTOM_MIN := 1 / 10, APPERANCE_FACE_SUPP := 3, use_low_angle_face := true,
    min_volume := true, parallel := false }

/-- A feature set with some overhang, resting on a bottom of area two. -/
def sample_costs : CostItems :=
  { CostItems.zero with overhang := 50, bottom := 2, bottom_hull := 3, contour := 4,
                        area_laf := 1 }

/-- A square root for the concrete checks: the root truncated to six decimals. -/
def sample_sqrt (q : ℚ) : ℚ := (Nat.sqrt (⌊q * 1000000000000⌋).toNat : ℚ) / 1000000

/-- Library functions for the concrete checks.  The cosine is the rational approximation
`cos(a deg) = (32400 - 4 a^2) / (32400 + a^2)`, exact at 0, 60 and 90 degrees. -/
def sample_libm : Libm :=
  ⟨sample_sqrt, fun a => -((32400 - 4 * a * a) / (32400 + a * a))⟩

/-- The twelve triangles of the unit cube resting on the plane `z = 0`: the three corners
and the outward normal of each. -/
def cube_facets : List (Vec3f × Vec3f × Vec3f × Vec3f) :=
  [(⟨0, 0, 0⟩, ⟨1, 1, 0⟩, ⟨1, 0, 0⟩, ⟨0, 0, -1⟩), (⟨0, 0, 0⟩, ⟨0, 1, 0⟩, ⟨1, 1, 0⟩, ⟨0, 0, -1⟩),
   (⟨0, 0, 1⟩, ⟨1, 0, 1⟩, ⟨1, 1, 1⟩, ⟨0, 0, 1⟩), (⟨0, 0, 1⟩, ⟨1, 1, 1⟩, ⟨0, 1, 1⟩, ⟨0, 0, 1⟩),
   (⟨0, 0, 0⟩, ⟨1, 0, 0⟩, ⟨1, 0, 1⟩, ⟨0, -1, 0⟩), (⟨0, 0, 0⟩, ⟨1, 0, 1⟩, ⟨0, 0, 1⟩, ⟨0, -1, 0⟩),
   (⟨0, 1, 0⟩, ⟨1, 1, 1⟩, ⟨1, 1, 0⟩, ⟨0, 1, 0⟩), (⟨0, 1, 0⟩, ⟨0, 1, 1⟩, ⟨1, 1, 1⟩, ⟨0, 1, 0⟩),
   (⟨0, 0, 0⟩, ⟨0, 0, 1⟩, ⟨0, 1, 1⟩, ⟨-1, 0, 0⟩), (⟨0, 0, 0⟩, ⟨0, 1, 1⟩, ⟨0, 1, 0⟩, ⟨-1, 0, 0⟩),
   (⟨1, 0, 0⟩, ⟨1, 1, 0⟩, ⟨1, 1, 1⟩, ⟨1, 0, 0⟩), (⟨1, 0, 0⟩, ⟨1, 1, 1⟩, ⟨1, 0, 1⟩, ⟨1, 0, 0⟩)]

/-- The unit cube as a mesh: twelve facets of area one half, none flagged as appearance. -/
def cube_mesh : TriangleMesh :=
  { facets_count := 12
    get_vertex := fun i k =>
      let f := cube_facets.getD i (Vec3f.all_zero, Vec3f.all_zero, Vec3f.all_zero, Vec3f.all_zero)
      match k with
      | 0 => f.1
      | 1 => f.2.1
      | _ => f.2.2.1
    facet_area := fun _ => 1 / 2
    face_normals := fun i =>
      (cube_facets.getD i (Vec3f.all_zero, Vec3f.all_zero, Vec3f.all_zero, Vec3f.all_zero)).2.2.2
    is_exterior_appearance := fun _ => false
    bounding_box_area := 6
    bounding_box_radius := 866 / 1000
    stats_volume := 1
    its_volume := 1 }

/-- The unit cube with its hull (the cube itself) and an overhang angle of sixty degrees. -/
def cube_orient_mesh : OrientMesh := ⟨cube_mesh, cube_mesh, 60⟩

/-- The orienter of the unit cube with the sample weights. -/
def cube_orienter : AutoOrienter := AutoOrienter.new sample_libm cube_orient_mesh sample_params

/-- The weights of the cost model are non-negative and `TAR_D` is positive. -/
def OrientParams.nonneg_weights (p : OrientParams) : Prop :=
  0 ≤ p.TAR_A ∧ 0 ≤ p.TAR_B ∧ 0 ≤ p.RELATIVE_F ∧ 0 ≤ p.CONTOUR_F ∧ 0 ≤ p.BOTTOM_F
    ∧ 0 ≤ p.BOTTOM_HULL_F ∧ 0 ≤ p.TAR_C ∧ 0 < p.TAR_D ∧ 0 ≤ p.TAR_E ∧ 0 ≤ p.TAR_LAF
    ∧ 0 ≤ p.TAR_PROJ_AREA

/-- The features read by the cost model are non-negative. -/
def CostItems.nonneg_fields (c : CostItems) : Prop :=
  0 ≤ c.overhang ∧ 0 ≤ c.bottom ∧ 0 ≤ c.bottom_hull ∧ 0 ≤ c.contour ∧ 0 ≤ c.area_laf
    ∧ 0 ≤ c.area_projected


/-- The unit cube with every facet flagged as exterior appearance. -/
def cube_mesh_appearance : TriangleMesh :=
  { cube_mesh with is_exterior_appearance := fun _ => true }

/-- The flagged unit cube with its hull and an overhang angle of sixty degrees. -/
def cube_appearance_orient_mesh : OrientMesh :=
  ⟨cube_mesh_appearance, cube_mesh_appearance, 60⟩

/-- The unit cube with one more facet, a needle along the edge through the origin: corners
`(0, 0, 0)`, `(1/100, 0, 0)` and the tip `(0, 0, tip)`, of area `|tip| / 200`. -/
def needle_cube_mesh (tip : ℚ) : TriangleMesh :=
  { cube_mesh with
    facets_count := 13
    get_vertex := fun i k =>
      if i = 12 then
        match k with
        | 0 => ⟨0, 0, 0⟩
        | 1 => ⟨1 / 100, 0, 0⟩
        | _ => ⟨0, 0, tip⟩
      else cube_mesh.get_vertex i k
    facet_area := fun i => if i = 12 then |tip| / 200 else 1 / 2
    face_normals := fun i => if i = 12 then ⟨0, -1, 0⟩ else cube_mesh.face_normals i }

/-- The cube with a needle, with the plain cube standing in for its hull, and an overhang
angle of sixty degrees. -/
def needle_cube_orient_mesh (tip : ℚ) : OrientMesh := ⟨needle_cube_mesh tip, cube_mesh, 60⟩

/-! ## Batch orchestration -/

/-- A `Matrix3d`, by rows. -/
structure Matrix3d where
  row0 : Vec3f
  row1 : Vec3f
  row2 : Vec3f
deriving DecidableEq

/-- The utilities of `Geometry` that `_orient` calls.  `rotation_from_two_vectors from to`
gives the axis, the angle and the rotation matrix that the source receives through its
output arguments. -/
structure Geometry where
  rotation_from_two_vectors : Vec3f → Vec3f → Vec3f × ℚ × Matrix3d
  extract_euler_angles : Matrix3d → Vec3f

/-- Modelled from the spec: the result fields of an element of `OrientMeshs` (the struct
is declared in Orient.hpp, which is not part of the sources at hand).  `input` holds what
the engine reads; `orientation`, `axis`, `angle`, `rotation_matrix` and `euler_angles`
are the fields `_orient` writes (the Mesh Orientation Result of the specification). -/
structure OrientMeshSlot where
  input : OrientMesh
  orientation : Vec3f
  axis : Vec3f
  angle : ℚ
  rotation_matrix : Matrix3d
  euler_angles : Vec3f

/-- The body of the loops of `_orient` for one mesh: construct the orienter, run
`process`, store the direction and the rotation derived from it.  The parallel branch
also stores the Euler angles.  The stop condition handed to the constructor is not
stored by it. -/
def orient_one (H : HashOrder) (libm : Libm) (geo : Geometry) (params : OrientParams)
    (with_euler : Bool) (mesh_ : OrientMeshSlot) : Option OrientMeshSlot :=
  match process H libm (AutoOrienter.new libm mesh_.input params) with
  | none => none
  | some orientation =>
    let r := geo.rotation_from_two_vectors orientation ⟨0, 0, 1⟩
    some
      { mesh_ with
        orientation := orientation
        axis := r.1
        angle := r.2.1
        rotation_matrix := r.2.2
        euler_angles := if with_euler then geo.extract_euler_angles r.2.2
                        else mesh_.euler_angles }

/-- The loop `for (size_t i = 0; i != meshs_.size(); ++i)` of `_orient` from index `i` on:
the meshes after the loop and the indices passed to `progressfn`, in call order. -/
def orient_loop (H : HashOrder) (libm : Libm) (geo : Geometry) (params : OrientParams)
    (with_euler : Bool) : Nat → List OrientMeshSlot → Option (List OrientMeshSlot × List Nat)
  | _, [] => some ([], [])
  | i, mesh_ :: rest =>
    match orient_one H libm geo params with_euler mesh_ with
    | none => none
    | some done =>
      match orient_loop H libm geo params with_euler (i + 1) rest with
      | none => none
      | some (meshes, calls) => some (done :: meshes, i :: calls)

/-- The function `_orient`.  `stopfn k` is what the stop predicate would answer if it
were polled before mesh `k` is started; no statement of `_orient` calls it.  In the
parallel branch the same body runs once for every index; the progress calls are listed
by index there, their real order being left to the scheduler. -/
def _orient (H : HashOrder) (libm : Libm) (geo : Geometry) (meshs_ : List OrientMeshSlot)
    (params : OrientParams) (stopfn : Nat → Bool) :
    Option (List OrientMeshSlot × List Nat) :=
  let _ := stopfn
  if !params.parallel then orient_loop H libm geo params false 0 meshs_
  else orient_loop H libm geo params true 0 meshs_

/-- Rotation utilities for the concrete checks: the axis is the cross product of the two
vectors; angle and matrix are placeholders (zero, identity). -/
def sample_geometry : Geometry :=
  { rotation_from_two_vectors := fun a b =>
      (⟨a.y * b.z - a.z * b.y, a.z * b.x - a.x * b.z, a.x * b.y - a.y * b.x⟩, 0,
        ⟨⟨1, 0, 0⟩, ⟨0, 1, 0⟩, ⟨0, 0, 1⟩⟩)
    extract_euler_angles := fun _ => ⟨0, 0, 0⟩ }

/-- The unit cube as an element of `OrientMeshs`, no orientation computed yet. -/
def cube_slot : OrientMeshSlot :=
  { input := cube_orient_mesh
    orientation := ⟨0, 0, 0⟩
    axis := ⟨0, 0, 0⟩
    angle := 0
    rotation_matrix := ⟨⟨1, 0, 0⟩, ⟨0, 1, 0⟩, ⟨0, 0, 1⟩⟩
    euler_angles := ⟨0, 0, 0⟩ }

/-! ## The buckets of `area_cumulation` -/

/-- The map `alignments` of `area_cumulation` after its first loop (every key inserted with
value zero). -/
def alignments_init (normals_ : MatrixX3f) (areas_ : VectorXf) : List (Vec3f × ℚ) :=
  (List.range areas_.size).foldl (fun m i => umap_insert m (normals_.row i) 0) []

/-- The map `alignments` of `area_cumulation` after its second loop (areas accumulated). -/
def alignments_of (normals_ : MatrixX3f) (areas_ : VectorXf) : List (Vec3f × ℚ) :=
  (List.range areas_.size).foldl (fun m i => umap_add m (normals_.row i) (areas_.coeff i))
    (alignments_init normals_ areas_)

/-- The directions that `area_cumulation` pushes onto `orientations`. -/
def area_cumulation_added (H : HashOrder) (normals_ : MatrixX3f) (areas_ : VectorXf)
    (num_directions : Nat) : List Vec3f :=
  ((std_sort (fun p1 p2 => decide (p1.2 > p2.2))
      (H.iterate_alignments (alignments_of normals_ areas_))).take
    (min num_directions
      (std_sort (fun p1 p2 => decide (p1.2 > p2.2))
        (H.iterate_alignments (alignments_of normals_ areas_))).length)).map Prod.fst

/-- The buckets of a normals matrix, in the words of the specification: the distinct rows
among the first `areas_.size()` rows. -/
def buckets (normals_ : MatrixX3f) (areas_ : VectorXf) : Finset Vec3f :=
  (Finset.range areas_.size).image normals_.row

/-- The accumulated area of a bucket, in the words of the specification: the sum of the
areas of the facets whose row of the normals matrix equals the bucket normal. -/
def bucket_area (normals_ : MatrixX3f) (areas_ : VectorXf) (v : Vec3f) : ℚ :=
  ∑ i ∈ (Finset.range areas_.size).filter (fun i => normals_.row i = v), areas_.coeff i

/-- Lines 112 to 118 of `process`: the candidate list before `remove_duplicates`. -/
def process_collect (H : HashOrder) (o : AutoOrienter) : AutoOrienter :=
  let o := { o with orientations := [⟨0, 0, -1⟩] }
  let o := area_cumulation H o o.normals o.areas 10
  let o := area_cumulation H o o.normals_hull o.areas_hull 10
  add_supplements o

/-- Eleven pairwise different unit normals: the six axis directions and five tilted ones. -/
def eleven_normals : List Vec3f :=
  [⟨0, 0, -1⟩, ⟨0, 0, 1⟩, ⟨0, -1, 0⟩, ⟨0, 1, 0⟩, ⟨-1, 0, 0⟩, ⟨1, 0, 0⟩,
   ⟨3 / 5, 4 / 5, 0⟩, ⟨4 / 5, 3 / 5, 0⟩, ⟨-(3 / 5), 4 / 5, 0⟩, ⟨3 / 5, -(4 / 5), 0⟩,
   ⟨0, 3 / 5, 4 / 5⟩]

/-- A mesh with eleven facets of area one, facet `i` having the normal `eleven_normals[i]`.
The corner positions play no role in candidate generation and are left at the origin. -/
def eleven_mesh : TriangleMesh :=
  { facets_count := 11
    get_vertex := fun _ _ => ⟨0, 0, 0⟩
    facet_area := fun _ => 1
    face_normals := fun i => eleven_normals.getD i Vec3f.all_zero
    is_exterior_appearance := fun _ => false
    bounding_box_area := 6
    bounding_box_radius := 1
    stats_volume := 1
    its_volume := 1 }

/-- The orienter of the mesh with eleven normals (the unit cube standing in for its hull),
sample weights. -/
def eleven_orienter : AutoOrienter :=
  AutoOrienter.new sample_libm ⟨eleven_mesh, cube_mesh, 60⟩ sample_params

/-- The twelve triangles of the axis-aligned box `[0,a] x [0,a] x [0,h]`: the three corners
and the outward normal of each (bottom, top, then the four sides). -/
def box_facets (a h : ℚ) : List (Vec3f × Vec3f × Vec3f × Vec3f) :=
  [(⟨0, 0, 0⟩, ⟨a, a, 0⟩, ⟨a, 0, 0⟩, ⟨0, 0, -1⟩), (⟨0, 0, 0⟩, ⟨0, a, 0⟩, ⟨a, a, 0⟩, ⟨0, 0, -1⟩),
   (⟨0, 0, h⟩, ⟨a, 0, h⟩, ⟨a, a, h⟩, ⟨0, 0, 1⟩), (⟨0, 0, h⟩, ⟨a, a, h⟩, ⟨0, a, h⟩, ⟨0, 0, 1⟩),
   (⟨0, 0, 0⟩, ⟨a, 0, 0⟩, ⟨a, 0, h⟩, ⟨0, -1, 0⟩), (⟨0, 0, 0⟩, ⟨a, 0, h⟩, ⟨0, 0, h⟩, ⟨0, -1, 0⟩),
   (⟨0, a, 0⟩, ⟨a, a, h⟩, ⟨a, a, 0⟩, ⟨0, 1, 0⟩), (⟨0, a, 0⟩, ⟨0, a, h⟩, ⟨a, a, h⟩, ⟨0, 1, 0⟩),
   (⟨0, 0, 0⟩, ⟨0, 0, h⟩, ⟨0, a, h⟩, ⟨-1, 0, 0⟩), (⟨0, 0, 0⟩, ⟨0, a, h⟩, ⟨0, a, 0⟩, ⟨-1, 0, 0⟩),
   (⟨a, 0, 0⟩, ⟨a, a, 0⟩, ⟨a, a, h⟩, ⟨1, 0, 0⟩), (⟨a, 0, 0⟩, ⟨a, a, h⟩, ⟨a, 0, h⟩, ⟨1, 0, 0⟩)]

/-- The box of base `a x a` and height `h` as a mesh: facets 0 to 3 (bottom and top) have
area `a*a/2`, facets 4 to 11 (sides) have area `a*h/2`.  Bounding box and volume are not
read by the score; the radius is given as `h`. -/
def box_mesh (a h : ℚ) : TriangleMesh :=
  { facets_count := 12
    get_vertex := fun i k =>
      let f := (box_facets a h).getD i
        (Vec3f.all_zero, Vec3f.all_zero, Vec3f.all_zero, Vec3f.all_zero)
      match k with
      | 0 => f.1
      | 1 => f.2.1
      | _ => f.2.2.1
    facet_area := fun i => if i < 4 then a * a / 2 else a * h / 2
    face_normals := fun i =>
      ((box_facets a h).getD i
        (Vec3f.all_zero, Vec3f.all_zero, Vec3f.all_zero, Vec3f.all_zero)).2.2.2
    is_exterior_appearance := fun _ => false
    bounding_box_area := 2 * a * a + 4 * a * h
    bounding_box_radius := h
    stats_volume := a * a * h
    its_volume := a * a * h }

/-- The box with itself as hull. -/
def box_orient_mesh (a h angle : ℚ) : OrientMesh := ⟨box_mesh a h, box_mesh a h, angle⟩

/-- Every weight of the cost model is strictly positive. -/
def OrientParams.pos_weights (p : OrientParams) : Prop :=
  0 < p.TAR_A ∧ 0 < p.TAR_B ∧ 0 < p.RELATIVE_F ∧ 0 < p.CONTOUR_F ∧ 0 < p.BOTTOM_F
    ∧ 0 < p.BOTTOM_HULL_F ∧ 0 < p.TAR_C ∧ 0 < p.TAR_D ∧ 0 < p.TAR_E ∧ 0 < p.TAR_LAF
    ∧ 0 < p.TAR_PROJ_AREA

/-- The square root of the library is non-negative and monotone on non-negative
arguments. -/
def Libm.sqrt_monotone (libm : Libm) : Prop :=
  (∀ x, 0 ≤ libm.sqrt x) ∧ ∀ x y, 0 ≤ x → x ≤ y → libm.sqrt x ≤ libm.sqrt y

/-- The six axis directions for the box `[0,a] x [0,a] x [0,h]`: the direction, the index
of the first of the two facets of the face that then rests on the bed, the lowest
projected height, and the extent of the box along the direction. -/
def box_directions (a h : ℚ) : List (Vec3f × Nat × ℚ × ℚ) :=
  [(⟨0, 0, 1⟩, 0, 0, h), (⟨0, 0, -1⟩, 2, -h, h), (⟨0, 1, 0⟩, 4, 0, a), (⟨0, -1, 0⟩, 6, -a, a),
   (⟨1, 0, 0⟩, 8, 0, a), (⟨-1, 0, 0⟩, 10, -a, a)]

/-! ## The median of three -/

/-- Following the wording of the specification ("median of the three"): the middle entry
of the triple once it is sorted in ascending order. -/
def spec_sorted_middle (z0 z1 z2 : ℚ) : ℚ :=
  (std_sort (fun a b => decide (a < b)) [z0, z1, z2]).getD 1 0

/-! ## The quotient of the cost model -/

/-- The C library contract of `sqrt` as far as the engine relies on it: the root of a
number that is not negative is not negative. -/
def Libm.sqrt_nonneg (libm : Libm) : Prop := ∀ x, 0 ≤ x → 0 ≤ libm.sqrt x

/-- The dividend of the quotient in `target_function`; `overhang` is `costs.overhang / 25`
in volume-minimizing mode and `costs.overhang` otherwise. -/
def target_function_dividend (params : OrientParams) (costs : CostItems)
    (min_volume : Bool) : ℚ :=
  if min_volume then
    params.RELATIVE_F
      * (costs.overhang / 25 * params.TAR_C + params.TAR_D
          + params.TAR_LAF * costs.area_laf * b2f params.use_low_angle_face)
  else
    params.RELATIVE_F
      * (costs.overhang * params.TAR_C + params.TAR_D
          + params.TAR_LAF * costs.area_laf * b2f params.use_low_angle_face)

/-- The divisor of the quotient in `target_function`: in volume-minimizing mode with the
term `TAR_E * overhang`, where `overhang` is `costs.overhang / 25`; otherwise without. -/
def target_function_divisor (params : OrientParams) (costs : CostItems)
    (min_volume : Bool) : ℚ :=
  if min_volume then
    params.TAR_D + params.CONTOUR_F * costs.contour + params.BOTTOM_F * costs.bottom
      + params.BOTTOM_HULL_F * costs.bottom_hull + params.TAR_E * (costs.overhang / 25)
      + params.TAR_PROJ_AREA * costs.area_projected
  else
    params.TAR_D + params.CONTOUR_F * costs.contour + params.BOTTOM_F * costs.bottom
      + params.BOTTOM_HULL_F * costs.bottom_hull + params.TAR_PROJ_AREA * costs.area_projected

/-! ## The lengths of the candidates -/

end Slic3r.orientation

/-! ## The spin control (slic3r/GUI/Widgets/SpinInput.cpp)

`int` values are integers: `SetRange`, `SetValue(int)` and `GetValue` only compare and copy
them, so no arithmetic can overflow. -/

/-- The wxWidgets string conversion the control calls: `FromDouble v` stands for
`wxString::FromDouble(v)` of an `int` converted to `double`. -/
structure WxString where
  FromDouble : Int → String

/-- The members of `SpinInput` that `SetRange`, `SetValue(int)` and `GetValue` access;
`text_ctrl` is the content of the text control. -/
structure SpinInput where
  val : Int
  min : Int
  max : Int
  text_ctrl : String

/-- The method `SpinInput::SetRange(int min, int max)`. -/
def SpinInput.SetRange (s : SpinInput) (min max : Int) : SpinInput :=
  { s with min := min, max := max }

/-- The method `SpinInput::SetValue(int value)`. -/
def SpinInput.SetValue (wx : WxString) (s : SpinInput) (value : Int) : SpinInput :=
  let value := if value < s.min then s.min else if value > s.max then s.max else value
  { s with val := value, text_ctrl := wx.FromDouble value }

/-- The method `SpinInput::GetValue()`. -/
def SpinInput.GetValue (s : SpinInput) : Int := s.val

/-- A string conversion for the concrete checks: the decimal digits of the number. -/
def sample_wx : WxString := ⟨fun v => toString v⟩

/-- A control for the concrete checks, showing `5` in the range `0..10`. -/
def sample_spin : SpinInput := ⟨5, 0, 10, "5"⟩

namespace Slic3r.orientation

/-! ## Theorems: deduplication -/

theorem isApprox_all_zero_self (tol : ℚ) :
    Vec3f.all_zero.isApprox Vec3f.all_zero tol = true := by
  simp [Vec3f.isApprox, Vec3f.sub, Vec3f.squaredNorm, Vec3f.all_zero]

theorem remove_duplicates_loop_pairwise (tol : ℚ) (rest : List Vec3f) :
    ∀ kept : List Vec3f, kept.Pairwise (fun a b => a.isApprox b tol = false) →
      (remove_duplicates_loop tol kept rest).Pairwise (fun a b => a.isApprox b tol = false) := by
  induction rest with
  | nil => intro kept hk; simpa [remove_duplicates_loop] using hk
  | cons it rest ih =>
    intro kept hk
    unfold remove_duplicates_loop
    by_cases hdup : (kept.any (fun it_ok => it_ok.isApprox it tol)
        || it.isApprox Vec3f.all_zero tol) = true
    · simp only [hdup, if_true]
      exact ih kept hk
    · simp only [hdup]
      apply ih
      rw [List.pairwise_append]
      refine ⟨hk, List.pairwise_singleton _ _, ?_⟩
      intro a ha b hb
      rw [List.mem_singleton] at hb
      subst hb
      simp only [Bool.or_eq_true, List.any_eq_true, not_or, not_exists, not_and] at hdup
      simpa using hdup.1 a ha

theorem remove_duplicates_loop_no_zero (tol : ℚ) (rest : List Vec3f) :
    ∀ kept : List Vec3f, Vec3f.all_zero ∉ kept →
      Vec3f.all_zero ∉ remove_duplicates_loop tol kept rest := by
  induction rest with
  | nil => intro kept hk; simpa [remove_duplicates_loop] using hk
  | cons it rest ih =>
    intro kept hk
    unfold remove_duplicates_loop
    by_cases hdup : (kept.any (fun it_ok => it_ok.isApprox it tol)
        || it.isApprox Vec3f.all_zero tol) = true
    · simp only [hdup, if_true]
      exact ih kept hk
    · simp only [hdup]
      apply ih
      intro hmem
      rw [List.mem_append, List.mem_singleton] at hmem
      rcases hmem with hmem | hmem
      · exact hk hmem
      · apply hdup
        rw [← hmem, isApprox_all_zero_self]
        simp

theorem remove_duplicates_loop_keeps (tol : ℚ) (rest : List Vec3f) :
    ∀ kept : List Vec3f, ∃ tail, remove_duplicates_loop tol kept rest = kept ++ tail := by
  induction rest with
  | nil => intro kept; exact ⟨[], by simp [remove_duplicates_loop]⟩
  | cons it rest ih =>
    intro kept
    unfold remove_duplicates_loop
    by_cases hdup : (kept.any (fun it_ok => it_ok.isApprox it tol)
        || it.isApprox Vec3f.all_zero tol) = true
    · simp only [hdup, if_true]
      exact ih kept
    · simp only [hdup]
      obtain ⟨tail, ht⟩ := ih (kept ++ [it])
      exact ⟨it :: tail, by simp [ht]⟩

theorem area_cumulation_orientations (H : HashOrder) (o : AutoOrienter) (normals_ : MatrixX3f)
    (areas_ : VectorXf) (num_directions : Nat) :
    ∃ added, (area_cumulation H o normals_ areas_ num_directions).orientations
      = o.orientations ++ added := by
  exact ⟨_, rfl⟩

theorem process_candidates_shape (H : HashOrder) (o : AutoOrienter) :
    ∃ rest, (process_candidates H o).orientations
      = remove_duplicates_loop default_tol [⟨0, 0, -1⟩] rest := by
  exact ⟨_, rfl⟩

theorem process_candidates_default_first (H : HashOrder) (o : AutoOrienter) :
    ∃ tail, (process_candidates H o).orientations = ⟨0, 0, -1⟩ :: tail := by
  obtain ⟨rest, hrest⟩ := process_candidates_shape H o
  obtain ⟨tail, htail⟩ := remove_duplicates_loop_keeps default_tol rest [⟨0, 0, -1⟩]
  exact ⟨tail, by rw [hrest, htail]; rfl⟩

/-- Claim C2.  After `remove_duplicates(tol)` the closeness test of the scan,
`isApprox` with the same tolerance, fails for every pair of retained candidates taken in
list order (positions `i < j`), whatever the candidate list and the tolerance. -/
theorem remove_duplicates_no_close_pair (tol : ℚ) (orientations : List Vec3f) :
    (remove_duplicates_list tol orientations).Pairwise
      (fun a b => a.isApprox b tol = false) := by
  cases orientations with
  | nil => simp [remove_duplicates_list]
  | cons first rest =>
    exact remove_duplicates_loop_pairwise tol rest [first] (List.pairwise_singleton _ _)

/-- Claim C3.  The candidate list that `process` evaluates never contains the zero vector,
for every state of the orienter (so for every mesh, also one whose skipped facets put the
all-zero normal bucket among the candidates). -/
theorem process_candidates_no_zero (H : HashOrder) (o : AutoOrienter) :
    Vec3f.all_zero ∉ (process_candidates H o).orientations := by
  obtain ⟨rest, hrest⟩ := process_candidates_shape H o
  rw [hrest]
  apply remove_duplicates_loop_no_zero
  simp [Vec3f.all_zero]

/-- Claim C4.  The candidate list built by `process` is never empty and its first element
is the default direction `(0, 0, -1)`, for every state of the orienter (so for every mesh,
also one without any facet above the negligible-area threshold). -/
theorem process_candidates_head (H : HashOrder) (o : AutoOrienter) :
    (process_candidates H o).orientations ≠ []
      ∧ (process_candidates H o).orientations.head? = some ⟨0, 0, -1⟩ := by
  obtain ⟨tail, htail⟩ := process_candidates_default_first H o
  rw [htail]
  simp

/-! ## Theorems: cost model -/

/-- Claim C5.  In volume-minimizing mode `target_function` returns, with
`o = overhang / 25`, the value
`TAR_A*(o + TAR_B) + RELATIVE_F*(o*TAR_C + TAR_D + TAR_LAF*area_laf*use_low_angle_face)
 / (TAR_D + CONTOUR_F*contour + BOTTOM_F*bottom + BOTTOM_HULL_F*bottom_hull + TAR_E*o
    + TAR_PROJ_AREA*area_projected)`
plus `100` exactly when `bottom < BOTTOM_MIN`; the feature set after the call is the
argument with `unprintability` set to the returned value and every other field as before. -/
theorem target_function_min_volume (params : OrientParams) (costs : CostItems) :
    (target_function params costs true).1
        = params.TAR_A * (costs.overhang / 25 + params.TAR_B)
          + params.RELATIVE_F
              * (costs.overhang / 25 * params.TAR_C + params.TAR_D
                  + params.TAR_LAF * costs.area_laf * b2f params.use_low_angle_face)
            / (params.TAR_D + params.CONTOUR_F * costs.contour + params.BOTTOM_F * costs.bottom
                + params.BOTTOM_HULL_F * costs.bottom_hull + params.TAR_E * (costs.overhang / 25)
                + params.TAR_PROJ_AREA * costs.area_projected)
          + (if costs.bottom < params.BOTTOM_MIN then 100 else 0)
      ∧ (target_function params costs true).2
          = { costs with unprintability := (target_function params costs true).1 } := by
  constructor
  · by_cases hb : costs.bottom < params.BOTTOM_MIN <;> simp [target_function, b2f, hb]
  · rfl

/-- Claim C6 as stated fails: with the sample weights and a feature set of overhang 50
whose bottom is above `BOTTOM_MIN`, legacy mode does not return the rational function of
volume-minimizing mode (divisor with `TAR_E*overhang`) without its leading term. -/
theorem legacy_formula_differs :
    (target_function sample_params sample_costs false).1
      ≠ sample_params.RELATIVE_F
          * (sample_costs.overhang * sample_params.TAR_C + sample_params.TAR_D
              + sample_params.TAR_LAF * sample_costs.area_laf
                * b2f sample_params.use_low_angle_face)
        / (sample_params.TAR_D + sample_params.CONTOUR_F * sample_costs.contour
            + sample_params.BOTTOM_F * sample_costs.bottom
            + sample_params.BOTTOM_HULL_F * sample_costs.bottom_hull
            + sample_params.TAR_E * sample_costs.overhang
            + sample_params.TAR_PROJ_AREA * sample_costs.area_projected) := by
  norm_num [target_function, sample_params, sample_costs, CostItems.zero, b2f]

/-- Claim C6, amended.  In legacy mode, for a feature set with `bottom >= BOTTOM_MIN`,
`target_function` returns
`RELATIVE_F*(overhang*TAR_C + TAR_D + TAR_LAF*area_laf*use_low_angle_face)
 / (TAR_D + CONTOUR_F*contour + BOTTOM_F*bottom + BOTTOM_HULL_F*bottom_hull
    + TAR_PROJ_AREA*area_projected)`:
the overhang is not normalized, the leading term is absent, and the divisor has no
`TAR_E*overhang` term. -/
theorem target_function_legacy (params : OrientParams) (costs : CostItems)
    (hbottom : params.BOTTOM_MIN ≤ costs.bottom) :
    (target_function params costs false).1
      = params.RELATIVE_F
          * (costs.overhang * params.TAR_C + params.TAR_D
              + params.TAR_LAF * costs.area_laf * b2f params.use_low_angle_face)
        / (params.TAR_D + params.CONTOUR_F * costs.contour + params.BOTTOM_F * costs.bottom
            + params.BOTTOM_HULL_F * costs.bottom_hull
            + params.TAR_PROJ_AREA * costs.area_projected) := by
  have hb : ¬ costs.bottom < params.BOTTOM_MIN := not_lt.mpr hbottom
  simp [target_function, b2f, hb]

/-- Claim C6, amended, at the sample weights and a feature set of overhang 50. -/
theorem target_function_legacy_witness :
    sample_params.BOTTOM_MIN ≤ sample_costs.bottom
      ∧ (target_function sample_params sample_costs false).1
        = sample_params.RELATIVE_F
            * (sample_costs.overhang * sample_params.TAR_C + sample_params.TAR_D
                + sample_params.TAR_LAF * sample_costs.area_laf
                  * b2f sample_params.use_low_angle_face)
          / (sample_params.TAR_D + sample_params.CONTOUR_F * sample_costs.contour
              + sample_params.BOTTOM_F * sample_costs.bottom
              + sample_params.BOTTOM_HULL_F * sample_costs.bottom_hull
              + sample_params.TAR_PROJ_AREA * sample_costs.area_projected) :=
  ⟨by norm_num [sample_params, sample_costs, CostItems.zero],
   target_function_legacy sample_params sample_costs
     (by norm_num [sample_params, sample_costs, CostItems.zero])⟩

theorem b2f_nonneg (b : Bool) : 0 ≤ b2f b := by
  cases b <;> simp [b2f]

/-- Claim C7.  With non-negative weights and `TAR_D > 0`, in both modes, if two feature
sets with non-negative fields differ only in `bottom`, the first below `BOTTOM_MIN` and the
second at or above it, then the first scores at least `100` more than the second.  (The
fields of the second set are then non-negative as well: its bottom is the larger one.) -/
theorem target_function_bottom_penalty (params : OrientParams) (costs : CostItems)
    (bottom1 bottom2 : ℚ) (min_volume : Bool)
    (hweights : params.nonneg_weights)
    (hfields : ({ costs with bottom := bottom1 } : CostItems).nonneg_fields)
    (hbelow : bottom1 < params.BOTTOM_MIN) (habove : params.BOTTOM_MIN ≤ bottom2) :
    (target_function params { costs with bottom := bottom2 } min_volume).1 + 100
      ≤ (target_function params { costs with bottom := bottom1 } min_volume).1 := by
  obtain ⟨_, _, hF, hCF, hBF, hBHF, hC, hD, hE, hLAF, hPA⟩ := hweights
  obtain ⟨hov, hb1, hbh, hct, hlaf, hap⟩ := hfields
  simp only at hov hb1 hbh hct hlaf hap
  have hnb : ¬ bottom2 < params.BOTTOM_MIN := not_lt.mpr habove
  have hle : bottom1 ≤ bottom2 := le_trans (le_of_lt hbelow) habove
  have hmul : params.BOTTOM_F * bottom1 ≤ params.BOTTOM_F * bottom2 :=
    mul_le_mul_of_nonneg_left hle hBF
  have hu := b2f_nonneg params.use_low_angle_face
  have h25 : 0 ≤ costs.overhang / 25 := div_nonneg hov (by norm_num)
  cases min_volume
  · simp only [target_function, b2f, hbelow, hnb, decide_True, decide_False, if_true,
      Bool.false_eq_true, if_false]
    have hnum : 0 ≤ params.RELATIVE_F * (costs.overhang * params.TAR_C + params.TAR_D
        + params.TAR_LAF * costs.area_laf * b2f params.use_low_angle_face) := by positivity
    have hden : 0 < params.TAR_D + params.CONTOUR_F * costs.contour + params.BOTTOM_F * bottom1
        + params.BOTTOM_HULL_F * costs.bottom_hull
        + params.TAR_PROJ_AREA * costs.area_projected := by positivity
    have hdiv := div_le_div_of_nonneg_left hnum hden
      (show params.TAR_D + params.CONTOUR_F * costs.contour + params.BOTTOM_F * bottom1
          + params.BOTTOM_HULL_F * costs.bottom_hull
          + params.TAR_PROJ_AREA * costs.area_projected
        ≤ params.TAR_D + params.CONTOUR_F * costs.contour + params.BOTTOM_F * bottom2
          + params.BOTTOM_HULL_F * costs.bottom_hull
          + params.TAR_PROJ_AREA * costs.area_projected by linarith)
    simp only [b2f] at hdiv
    linarith
  · simp only [target_function, b2f, hbelow, hnb, decide_True, decide_False, if_true,
      Bool.false_eq_true, if_false]
    have hnum : 0 ≤ params.RELATIVE_F * (costs.overhang / 25 * params.TAR_C + params.TAR_D
        + params.TAR_LAF * costs.area_laf * b2f params.use_low_angle_face) := by positivity
    have hden : 0 < params.TAR_D + params.CONTOUR_F * costs.contour + params.BOTTOM_F * bottom1
        + params.BOTTOM_HULL_F * costs.bottom_hull + params.TAR_E * (costs.overhang / 25)
        + params.TAR_PROJ_AREA * costs.area_projected := by positivity
    have hdiv := div_le_div_of_nonneg_left hnum hden
      (show params.TAR_D + params.CONTOUR_F * costs.contour + params.BOTTOM_F * bottom1
          + params.BOTTOM_HULL_F * costs.bottom_hull + params.TAR_E * (costs.overhang / 25)
          + params.TAR_PROJ_AREA * costs.area_projected
        ≤ params.TAR_D + params.CONTOUR_F * costs.contour + params.BOTTOM_F * bottom2
          + params.BOTTOM_HULL_F * costs.bottom_hull + params.TAR_E * (costs.overhang / 25)
          + params.TAR_PROJ_AREA * costs.area_projected by linarith)
    simp only [b2f] at hdiv
    linarith

/-- Claim C7 at the sample weights: bottom areas `1/20` and `2`, both modes being
covered by the theorem, here volume-minimizing mode. -/
theorem target_function_bottom_penalty_witness :
    sample_params.nonneg_weights
      ∧ ({ sample_costs with bottom := 1 / 20 } : CostItems).nonneg_fields
      ∧ (1 / 20 : ℚ) < sample_params.BOTTOM_MIN ∧ sample_params.BOTTOM_MIN ≤ 2
      ∧ (target_function sample_params { sample_costs with bottom := 2 } true).1 + 100
        ≤ (target_function sample_params { sample_costs with bottom := 1 / 20 } true).1 :=
  have hw : sample_params.nonneg_weights := by
    norm_num [OrientParams.nonneg_weights, sample_params]
  have h1 : ({ sample_costs with bottom := 1 / 20 } : CostItems).nonneg_fields := by
    norm_num [CostItems.nonneg_fields, sample_costs, CostItems.zero]
  have hlo : (1 / 20 : ℚ) < sample_params.BOTTOM_MIN := by norm_num [sample_params]
  have hhi : sample_params.BOTTOM_MIN ≤ 2 := by norm_num [sample_params]
  ⟨hw, h1, hlo, hhi,
    target_function_bottom_penalty sample_params sample_costs (1 / 20) 2 true hw h1 hlo hhi⟩

/-! ## Theorems: feature extraction -/

theorem eigen_sum_eq_sum_range (n : Nat) (f : Nat → ℚ) :
    eigen_sum n f = ∑ i ∈ Finset.range n, f i := by
  unfold eigen_sum
  induction n with
  | zero => simp
  | succ n ih => rw [List.range_succ, List.map_append, List.sum_append, ih,
      Finset.sum_range_succ]; simp

theorem eigen_sum_select (n : Nat) (c : Nat → Bool) (p : Nat → Prop) [DecidablePred p]
    (f : Nat → ℚ) (hc : ∀ i, c i = true ↔ p i) :
    eigen_sum n (fun i => if c i then f i else 0)
      = ∑ i ∈ (Finset.range n).filter p, f i := by
  rw [eigen_sum_eq_sum_range, Finset.sum_filter]
  apply Finset.sum_congr rfl
  intro i _
  by_cases h : p i
  · simp [h, (hc i).mpr h]
  · have : c i = false := by
      cases hci : c i
      · rfl
      · exact absurd ((hc i).mp hci) h
    simp [h, this]

theorem foldl_min_le (cs : List ℚ) : ∀ c : ℚ,
    cs.foldl min c ≤ c ∧ (∀ x ∈ cs, cs.foldl min c ≤ x) ∧ cs.foldl min c ∈ c :: cs := by
  induction cs with
  | nil => intro c; simp
  | cons a cs ih =>
    intro c
    obtain ⟨h1, h2, h3⟩ := ih (min c a)
    refine ⟨le_trans h1 (min_le_left _ _), ?_, ?_⟩
    · intro x hx
      rcases List.mem_cons.mp hx with hx | hx
      · subst hx; exact le_trans h1 (min_le_right _ _)
      · exact h2 x hx
    · simp only [List.foldl_cons]
      rcases List.mem_cons.mp h3 with h3 | h3
      · rw [h3]
        rcases min_choice c a with hm | hm <;> simp [hm]
      · simp [h3]

theorem minCoeff_spec (m : MatrixX3f) (hrows : 0 < m.rows) :
    ∃ v, m.minCoeff = some v
      ∧ (∀ i < m.rows, v ≤ (m.row i).x ∧ v ≤ (m.row i).y ∧ v ≤ (m.row i).z)
      ∧ ∃ i < m.rows, v = (m.row i).x ∨ v = (m.row i).y ∨ v = (m.row i).z := by
  have hmem : ∀ x, x ∈ m.coeffs ↔
      ∃ i < m.rows, x = (m.row i).x ∨ x = (m.row i).y ∨ x = (m.row i).z := by
    intro x
    simp only [MatrixX3f.coeffs, List.mem_flatMap, List.mem_range, List.mem_cons,
      List.mem_singleton, List.not_mem_nil, or_false]
  have h0 : (m.row 0).x ∈ m.coeffs := (hmem _).mpr ⟨0, hrows, Or.inl rfl⟩
  unfold MatrixX3f.minCoeff
  cases hcs : m.coeffs with
  | nil => rw [hcs] at h0; exact absurd h0 (List.not_mem_nil _)
  | cons c cs =>
    obtain ⟨h1, h2, h3⟩ := foldl_min_le cs c
    refine ⟨cs.foldl min c, rfl, ?_, ?_⟩
    · intro i hi
      have hall : ∀ x ∈ m.coeffs, cs.foldl min c ≤ x := by
        intro x hx
        rw [hcs] at hx
        rcases List.mem_cons.mp hx with hx | hx
        · rw [hx]; exact h1
        · exact h2 x hx
      exact ⟨hall _ ((hmem _).mpr ⟨i, hi, Or.inl rfl⟩),
        hall _ ((hmem _).mpr ⟨i, hi, Or.inr (Or.inl rfl)⟩),
        hall _ ((hmem _).mpr ⟨i, hi, Or.inr (Or.inr rfl)⟩)⟩
    · rw [← hcs] at h3
      exact (hmem _).mp h3

theorem total_min_z_projected (o : AutoOrienter) (d : Vec3f)
    (hfacets : 0 < o.mesh.facets_count) :
    ∃ tmz, total_min_z (project_vertices o d) = some tmz
      ∧ (∀ i < o.mesh.facets_count, ∀ k < 3, tmz ≤ vertex_z o.mesh d i k)
      ∧ ∃ i < o.mesh.facets_count, ∃ k < 3, tmz = vertex_z o.mesh d i k := by
  obtain ⟨v, hv, hle, i, hi, hmem⟩ := minCoeff_spec (project_vertices o d).z_projected hfacets
  refine ⟨v, hv, ?_, i, hi, ?_⟩
  · intro j hj k hk
    have h := hle j hj
    interval_cases k
    · exact h.1
    · exact h.2.1
    · exact h.2.2
  · rcases hmem with h | h | h
    · exact ⟨0, by norm_num, h⟩
    · exact ⟨1, by norm_num, h⟩
    · exact ⟨2, by norm_num, h⟩

theorem get_features_some (libm : Libm) (o : AutoOrienter) (d : Vec3f) (min_volume : Bool)
    (tmz : ℚ) (htmz : total_min_z o = some tmz) :
    ∃ costs, get_features libm o d min_volume = some costs
      ∧ costs.bottom
          = eigen_sum o.z_max.size (fun i => if bottom_condition o tmz i then o.areas.coeff i
              else 0)
      ∧ costs.bottom_hull
          = eigen_sum o.z_max_hull.size (fun i =>
              if decide (o.z_max_hull.coeff i < tmz + o.params.FIRST_LAY_H)
              then o.areas_hull.coeff i else 0)
      ∧ costs.overhang
          = (if min_volume then
              eigen_sum o.z_mean.size (fun i =>
                heights o tmz i * overhang_areas o d tmz i * inner o d i)
            else eigen_sum o.normals.rows (fun i => |overhang_areas o d tmz i|))
      ∧ costs.area_laf = eigen_sum o.normals.rows (laf_areas o d tmz)
      ∧ costs.contour = 4 * libm.sqrt costs.bottom
      ∧ costs.area_projected = 0 ∧ costs.unprintability = 0 := by
  unfold get_features
  rw [htmz]
  exact ⟨_, rfl, rfl, rfl, rfl, rfl, rfl, rfl, rfl⟩

/-- Claim C8.  For a mesh with at least one facet and a candidate direction,
`get_features` returns a feature set; its `total_min_z` is the least projection of a mesh
vertex; `bottom` is the sum of the areas `areas(i)` of the mesh facets with
`z_max(i) - total_min_z < FIRST_LAY_H`; `bottom_hull` is the same sum over the hull
facets, with the hull areas and the same `total_min_z`.  (`areas(i)` is the facet area as
`preprocess` stores it: zero for a facet below the negligible-area threshold.) -/
theorem get_features_bottom (libm : Libm) (om : OrientMesh) (params : OrientParams)
    (d : Vec3f) (min_volume : Bool) (hfacets : 0 < om.mesh.facets_count) :
    ∃ tmz costs,
      total_min_z (projected_orienter libm om params d) = some tmz
      ∧ get_features libm (projected_orienter libm om params d) d min_volume = some costs
      ∧ (∀ i < om.mesh.facets_count, ∀ k < 3, tmz ≤ vertex_z om.mesh d i k)
      ∧ (∃ i < om.mesh.facets_count, ∃ k < 3, tmz = vertex_z om.mesh d i k)
      ∧ costs.bottom
          = ∑ i ∈ (Finset.range om.mesh.facets_count).filter
              (fun i => facet_z_max om.mesh d i - tmz < params.FIRST_LAY_H),
              kept_area params om.mesh i
      ∧ costs.bottom_hull
          = ∑ i ∈ (Finset.range om.convex_hull_3d.facets_count).filter
              (fun i => facet_z_max om.convex_hull_3d d i - tmz < params.FIRST_LAY_H),
              kept_area params om.convex_hull_3d i := by
  obtain ⟨tmz, htmz, hle, hmem⟩ :=
    total_min_z_projected (AutoOrienter.new libm om params) d hfacets
  obtain ⟨costs, hcosts, hbottom, hhull, -⟩ :=
    get_features_some libm (projected_orienter libm om params d) d min_volume tmz htmz
  refine ⟨tmz, costs, htmz, hcosts, hle, hmem, ?_, ?_⟩
  · rw [hbottom]
    exact eigen_sum_select _ _ _ _ (fun i => by
      simp only [bottom_condition, decide_eq_true_eq]
      exact sub_lt_iff_lt_add'.symm)
  · rw [hhull]
    exact eigen_sum_select _ _ _ _ (fun i => by
      simp only [decide_eq_true_eq]
      exact sub_lt_iff_lt_add'.symm)

/-- Claim C8 on the unit cube, direction `(0, 0, 1)`, sample weights. -/
theorem get_features_bottom_witness :
    0 < cube_orient_mesh.mesh.facets_count
      ∧ ∃ tmz costs,
        total_min_z (projected_orienter sample_libm cube_orient_mesh sample_params ⟨0, 0, 1⟩)
          = some tmz
        ∧ get_features sample_libm
            (projected_orienter sample_libm cube_orient_mesh sample_params ⟨0, 0, 1⟩)
            ⟨0, 0, 1⟩ true = some costs
        ∧ (∀ i < cube_orient_mesh.mesh.facets_count, ∀ k < 3,
            tmz ≤ vertex_z cube_orient_mesh.mesh ⟨0, 0, 1⟩ i k)
        ∧ (∃ i < cube_orient_mesh.mesh.facets_count, ∃ k < 3,
            tmz = vertex_z cube_orient_mesh.mesh ⟨0, 0, 1⟩ i k)
        ∧ costs.bottom
            = ∑ i ∈ (Finset.range cube_orient_mesh.mesh.facets_count).filter
                (fun i => facet_z_max cube_orient_mesh.mesh ⟨0, 0, 1⟩ i - tmz
                  < sample_params.FIRST_LAY_H),
                kept_area sample_params cube_orient_mesh.mesh i
        ∧ costs.bottom_hull
            = ∑ i ∈ (Finset.range cube_orient_mesh.convex_hull_3d.facets_count).filter
                (fun i => facet_z_max cube_orient_mesh.convex_hull_3d ⟨0, 0, 1⟩ i - tmz
                  < sample_params.FIRST_LAY_H),
                kept_area sample_params cube_orient_mesh.convex_hull_3d i :=
  ⟨by decide,
   get_features_bottom sample_libm cube_orient_mesh sample_params ⟨0, 0, 1⟩ true (by decide)⟩

theorem kept_appearance_nonneg (params : OrientParams) (m : TriangleMesh) (i : Nat) :
    0 ≤ kept_appearance params m i := by
  unfold kept_appearance
  split_ifs
  · exact le_refl 0
  · exact b2f_nonneg _

theorem kept_area_nonneg (params : OrientParams) (m : TriangleMesh) (i : Nat)
    (h : 0 ≤ m.facet_area i) : 0 ≤ kept_area params m i := by
  unfold kept_area
  split_ifs
  · exact le_refl 0
  · exact h

theorem inner_of_lt (o : AutoOrienter) (d : Vec3f) (i : Nat)
    (h : normal_projection o d i < o.params.ASCENT) :
    inner o d i = o.params.ASCENT - normal_projection o d i := by
  unfold inner
  have hneg : normal_projection o d i - o.params.ASCENT < 0 := by linarith
  rw [min_eq_left (le_of_lt hneg), abs_of_neg hneg]
  ring

theorem overhang_areas_eq (o : AutoOrienter) (d : Vec3f) (tmz : ℚ) (i : Nat) :
    overhang_areas o d tmz i
      = if normal_projection o d i < o.params.ASCENT
            ∧ ¬ o.z_max.coeff i - tmz < o.params.FIRST_LAY_H
        then o.areas.coeff i * (1 + o.is_apperance.coeff i * o.params.APPERANCE_FACE_SUPP)
        else 0 := by
  unfold overhang_areas bottom_condition areas_appearance
  by_cases h1 : normal_projection o d i < o.params.ASCENT
  · by_cases h2 : o.z_max.coeff i < tmz + o.params.FIRST_LAY_H
    · have h3 : o.z_max.coeff i - tmz < o.params.FIRST_LAY_H := sub_lt_iff_lt_add'.mpr h2
      simp [h1, h2, h3]
    · have h3 : ¬ o.z_max.coeff i - tmz < o.params.FIRST_LAY_H :=
        fun h => h2 (sub_lt_iff_lt_add'.mp h)
      simp [h1, h2, h3, add_comm]
  · simp [h1]

theorem overhang_sum_volume (o : AutoOrienter) (d : Vec3f) (tmz : ℚ) (n : Nat) :
    eigen_sum n (fun i => heights o tmz i * overhang_areas o d tmz i * inner o d i)
      = ∑ i ∈ (Finset.range n).filter
          (fun i => normal_projection o d i < o.params.ASCENT
            ∧ ¬ o.z_max.coeff i - tmz < o.params.FIRST_LAY_H),
          (o.z_mean.coeff i - tmz)
            * (o.areas.coeff i * (1 + o.is_apperance.coeff i * o.params.APPERANCE_FACE_SUPP))
            * (o.params.ASCENT - normal_projection o d i) := by
  rw [eigen_sum_eq_sum_range, Finset.sum_filter]
  apply Finset.sum_congr rfl
  intro i _
  rw [overhang_areas_eq]
  by_cases hc : normal_projection o d i < o.params.ASCENT
      ∧ ¬ o.z_max.coeff i - tmz < o.params.FIRST_LAY_H
  · rw [if_pos hc, if_pos hc, inner_of_lt _ _ _ hc.1, heights]
  · rw [if_neg hc, if_neg hc]
    simp

theorem overhang_sum_legacy (o : AutoOrienter) (d : Vec3f) (tmz : ℚ) (n : Nat)
    (hsupp : 0 ≤ o.params.APPERANCE_FACE_SUPP)
    (hareas : ∀ i < n, 0 ≤ o.areas.coeff i) (happ : ∀ i < n, 0 ≤ o.is_apperance.coeff i) :
    eigen_sum n (fun i => |overhang_areas o d tmz i|)
      = ∑ i ∈ (Finset.range n).filter
          (fun i => normal_projection o d i < o.params.ASCENT
            ∧ ¬ o.z_max.coeff i - tmz < o.params.FIRST_LAY_H),
          o.areas.coeff i * (1 + o.is_apperance.coeff i * o.params.APPERANCE_FACE_SUPP) := by
  rw [eigen_sum_eq_sum_range, Finset.sum_filter]
  apply Finset.sum_congr rfl
  intro i hi
  have hi : i < n := Finset.mem_range.mp hi
  rw [overhang_areas_eq]
  by_cases hc : normal_projection o d i < o.params.ASCENT
      ∧ ¬ o.z_max.coeff i - tmz < o.params.FIRST_LAY_H
  · rw [if_pos hc]
    apply abs_of_nonneg
    have h1 := hareas i hi
    have h2 := happ i hi
    positivity
  · rw [if_neg hc]
    simp

theorem projected_fields (libm : Libm) (om : OrientMesh) (params : OrientParams) (d : Vec3f) :
    (projected_orienter libm om params d).z_max = ⟨om.mesh.facets_count, facet_z_max om.mesh d⟩
      ∧ (projected_orienter libm om params d).z_mean
          = ⟨om.mesh.facets_count, facet_z_mean om.mesh d⟩
      ∧ (projected_orienter libm om params d).z_max_hull
          = ⟨om.convex_hull_3d.facets_count, facet_z_max om.convex_hull_3d d⟩
      ∧ (projected_orienter libm om params d).areas
          = ⟨om.mesh.facets_count, kept_area params om.mesh⟩
      ∧ (projected_orienter libm om params d).is_apperance
          = ⟨om.mesh.facets_count, kept_appearance params om.mesh⟩
      ∧ (projected_orienter libm om params d).normals
          = ⟨om.mesh.facets_count, kept_normal params om.mesh⟩
      ∧ (projected_orienter libm om params d).areas_hull
          = ⟨om.convex_hull_3d.facets_count, kept_area params om.convex_hull_3d⟩
      ∧ (projected_orienter libm om params d).params
          = { params with ASCENT := libm.cos_ascent om.overhang_angle } :=
  ⟨rfl, rfl, rfl, rfl, rfl, rfl, rfl, rfl⟩

/-- Claim C9.  For a mesh with at least one facet, a candidate direction and
`APPERANCE_FACE_SUPP >= 0`, the overhang feature is a sum over exactly the facets whose
normal projection is below `ASCENT` and which are not bottom-contact facets, with the
weighted area `w_i = area_i * (1 + is_appearance_i * APPERANCE_FACE_SUPP)`: in volume mode
the sum of `(z_mean_i - total_min_z) * w_i * (ASCENT - normal_projection_i)`, in legacy
mode the sum of `w_i`; the overhang area of a bottom-contact facet is zero.  Here `area_i`,
`is_appearance_i` and the normal are the entries `preprocess` stores, `ASCENT` is the value
the constructor derives from the overhang angle, and facet areas are non-negative (used
for legacy mode, which sums absolute values). -/
theorem get_features_overhang (libm : Libm) (om : OrientMesh) (params : OrientParams)
    (d : Vec3f) (hfacets : 0 < om.mesh.facets_count)
    (hsupp : 0 ≤ params.APPERANCE_FACE_SUPP)
    (hareas : ∀ i < om.mesh.facets_count, 0 ≤ om.mesh.facet_area i) :
    ∃ tmz, total_min_z (projected_orienter libm om params d) = some tmz
      ∧ (∃ costs, get_features libm (projected_orienter libm om params d) d true = some costs
          ∧ costs.overhang
            = ∑ i ∈ (Finset.range om.mesh.facets_count).filter
                (fun i => (kept_normal params om.mesh i).dot d < libm.cos_ascent om.overhang_angle
                  ∧ ¬ facet_z_max om.mesh d i - tmz < params.FIRST_LAY_H),
                (facet_z_mean om.mesh d i - tmz)
                  * (kept_area params om.mesh i
                      * (1 + kept_appearance params om.mesh i * params.APPERANCE_FACE_SUPP))
                  * (libm.cos_ascent om.overhang_angle - (kept_normal params om.mesh i).dot d))
      ∧ (∃ costs, get_features libm (projected_orienter libm om params d) d false = some costs
          ∧ costs.overhang
            = ∑ i ∈ (Finset.range om.mesh.facets_count).filter
                (fun i => (kept_normal params om.mesh i).dot d < libm.cos_ascent om.overhang_angle
                  ∧ ¬ facet_z_max om.mesh d i - tmz < params.FIRST_LAY_H),
                kept_area params om.mesh i
                  * (1 + kept_appearance params om.mesh i * params.APPERANCE_FACE_SUPP))
      ∧ ∀ i, facet_z_max om.mesh d i - tmz < params.FIRST_LAY_H →
          overhang_areas (projected_orienter libm om params d) d tmz i = 0 := by
  obtain ⟨tmz, htmz, -, -⟩ :=
    total_min_z_projected (AutoOrienter.new libm om params) d hfacets
  obtain ⟨hzmax, hzmean, -, har, hap, hno, -, hpa⟩ := projected_fields libm om params d
  refine ⟨tmz, htmz, ?_, ?_, ?_⟩
  · obtain ⟨costs, hcosts, -, -, hov, -⟩ :=
      get_features_some libm (projected_orienter libm om params d) d true tmz htmz
    refine ⟨costs, hcosts, ?_⟩
    have key := overhang_sum_volume (projected_orienter libm om params d) d tmz
      om.mesh.facets_count
    simp only [normal_projection, hzmax, hzmean, har, hap, hno, hpa] at key
    rw [hov, if_pos rfl, hzmean]
    exact key
  · obtain ⟨costs, hcosts, -, -, hov, -⟩ :=
      get_features_some libm (projected_orienter libm om params d) d false tmz htmz
    refine ⟨costs, hcosts, ?_⟩
    have key := overhang_sum_legacy (projected_orienter libm om params d) d tmz
      om.mesh.facets_count (by rw [hpa]; exact hsupp)
      (by rw [har]; exact fun i hi => kept_area_nonneg params om.mesh i (hareas i hi))
      (by rw [hap]; exact fun i _ => kept_appearance_nonneg params om.mesh i)
    simp only [normal_projection, hzmax, hzmean, har, hap, hno, hpa] at key
    rw [hov, if_neg (by simp), hno]
    exact key
  · intro i hi
    have key := overhang_areas_eq (projected_orienter libm om params d) d tmz i
    simp only [normal_projection, hzmax, hzmean, har, hap, hno, hpa] at key
    rw [key, if_neg (fun h => h.2 hi)]

/-- Claim C9 on the unit cube, direction `(0, 0, 1)`, sample weights. -/
theorem get_features_overhang_witness :
    0 < cube_orient_mesh.mesh.facets_count
      ∧ 0 ≤ sample_params.APPERANCE_FACE_SUPP
      ∧ (∀ i < cube_orient_mesh.mesh.facets_count, 0 ≤ cube_orient_mesh.mesh.facet_area i)
      ∧ ∃ tmz,
        total_min_z (projected_orienter sample_libm cube_orient_mesh sample_params ⟨0, 0, 1⟩)
          = some tmz
        ∧ (∃ costs, get_features sample_libm
              (projected_orienter sample_libm cube_orient_mesh sample_params ⟨0, 0, 1⟩)
              ⟨0, 0, 1⟩ true = some costs
            ∧ costs.overhang
              = ∑ i ∈ (Finset.range cube_orient_mesh.mesh.facets_count).filter
                  (fun i => (kept_normal sample_params cube_orient_mesh.mesh i).dot ⟨0, 0, 1⟩
                      < sample_libm.cos_ascent cube_orient_mesh.overhang_angle
                    ∧ ¬ facet_z_max cube_orient_mesh.mesh ⟨0, 0, 1⟩ i - tmz
                      < sample_params.FIRST_LAY_H),
                  (facet_z_mean cube_orient_mesh.mesh ⟨0, 0, 1⟩ i - tmz)
                    * (kept_area sample_params cube_orient_mesh.mesh i
                        * (1 + kept_appearance sample_params cube_orient_mesh.mesh i
                            * sample_params.APPERANCE_FACE_SUPP))
                    * (sample_libm.cos_ascent cube_orient_mesh.overhang_angle
                        - (kept_normal sample_params cube_orient_mesh.mesh i).dot ⟨0, 0, 1⟩))
        ∧ (∃ costs, get_features sample_libm
              (projected_orienter sample_libm cube_orient_mesh sample_params ⟨0, 0, 1⟩)
              ⟨0, 0, 1⟩ false = some costs
            ∧ costs.overhang
              = ∑ i ∈ (Finset.range cube_orient_mesh.mesh.facets_count).filter
                  (fun i => (kept_normal sample_params cube_orient_mesh.mesh i).dot ⟨0, 0, 1⟩
                      < sample_libm.cos_ascent cube_orient_mesh.overhang_angle
                    ∧ ¬ facet_z_max cube_orient_mesh.mesh ⟨0, 0, 1⟩ i - tmz
                      < sample_params.FIRST_LAY_H),
                  kept_area sample_params cube_orient_mesh.mesh i
                    * (1 + kept_appearance sample_params cube_orient_mesh.mesh i
                        * sample_params.APPERANCE_FACE_SUPP))
        ∧ ∀ i, facet_z_max cube_orient_mesh.mesh ⟨0, 0, 1⟩ i - tmz
              < sample_params.FIRST_LAY_H →
            overhang_areas
              (projected_orienter sample_libm cube_orient_mesh sample_params ⟨0, 0, 1⟩)
              ⟨0, 0, 1⟩ tmz i = 0 :=
  have h1 : 0 < cube_orient_mesh.mesh.facets_count := by decide
  have h2 : 0 ≤ sample_params.APPERANCE_FACE_SUPP := by norm_num [sample_params]
  have h3 : ∀ i < cube_orient_mesh.mesh.facets_count,
      0 ≤ cube_orient_mesh.mesh.facet_area i := by
    intro i _
    norm_num [cube_orient_mesh, cube_mesh]
  ⟨h1, h2, h3,
    get_features_overhang sample_libm cube_orient_mesh sample_params ⟨0, 0, 1⟩ h1 h2 h3⟩

theorem laf_areas_eq (o : AutoOrienter) (d : Vec3f) (tmz : ℚ) (i : Nat) :
    laf_areas o d tmz i
      = if o.params.LAF_MIN < |normal_projection o d i|
            ∧ |normal_projection o d i| < o.params.LAF_MAX
            ∧ tmz + o.params.FIRST_LAY_H < o.z_max.coeff i
        then o.areas.coeff i else 0 := by
  unfold laf_areas
  by_cases h1 : |normal_projection o d i| < o.params.LAF_MAX
  · by_cases h2 : |normal_projection o d i| > o.params.LAF_MIN
    · by_cases h3 : o.z_max.coeff i > tmz + o.params.FIRST_LAY_H
      · have h2' : o.params.LAF_MIN < |normal_projection o d i| := h2
        have h3' : tmz + o.params.FIRST_LAY_H < o.z_max.coeff i := h3
        simp [h1, h2', h3']
      · have h3' : ¬ tmz + o.params.FIRST_LAY_H < o.z_max.coeff i := h3
        simp [h3']
    · have h2' : ¬ o.params.LAF_MIN < |normal_projection o d i| := h2
      simp [h2']
  · simp [h1]

theorem laf_sum (o : AutoOrienter) (d : Vec3f) (tmz : ℚ) (n : Nat) :
    eigen_sum n (laf_areas o d tmz)
      = ∑ i ∈ (Finset.range n).filter
          (fun i => o.params.LAF_MIN < |normal_projection o d i|
            ∧ |normal_projection o d i| < o.params.LAF_MAX
            ∧ tmz + o.params.FIRST_LAY_H < o.z_max.coeff i),
          o.areas.coeff i := by
  rw [eigen_sum_eq_sum_range, Finset.sum_filter]
  exact Finset.sum_congr rfl (fun i _ => laf_areas_eq o d tmz i)

/-- Claim C10.  For a mesh with at least one facet and a candidate direction, `area_laf`
is the sum of the unweighted areas `areas(i)` of the facets whose absolute normal
projection lies strictly between `LAF_MIN` and `LAF_MAX` and whose `z_max` is above
`total_min_z + FIRST_LAY_H`; a facet that satisfies the bottom condition
`z_max - total_min_z < FIRST_LAY_H` has no low-angle area, so no facet contributes to both
`bottom` and `area_laf`.  (`areas(i)` and the normal are the entries `preprocess` stores.) -/
theorem get_features_area_laf (libm : Libm) (om : OrientMesh) (params : OrientParams)
    (d : Vec3f) (min_volume : Bool) (hfacets : 0 < om.mesh.facets_count) :
    ∃ tmz costs,
      total_min_z (projected_orienter libm om params d) = some tmz
      ∧ get_features libm (projected_orienter libm om params d) d min_volume = some costs
      ∧ costs.area_laf
          = ∑ i ∈ (Finset.range om.mesh.facets_count).filter
              (fun i => params.LAF_MIN < |(kept_normal params om.mesh i).dot d|
                ∧ |(kept_normal params om.mesh i).dot d| < params.LAF_MAX
                ∧ tmz + params.FIRST_LAY_H < facet_z_max om.mesh d i),
              kept_area params om.mesh i
      ∧ ∀ i, facet_z_max om.mesh d i - tmz < params.FIRST_LAY_H →
          laf_areas (projected_orienter libm om params d) d tmz i = 0 := by
  obtain ⟨tmz, htmz, -, -⟩ :=
    total_min_z_projected (AutoOrienter.new libm om params) d hfacets
  obtain ⟨hzmax, -, -, har, -, hno, -, hpa⟩ := projected_fields libm om params d
  obtain ⟨costs, hcosts, -, -, -, hlaf, -⟩ :=
    get_features_some libm (projected_orienter libm om params d) d min_volume tmz htmz
  refine ⟨tmz, costs, htmz, hcosts, ?_, ?_⟩
  · have key := laf_sum (projected_orienter libm om params d) d tmz om.mesh.facets_count
    simp only [normal_projection, hzmax, har, hno, hpa] at key
    rw [hlaf, hno]
    exact key
  · intro i hi
    have key := laf_areas_eq (projected_orienter libm om params d) d tmz i
    simp only [normal_projection, hzmax, har, hno, hpa] at key
    rw [key, if_neg]
    intro h
    exact absurd (sub_lt_iff_lt_add'.mp hi) (not_lt.mpr (le_of_lt h.2.2))

/-- Claim C10 on the unit cube, direction `(0, 0, 1)`, sample weights. -/
theorem get_features_area_laf_witness :
    0 < cube_orient_mesh.mesh.facets_count
      ∧ ∃ tmz costs,
        total_min_z (projected_orienter sample_libm cube_orient_mesh sample_params ⟨0, 0, 1⟩)
          = some tmz
        ∧ get_features sample_libm
            (projected_orienter sample_libm cube_orient_mesh sample_params ⟨0, 0, 1⟩)
            ⟨0, 0, 1⟩ true = some costs
        ∧ costs.area_laf
            = ∑ i ∈ (Finset.range cube_orient_mesh.mesh.facets_count).filter
                (fun i => sample_params.LAF_MIN
                    < |(kept_normal sample_params cube_orient_mesh.mesh i).dot ⟨0, 0, 1⟩|
                  ∧ |(kept_normal sample_params cube_orient_mesh.mesh i).dot ⟨0, 0, 1⟩|
                    < sample_params.LAF_MAX
                  ∧ tmz + sample_params.FIRST_LAY_H
                    < facet_z_max cube_orient_mesh.mesh ⟨0, 0, 1⟩ i),
                kept_area sample_params cube_orient_mesh.mesh i
        ∧ ∀ i, facet_z_max cube_orient_mesh.mesh ⟨0, 0, 1⟩ i - tmz
              < sample_params.FIRST_LAY_H →
            laf_areas
              (projected_orienter sample_libm cube_orient_mesh sample_params ⟨0, 0, 1⟩)
              ⟨0, 0, 1⟩ tmz i = 0 :=
  ⟨by decide,
   get_features_area_laf sample_libm cube_orient_mesh sample_params ⟨0, 0, 1⟩ true
     (by decide)⟩

/-! ## Theorems: selection -/

theorem sort_insert_perm {α : Type} (comp : α → α → Bool) (a : α) (l : List α) :
    (sort_insert comp a l).Perm (a :: l) := by
  induction l with
  | nil => exact List.Perm.refl _
  | cons b l ih =>
    unfold sort_insert
    split_ifs
    · exact (List.Perm.cons b ih).trans (List.Perm.swap a b l)
    · exact List.Perm.refl _

theorem std_sort_perm {α : Type} (comp : α → α → Bool) (l : List α) :
    (std_sort comp l).Perm l := by
  induction l with
  | nil => exact List.Perm.refl _
  | cons a l ih =>
    exact (sort_insert_perm comp a (std_sort comp l)).trans (List.Perm.cons a ih)

theorem sort_insert_sorted {α : Type} (key : α → ℚ) (a : α) (l : List α)
    (hl : l.Pairwise (fun x y => key x ≤ key y)) :
    (sort_insert (fun p1 p2 => decide (key p1 < key p2)) a l).Pairwise
      (fun x y => key x ≤ key y) := by
  induction l with
  | nil => exact List.pairwise_singleton _ _
  | cons b l ih =>
    unfold sort_insert
    rw [List.pairwise_cons] at hl
    by_cases hlt : key b < key a
    · simp only [hlt, decide_True, if_true]
      rw [List.pairwise_cons]
      refine ⟨?_, ih hl.2⟩
      intro x hx
      rcases List.mem_cons.mp ((sort_insert_perm _ a l).mem_iff.mp hx) with hx | hx
      · rw [hx]; exact le_of_lt hlt
      · exact hl.1 x hx
    · simp only [hlt, decide_False, Bool.false_eq_true, if_false]
      have hab : key a ≤ key b := not_lt.mp hlt
      rw [List.pairwise_cons]
      refine ⟨?_, List.pairwise_cons.mpr hl⟩
      intro x hx
      rcases List.mem_cons.mp hx with hx | hx
      · rw [hx]; exact hab
      · exact le_trans hab (hl.1 x hx)

theorem std_sort_sorted {α : Type} (key : α → ℚ) (l : List α) :
    (std_sort (fun p1 p2 => decide (key p1 < key p2)) l).Pairwise
      (fun x y => key x ≤ key y) := by
  induction l with
  | nil => exact List.Pairwise.nil
  | cons a l ih => exact sort_insert_sorted key a _ ih

theorem std_sort_head_min {α : Type} (key : α → ℚ) (l : List α) (best : α) (tail : List α)
    (h : std_sort (fun p1 p2 => decide (key p1 < key p2)) l = best :: tail) :
    best ∈ l ∧ ∀ x ∈ l, key best ≤ key x := by
  have hperm := std_sort_perm (fun p1 p2 => decide (key p1 < key p2)) l
  have hsorted := std_sort_sorted key l
  rw [h] at hperm hsorted
  refine ⟨hperm.mem_iff.mp (List.mem_cons_self _ _), ?_⟩
  intro x hx
  rcases List.mem_cons.mp (hperm.mem_iff.mpr hx) with hx | hx
  · rw [hx]
  · exact (List.pairwise_cons.mp hsorted).1 x hx

theorem squaredNorm_nonneg (a : Vec3f) : 0 ≤ a.squaredNorm := by
  unfold Vec3f.squaredNorm
  exact add_nonneg (add_nonneg (mul_self_nonneg a.x) (mul_self_nonneg a.y))
    (mul_self_nonneg a.z)

theorem isApprox_self (a : Vec3f) (tol : ℚ) : a.isApprox a tol = true := by
  have h := squaredNorm_nonneg a
  have h2 : 0 ≤ tol * tol := mul_self_nonneg tol
  simp only [Vec3f.isApprox, decide_eq_true_eq, min_self]
  have h0 : (a.sub a).squaredNorm = 0 := by simp [Vec3f.sub, Vec3f.squaredNorm]
  rw [h0]
  exact mul_nonneg h2 h

theorem neg_injective : Function.Injective Vec3f.neg := by
  intro a b h
  cases a; cases b
  simp only [Vec3f.neg, Vec3f.mk.injEq, neg_inj] at h
  simp [h]

theorem remove_duplicates_nodup (tol : ℚ) (l : List Vec3f) :
    (remove_duplicates_list tol l).Nodup := by
  have h : (remove_duplicates_list tol l).Pairwise (fun a b => a.isApprox b tol = false) := by
    cases l with
    | nil => simp [remove_duplicates_list]
    | cons first rest =>
      exact remove_duplicates_loop_pairwise tol rest [first] (List.pairwise_singleton _ _)
  refine h.imp ?_
  intro a b hab heq
  rw [heq, isApprox_self] at hab
  exact Bool.noConfusion hab

theorem process_candidates_nodup (H : HashOrder) (o : AutoOrienter) :
    ((process_candidates H o).orientations.map Vec3f.neg).Nodup := by
  obtain ⟨rest, hrest⟩ := process_candidates_shape H o
  rw [hrest]
  exact (remove_duplicates_nodup default_tol (⟨0, 0, -1⟩ :: rest)).map neg_injective

theorem umap_assign_fresh {K V : Type} [DecidableEq K] (m : List (K × V)) (k : K) (v : V)
    (h : k ∉ m.map Prod.fst) : umap_assign m k v = m ++ [(k, v)] := by
  unfold umap_assign umap_contains
  rw [if_neg]
  simp only [List.any_eq_true, decide_eq_true_eq, not_exists, not_and]
  intro p hp hk
  exact h (List.mem_map.mpr ⟨p, hp, hk⟩)

theorem project_vertices_twice (o : AutoOrienter) (d1 d2 : Vec3f) :
    project_vertices (project_vertices o d1) d2 = project_vertices o d2 := rfl

theorem evaluate_some (libm : Libm) (o : AutoOrienter) (d : Vec3f)
    (hfacets : 0 < o.mesh.facets_count) : ∃ costs, evaluate libm o d = some costs := by
  obtain ⟨tmz, htmz, -, -⟩ := total_min_z_projected o d hfacets
  obtain ⟨costs, hcosts, -⟩ :=
    get_features_some libm (project_vertices o d) d (project_vertices o d).params.min_volume
      tmz htmz
  refine ⟨(target_function (project_vertices o d).params costs
    (project_vertices o d).params.min_volume).2, ?_⟩
  simp only [evaluate, hcosts, Option.map_some']

theorem unprintability_of_evaluate (libm : Libm) (o : AutoOrienter) (d : Vec3f)
    (costs : CostItems) (h : evaluate libm o d = some costs) :
    unprintability_of libm o d = some costs.unprintability := by
  unfold evaluate at h
  unfold unprintability_of
  cases hg : get_features libm (project_vertices o d) d (project_vertices o d).params.min_volume with
  | none => simp only [hg, Option.map_none'] at h; exact Option.noConfusion h
  | some c =>
    simp only [hg, Option.map_some', Option.some.injEq] at h ⊢
    rw [← h]
    rfl

theorem process_loop_spec (libm : Libm) (o : AutoOrienter)
    (hfacets : 0 < o.mesh.facets_count) (cs : List Vec3f) :
    ∀ (o1 : AutoOrienter) (acc : List (Vec3f × CostItems)),
      (∀ d, project_vertices o1 d = project_vertices o d) →
      (acc.map Prod.fst ++ cs.map Vec3f.neg).Nodup →
      ∃ results, process_loop libm o1 cs acc = some results
        ∧ results.map Prod.fst = acc.map Prod.fst ++ cs.map Vec3f.neg
        ∧ ∀ p ∈ results, p ∈ acc ∨ evaluate libm o p.1 = some p.2 := by
  induction cs with
  | nil =>
    intro o1 acc _ _
    exact ⟨acc, rfl, by simp, fun p hp => Or.inl hp⟩
  | cons c rest ih =>
    intro o1 acc ho1 hnodup
    obtain ⟨costs, hcosts⟩ := evaluate_some libm o c.neg hfacets
    have hcosts1 := hcosts
    unfold evaluate at hcosts1
    unfold process_loop
    simp only [ho1 c.neg]
    cases hg : get_features libm (project_vertices o c.neg) c.neg
        (project_vertices o c.neg).params.min_volume with
    | none => simp only [hg, Option.map_none'] at hcosts1; exact Option.noConfusion hcosts1
    | some ci =>
      simp only [hg, Option.map_some', Option.some.injEq] at hcosts1
      simp only [hcosts1]
      have hfresh : c.neg ∉ acc.map Prod.fst := by
        intro hmem
        have := (List.nodup_append.mp hnodup).2.2
        exact this hmem (List.mem_cons_self _ _)
      rw [umap_assign_fresh acc c.neg costs hfresh]
      have hnodup2 : ((acc ++ [(c.neg, costs)]).map Prod.fst ++ rest.map Vec3f.neg).Nodup := by
        simpa using hnodup
      obtain ⟨results, hres, hkeys, hvals⟩ :=
        ih (project_vertices o c.neg) (acc ++ [(c.neg, costs)])
          (fun d => project_vertices_twice o c.neg d) hnodup2
      refine ⟨results, hres, by simp [hkeys], ?_⟩
      intro p hp
      rcases hvals p hp with h | h
      · rcases List.mem_append.mp h with h | h
        · exact Or.inl h
        · rw [List.mem_singleton] at h
          rw [h]
          exact Or.inr hcosts
      · exact Or.inr h

theorem process_candidates_eq (H : HashOrder) (o : AutoOrienter) :
    process_candidates H o
      = { o with orientations := (process_candidates H o).orientations } := by
  simp only [process_candidates, remove_duplicates, add_supplements, area_cumulation]

theorem get_features_orientations (libm : Libm) (o : AutoOrienter) (l : List Vec3f)
    (d : Vec3f) (mv : Bool) :
    get_features libm (project_vertices { o with orientations := l } d) d mv
      = get_features libm (project_vertices o d) d mv := rfl

theorem evaluate_orientations (libm : Libm) (o : AutoOrienter) (l : List Vec3f) (d : Vec3f) :
    evaluate libm { o with orientations := l } d = evaluate libm o d := rfl

theorem evaluate_process_candidates (H : HashOrder) (libm : Libm) (o : AutoOrienter)
    (d : Vec3f) : evaluate libm (process_candidates H o) d = evaluate libm o d := by
  rw [process_candidates_eq, evaluate_orientations]

/-- Claim C1.  For a mesh with at least one facet and every parameter set, whatever the
iteration order of the hash maps, `process` returns a direction `d = -c` for a candidate
`c` retained by `remove_duplicates`, and the unprintability computed for `d`
(`project_vertices`, `get_features`, `target_function`) is at most the one computed for the
negation of every retained candidate.  The keys of the map `results` are the negated
retained candidates, each once and in order: no two candidates share a key, and each entry
holds the feature set evaluated for its key. -/
theorem process_returns_best (H : HashOrder) (libm : Libm) (o : AutoOrienter)
    (hfacets : 0 < o.mesh.facets_count) :
    ∃ d results,
      process H libm o = some d
      ∧ process_results H libm o = some results
      ∧ results.map Prod.fst = (process_candidates H o).orientations.map Vec3f.neg
      ∧ (results.map Prod.fst).Nodup
      ∧ (∀ p ∈ results, evaluate libm o p.1 = some p.2)
      ∧ (∃ c ∈ (process_candidates H o).orientations, d = c.neg)
      ∧ ∃ s, unprintability_of libm o d = some s
          ∧ ∀ c ∈ (process_candidates H o).orientations,
              ∃ s', unprintability_of libm o c.neg = some s' ∧ s ≤ s' := by
  have hnodup := process_candidates_nodup H o
  obtain ⟨results, hres, hkeys, hvals⟩ :=
    process_loop_spec libm (process_candidates H o) hfacets
      (process_candidates H o).orientations (process_candidates H o) []
      (fun _ => rfl) (by simpa using hnodup)
  simp only [List.map_nil, List.nil_append] at hkeys
  have hvals2 : ∀ p ∈ results, evaluate libm o p.1 = some p.2 := by
    intro p hp
    rcases hvals p hp with h | h
    · exact absurd h (List.not_mem_nil _)
    · rw [← evaluate_process_candidates H libm o p.1]; exact h
  have hpr : process_results H libm o = some results := hres
  have hperm := H.results_perm results
  cases hs : std_sort (fun p1 p2 => decide (p1.2.unprintability < p2.2.unprintability))
      (H.iterate_results results) with
  | nil =>
    have h1 := (std_sort_perm (fun p1 p2 : Vec3f × CostItems =>
      decide (p1.2.unprintability < p2.2.unprintability)) (H.iterate_results results))
    rw [hs] at h1
    have h2 : results = [] := List.Perm.eq_nil (hperm.symm.trans h1.symm)
    rw [h2] at hkeys
    obtain ⟨ctail, hctail⟩ := process_candidates_default_first H o
    rw [hctail] at hkeys
    exact absurd hkeys.symm (List.cons_ne_nil _ _)
  | cons best tail =>
    obtain ⟨hbest, hmin⟩ := std_sort_head_min (fun p : Vec3f × CostItems => p.2.unprintability)
      (H.iterate_results results) best tail hs
    have hbest2 : best ∈ results := hperm.mem_iff.mp hbest
    have hd : best.1 ∈ (process_candidates H o).orientations.map Vec3f.neg := by
      rw [← hkeys]; exact List.mem_map.mpr ⟨best, hbest2, rfl⟩
    obtain ⟨c, hc, hcd⟩ := List.mem_map.mp hd
    refine ⟨best.1, results, ?_, hpr, hkeys, by rw [hkeys]; exact hnodup, hvals2,
      ⟨c, hc, hcd.symm⟩, best.2.unprintability,
      unprintability_of_evaluate libm o best.1 best.2 (hvals2 best hbest2), ?_⟩
    · unfold process
      rw [hpr]
      simp only [hs]
    · intro c2 hc2
      have hk : c2.neg ∈ results.map Prod.fst := by
        rw [hkeys]; exact List.mem_map.mpr ⟨c2, hc2, rfl⟩
      obtain ⟨p, hp, hp1⟩ := List.mem_map.mp hk
      refine ⟨p.2.unprintability, ?_, hmin p (hperm.mem_iff.mpr hp)⟩
      rw [← hp1]
      exact unprintability_of_evaluate libm o p.1 p.2 (hvals2 p hp)

/-- Claim C1 on the unit cube with the sample weights, maps iterated in insertion
order. -/
theorem process_returns_best_witness :
    0 < cube_orienter.mesh.facets_count
      ∧ ∃ d results,
        process HashOrder.insertion sample_libm cube_orienter = some d
        ∧ process_results HashOrder.insertion sample_libm cube_orienter = some results
        ∧ results.map Prod.fst
            = (process_candidates HashOrder.insertion cube_orienter).orientations.map Vec3f.neg
        ∧ (results.map Prod.fst).Nodup
        ∧ (∀ p ∈ results, evaluate sample_libm cube_orienter p.1 = some p.2)
        ∧ (∃ c ∈ (process_candidates HashOrder.insertion cube_orienter).orientations,
            d = c.neg)
        ∧ ∃ s, unprintability_of sample_libm cube_orienter d = some s
            ∧ ∀ c ∈ (process_candidates HashOrder.insertion cube_orienter).orientations,
                ∃ s', unprintability_of sample_libm cube_orienter c.neg = some s' ∧ s ≤ s' :=
  ⟨by decide, process_returns_best HashOrder.insertion sample_libm cube_orienter (by decide)⟩

theorem range_twelve : List.range 12 = [0, 1, 2, 3, 4, 5, 6, 7, 8, 9, 10, 11] := by decide

theorem cube_appearance_total_min_z :
    total_min_z (projected_orienter sample_libm cube_appearance_orient_mesh sample_params
      ⟨3 / 5, 0, 4 / 5⟩) = some 0 := by
  simp only [total_min_z, projected_orienter, project_vertices, AutoOrienter.new, preprocess,
    cube_appearance_orient_mesh, cube_mesh_appearance, cube_mesh, MatrixX3f.minCoeff,
    MatrixX3f.coeffs, range_twelve, List.flatMap_cons, List.flatMap_nil, vertex_z, cube_facets,
    List.getD_cons_zero, List.getD_cons_succ, Vec3f.dot]
  norm_num [List.getD]

theorem kept_area_supp (params : OrientParams) (s : ℚ) (m : TriangleMesh) (i : Nat) :
    kept_area { params with APPERANCE_FACE_SUPP := s } m i = kept_area params m i := by
  simp only [kept_area, negligible]

theorem kept_normal_supp (params : OrientParams) (s : ℚ) (m : TriangleMesh) (i : Nat) :
    kept_normal { params with APPERANCE_FACE_SUPP := s } m i = kept_normal params m i := by
  simp only [kept_normal, negligible]

theorem kept_appearance_supp (params : OrientParams) (s : ℚ) (m : TriangleMesh) (i : Nat) :
    kept_appearance { params with APPERANCE_FACE_SUPP := s } m i
      = kept_appearance params m i := by
  simp only [kept_appearance, negligible]

theorem kept_appearance_of_area_pos (params : OrientParams) (m : TriangleMesh) (i : Nat)
    (harea : 0 < kept_area params m i) (happ : m.is_exterior_appearance i = true) :
    kept_appearance params m i = 1 := by
  unfold kept_area at harea
  unfold kept_appearance
  by_cases hn : negligible params (m.facet_area i) = true
  · rw [if_pos hn] at harea
    exact absurd harea (lt_irrefl 0)
  · rw [if_neg hn, happ]
    rfl

theorem total_min_z_supp (libm : Libm) (om : OrientMesh) (params : OrientParams) (s : ℚ)
    (d : Vec3f) :
    total_min_z (projected_orienter libm om { params with APPERANCE_FACE_SUPP := s } d)
      = total_min_z (projected_orienter libm om params d) := rfl

theorem facet_z_mean_above (m : TriangleMesh) (d : Vec3f) (i : Nat) (tmz flh : ℚ)
    (hflh : 0 < flh) (hlow : ∀ k < 3, tmz ≤ vertex_z m d i k)
    (hnb : ¬ facet_z_max m d i - tmz < flh) : 0 < facet_z_mean m d i - tmz := by
  have h0 := hlow 0 (by norm_num)
  have h1 := hlow 1 (by norm_num)
  have h2 := hlow 2 (by norm_num)
  have hmax : tmz + flh ≤ facet_z_max m d i := by
    have := not_lt.mp hnb
    linarith
  unfold facet_z_max MAX3 at hmax
  unfold facet_z_mean
  rcases le_max_iff.mp hmax with h | h
  · rcases le_max_iff.mp h with h | h <;> linarith
  · linarith

/-- Claim C11.  For a mesh, a candidate direction and a facet `i` whose stored area is
positive, which is flagged as appearance and which is classified as overhanging (normal
projection below `ASCENT`, not a bottom-contact facet, with `FIRST_LAY_H > 0`): when
`APPERANCE_FACE_SUPP` is raised from `s1 >= 0` to `s2 > s1`, everything else unchanged, the
summand of facet `i` in the overhang feature strictly increases, both the volume-mode
summand `heights * overhang_areas * inner` and the legacy summand `|overhang_areas|`;
`total_min_z` is the same in both runs. -/
theorem appearance_weight_strict (libm : Libm) (om : OrientMesh) (params : OrientParams)
    (d : Vec3f) (i : Nat) (s1 s2 tmz : ℚ)
    (hflh : 0 < params.FIRST_LAY_H) (hs1 : 0 ≤ s1) (hs : s1 < s2)
    (hi : i < om.mesh.facets_count)
    (harea : 0 < kept_area params om.mesh i)
    (happ : om.mesh.is_exterior_appearance i = true)
    (htmz : total_min_z (projected_orienter libm om params d) = some tmz)
    (hover : (kept_normal params om.mesh i).dot d < libm.cos_ascent om.overhang_angle)
    (hnb : ¬ facet_z_max om.mesh d i - tmz < params.FIRST_LAY_H) :
    total_min_z (projected_orienter libm om { params with APPERANCE_FACE_SUPP := s1 } d)
        = some tmz
      ∧ total_min_z (projected_orienter libm om { params with APPERANCE_FACE_SUPP := s2 } d)
        = some tmz
      ∧ heights (projected_orienter libm om { params with APPERANCE_FACE_SUPP := s1 } d) tmz i
          * overhang_areas
              (projected_orienter libm om { params with APPERANCE_FACE_SUPP := s1 } d) d tmz i
          * inner (projected_orienter libm om { params with APPERANCE_FACE_SUPP := s1 } d) d i
        < heights (projected_orienter libm om { params with APPERANCE_FACE_SUPP := s2 } d) tmz i
          * overhang_areas
              (projected_orienter libm om { params with APPERANCE_FACE_SUPP := s2 } d) d tmz i
          * inner (projected_orienter libm om { params with APPERANCE_FACE_SUPP := s2 } d) d i
      ∧ |overhang_areas
            (projected_orienter libm om { params with APPERANCE_FACE_SUPP := s1 } d) d tmz i|
        < |overhang_areas
            (projected_orienter libm om { params with APPERANCE_FACE_SUPP := s2 } d) d tmz i| := by
  obtain ⟨tmz2, htmz2, hlow, -⟩ :=
    total_min_z_projected (AutoOrienter.new libm om params) d (Nat.lt_of_le_of_lt (Nat.zero_le i) hi)
  have htmzeq : tmz2 = tmz := Option.some.inj (htmz2.symm.trans htmz)
  rw [htmzeq] at hlow
  have hmean := facet_z_mean_above om.mesh d i tmz params.FIRST_LAY_H hflh (hlow i hi) hnb
  have hflag := kept_appearance_of_area_pos params om.mesh i harea happ
  have hgap : 0 < libm.cos_ascent om.overhang_angle - (kept_normal params om.mesh i).dot d := by
    linarith
  have key : ∀ s : ℚ,
      heights (projected_orienter libm om { params with APPERANCE_FACE_SUPP := s } d) tmz i
          = facet_z_mean om.mesh d i - tmz
        ∧ overhang_areas (projected_orienter libm om { params with APPERANCE_FACE_SUPP := s } d)
            d tmz i = kept_area params om.mesh i * (1 + s)
        ∧ inner (projected_orienter libm om { params with APPERANCE_FACE_SUPP := s } d) d i
          = libm.cos_ascent om.overhang_angle - (kept_normal params om.mesh i).dot d := by
    intro s
    obtain ⟨hzmax, hzmean, -, har, hap, hno, -, hpa⟩ :=
      projected_fields libm om { params with APPERANCE_FACE_SUPP := s } d
    have hov := overhang_areas_eq
      (projected_orienter libm om { params with APPERANCE_FACE_SUPP := s } d) d tmz i
    have hin := inner_of_lt
      (projected_orienter libm om { params with APPERANCE_FACE_SUPP := s } d) d i
    simp only [normal_projection, hzmax, hzmean, har, hap, hno, hpa, kept_area_supp,
      kept_normal_supp, kept_appearance_supp, hflag, one_mul] at hov hin
    refine ⟨?_, ?_, hin hover⟩
    · simp only [heights, hzmean]
    · rw [hov, if_pos ⟨hover, hnb⟩]
  obtain ⟨hh1, ho1, hi1⟩ := key s1
  obtain ⟨hh2, ho2, hi2⟩ := key s2
  refine ⟨?_, ?_, ?_, ?_⟩
  · rw [total_min_z_supp]; exact htmz
  · rw [total_min_z_supp]; exact htmz
  · rw [hh1, ho1, hi1, hh2, ho2, hi2]
    have h12 : kept_area params om.mesh i * (1 + s1) < kept_area params om.mesh i * (1 + s2) :=
      mul_lt_mul_of_pos_left (by linarith) harea
    exact mul_lt_mul_of_pos_right (mul_lt_mul_of_pos_left h12 hmean) hgap
  · rw [ho1, ho2, abs_of_pos (mul_pos harea (by linarith)),
      abs_of_pos (mul_pos harea (by linarith))]
    exact mul_lt_mul_of_pos_left (by linarith) harea

/-- Claim C11 on the flagged unit cube: facet 0 (a bottom-face triangle) seen from the
tilted direction `(3/5, 0, 4/5)`, the supplement raised from 3 to 4. -/
theorem appearance_weight_strict_witness :
    0 < sample_params.FIRST_LAY_H ∧ (0 : ℚ) ≤ 3 ∧ (3 : ℚ) < 4
      ∧ 0 < cube_appearance_orient_mesh.mesh.facets_count
      ∧ 0 < kept_area sample_params cube_appearance_orient_mesh.mesh 0
      ∧ cube_appearance_orient_mesh.mesh.is_exterior_appearance 0 = true
      ∧ total_min_z (projected_orienter sample_libm cube_appearance_orient_mesh sample_params
          ⟨3 / 5, 0, 4 / 5⟩) = some 0
      ∧ (kept_normal sample_params cube_appearance_orient_mesh.mesh 0).dot ⟨3 / 5, 0, 4 / 5⟩
          < sample_libm.cos_ascent cube_appearance_orient_mesh.overhang_angle
      ∧ ¬ facet_z_max cube_appearance_orient_mesh.mesh ⟨3 / 5, 0, 4 / 5⟩ 0 - 0
          < sample_params.FIRST_LAY_H
      ∧ heights (projected_orienter sample_libm cube_appearance_orient_mesh
            { sample_params with APPERANCE_FACE_SUPP := 3 } ⟨3 / 5, 0, 4 / 5⟩) 0 0
          * overhang_areas (projected_orienter sample_libm cube_appearance_orient_mesh
              { sample_params with APPERANCE_FACE_SUPP := 3 } ⟨3 / 5, 0, 4 / 5⟩)
              ⟨3 / 5, 0, 4 / 5⟩ 0 0
          * inner (projected_orienter sample_libm cube_appearance_orient_mesh
              { sample_params with APPERANCE_FACE_SUPP := 3 } ⟨3 / 5, 0, 4 / 5⟩)
              ⟨3 / 5, 0, 4 / 5⟩ 0
        < heights (projected_orienter sample_libm cube_appearance_orient_mesh
            { sample_params with APPERANCE_FACE_SUPP := 4 } ⟨3 / 5, 0, 4 / 5⟩) 0 0
          * overhang_areas (projected_orienter sample_libm cube_appearance_orient_mesh
              { sample_params with APPERANCE_FACE_SUPP := 4 } ⟨3 / 5, 0, 4 / 5⟩)
              ⟨3 / 5, 0, 4 / 5⟩ 0 0
          * inner (projected_orienter sample_libm cube_appearance_orient_mesh
              { sample_params with APPERANCE_FACE_SUPP := 4 } ⟨3 / 5, 0, 4 / 5⟩)
              ⟨3 / 5, 0, 4 / 5⟩ 0
      ∧ |overhang_areas (projected_orienter sample_libm cube_appearance_orient_mesh
            { sample_params with APPERANCE_FACE_SUPP := 3 } ⟨3 / 5, 0, 4 / 5⟩)
            ⟨3 / 5, 0, 4 / 5⟩ 0 0|
        < |overhang_areas (projected_orienter sample_libm cube_appearance_orient_mesh
            { sample_params with APPERANCE_FACE_SUPP := 4 } ⟨3 / 5, 0, 4 / 5⟩)
            ⟨3 / 5, 0, 4 / 5⟩ 0 0| :=
  have h1 : 0 < sample_params.FIRST_LAY_H := by norm_num [sample_params]
  have h2 : (0 : ℚ) ≤ 3 := by norm_num
  have h3 : (3 : ℚ) < 4 := by norm_num
  have h4 : 0 < cube_appearance_orient_mesh.mesh.facets_count := by decide
  have h5 : 0 < kept_area sample_params cube_appearance_orient_mesh.mesh 0 := by
    norm_num [kept_area, negligible, sample_params, cube_appearance_orient_mesh,
      cube_mesh_appearance, cube_mesh]
  have h6 : cube_appearance_orient_mesh.mesh.is_exterior_appearance 0 = true := rfl
  have h7 := cube_appearance_total_min_z
  have h8 : (kept_normal sample_params cube_appearance_orient_mesh.mesh 0).dot
      ⟨3 / 5, 0, 4 / 5⟩ < sample_libm.cos_ascent cube_appearance_orient_mesh.overhang_angle := by
    norm_num [kept_normal, negligible, sample_params, cube_appearance_orient_mesh,
      cube_mesh_appearance, cube_mesh, cube_facets, quantize_vec3f, Vec3f.dot, sample_libm]
  have h9 : ¬ facet_z_max cube_appearance_orient_mesh.mesh ⟨3 / 5, 0, 4 / 5⟩ 0 - 0
      < sample_params.FIRST_LAY_H := by
    norm_num [facet_z_max, MAX3, vertex_z, cube_appearance_orient_mesh,
      cube_mesh_appearance, cube_mesh, cube_facets, Vec3f.dot, sample_params]
  have h := appearance_weight_strict sample_libm cube_appearance_orient_mesh sample_params
    ⟨3 / 5, 0, 4 / 5⟩ 0 3 4 0 h1 h2 h3 h4 h5 h6 h7 h8 h9
  ⟨h1, h2, h3, h4, h5, h6, h7, h8, h9, h.2.2.1, h.2.2.2⟩

theorem get_features_frame (libm : Libm) (o1 o2 : AutoOrienter) (d : Vec3f) (mv1 mv2 : Bool)
    (hz : o1.z_projected = o2.z_projected) (hzmax : o1.z_max = o2.z_max)
    (hzhull : o1.z_max_hull = o2.z_max_hull) (hareas : o1.areas = o2.areas)
    (hahull : o1.areas_hull = o2.areas_hull) (hnormals : o1.normals = o2.normals)
    (hflh : o1.params.FIRST_LAY_H = o2.params.FIRST_LAY_H)
    (hmin : o1.params.LAF_MIN = o2.params.LAF_MIN)
    (hmax : o1.params.LAF_MAX = o2.params.LAF_MAX) :
    (get_features libm o1 d mv1).map
        (fun c => (c.bottom, c.contour, c.bottom_hull, c.area_laf))
      = (get_features libm o2 d mv2).map
        (fun c => (c.bottom, c.contour, c.bottom_hull, c.area_laf)) := by
  cases htmz : total_min_z o2 with
  | none =>
    have h1 : total_min_z o1 = none := by rw [← htmz]; unfold total_min_z; rw [hz]
    unfold get_features
    rw [h1, htmz]
  | some tmz =>
    have h1 : total_min_z o1 = some tmz := by rw [← htmz]; unfold total_min_z; rw [hz]
    obtain ⟨c1, hc1, hb1, hh1, -, hl1, hct1, -⟩ := get_features_some libm o1 d mv1 tmz h1
    obtain ⟨c2, hc2, hb2, hh2, -, hl2, hct2, -⟩ := get_features_some libm o2 d mv2 tmz htmz
    have hb : c1.bottom = c2.bottom := by
      rw [hb1, hb2]
      simp only [bottom_condition, hzmax, hareas, hflh]
    have hh : c1.bottom_hull = c2.bottom_hull := by
      rw [hh1, hh2]
      simp only [hzhull, hahull, hflh]
    have hl : c1.area_laf = c2.area_laf := by
      rw [hl1, hl2]
      have : laf_areas o1 d tmz = laf_areas o2 d tmz := by
        funext i
        simp only [laf_areas, normal_projection, hzmax, hareas, hnormals, hflh, hmin, hmax]
      rw [this, hnormals]
    rw [hc1, hc2]
    simp only [Option.map_some', hct1, hct2, hb, hh, hl]

theorem kept_area_flags (params : OrientParams) (s : ℚ) (m : TriangleMesh)
    (flags : Nat → Bool) :
    kept_area { params with APPERANCE_FACE_SUPP := s }
        { m with is_exterior_appearance := flags }
      = kept_area params m := by
  funext i
  simp only [kept_area, negligible]

theorem kept_normal_flags (params : OrientParams) (s : ℚ) (m : TriangleMesh)
    (flags : Nat → Bool) :
    kept_normal { params with APPERANCE_FACE_SUPP := s }
        { m with is_exterior_appearance := flags }
      = kept_normal params m := by
  funext i
  simp only [kept_normal, negligible]

theorem appearance_frame_map (libm : Libm) (om : OrientMesh) (params : OrientParams)
    (d : Vec3f) (min_volume : Bool) (flags : Nat → Bool) (s : ℚ) :
    (get_features libm
        (projected_orienter libm
          { om with mesh := { om.mesh with is_exterior_appearance := flags } }
          { params with APPERANCE_FACE_SUPP := s } d) d min_volume).map
        (fun c => (c.bottom, c.contour, c.bottom_hull, c.area_laf))
      = (get_features libm (projected_orienter libm om params d) d min_volume).map
        (fun c => (c.bottom, c.contour, c.bottom_hull, c.area_laf)) := by
  obtain ⟨hzmax, -, hzhull, har, -, hno, hah, hpa⟩ := projected_fields libm om params d
  obtain ⟨hzmax2, -, hzhull2, har2, -, hno2, hah2, hpa2⟩ := projected_fields libm
    { om with mesh := { om.mesh with is_exterior_appearance := flags } }
    { params with APPERANCE_FACE_SUPP := s } d
  apply get_features_frame
  · rfl
  · rw [hzmax, hzmax2]; rfl
  · rw [hzhull, hzhull2]
  · rw [har, har2, kept_area_flags]
  · rw [hah, hah2]
    have : kept_area { params with APPERANCE_FACE_SUPP := s } om.convex_hull_3d
        = kept_area params om.convex_hull_3d := by
      funext i
      simp only [kept_area, negligible]
    rw [this]
  · rw [hno, hno2, kept_normal_flags]
  · rw [hpa, hpa2]
  · rw [hpa, hpa2]
  · rw [hpa, hpa2]

/-- Claim C12.  For a mesh with at least one facet, every candidate direction and mode:
the run with other appearance flags on the mesh facets and another value of
`APPERANCE_FACE_SUPP` and the original run both return a feature set, and the two agree
in `bottom`, `contour`, `bottom_hull` and `area_laf`. -/
theorem get_features_appearance_frame (libm : Libm) (om : OrientMesh) (params : OrientParams)
    (d : Vec3f) (min_volume : Bool) (flags : Nat → Bool) (s : ℚ)
    (hfacets : 0 < om.mesh.facets_count) :
    ∃ costs1 costs2,
      get_features libm
          (projected_orienter libm
            { om with mesh := { om.mesh with is_exterior_appearance := flags } }
            { params with APPERANCE_FACE_SUPP := s } d) d min_volume = some costs1
      ∧ get_features libm (projected_orienter libm om params d) d min_volume = some costs2
      ∧ costs1.bottom = costs2.bottom ∧ costs1.contour = costs2.contour
      ∧ costs1.bottom_hull = costs2.bottom_hull ∧ costs1.area_laf = costs2.area_laf := by
  obtain ⟨tmz, htmz, -, -⟩ :=
    total_min_z_projected (AutoOrienter.new libm om params) d hfacets
  obtain ⟨costs2, hc2, -⟩ :=
    get_features_some libm (projected_orienter libm om params d) d min_volume tmz htmz
  have hmap := appearance_frame_map libm om params d min_volume flags s
  rw [hc2] at hmap
  cases hc1 : get_features libm
      (projected_orienter libm
        { om with mesh := { om.mesh with is_exterior_appearance := flags } }
        { params with APPERANCE_FACE_SUPP := s } d) d min_volume with
  | none =>
    rw [hc1] at hmap
    exact Option.noConfusion hmap
  | some costs1 =>
    rw [hc1] at hmap
    simp only [Option.map_some', Option.some.injEq, Prod.mk.injEq] at hmap
    exact ⟨costs1, costs2, rfl, hc2, hmap.1, hmap.2.1, hmap.2.2.1, hmap.2.2.2⟩

/-- Claim C12 on the unit cube: every facet flagged and the supplement set to zero,
against the unflagged cube with the sample weights. -/
theorem get_features_appearance_frame_witness :
    0 < cube_orient_mesh.mesh.facets_count
      ∧ ∃ costs1 costs2,
        get_features sample_libm
            (projected_orienter sample_libm
              { cube_orient_mesh with
                mesh := { cube_orient_mesh.mesh with is_exterior_appearance := fun _ => true } }
              { sample_params with APPERANCE_FACE_SUPP := 0 } ⟨0, 0, 1⟩) ⟨0, 0, 1⟩ true
          = some costs1
        ∧ get_features sample_libm
            (projected_orienter sample_libm cube_orient_mesh sample_params ⟨0, 0, 1⟩)
            ⟨0, 0, 1⟩ true = some costs2
        ∧ costs1.bottom = costs2.bottom ∧ costs1.contour = costs2.contour
        ∧ costs1.bottom_hull = costs2.bottom_hull ∧ costs1.area_laf = costs2.area_laf :=
  ⟨by decide,
   get_features_appearance_frame sample_libm cube_orient_mesh sample_params ⟨0, 0, 1⟩ true
     (fun _ => true) 0 (by decide)⟩

/-! ## Theorems: candidates of different lengths -/

theorem remove_duplicates_loop_sublist (tol : ℚ) (rest : List Vec3f) :
    ∀ kept : List Vec3f, ∃ tail,
      remove_duplicates_loop tol kept rest = kept ++ tail ∧ tail.Sublist rest := by
  induction rest with
  | nil => intro kept; exact ⟨[], by simp [remove_duplicates_loop], List.Sublist.refl _⟩
  | cons it rest ih =>
    intro kept
    unfold remove_duplicates_loop
    by_cases hdup : (kept.any (fun it_ok => it_ok.isApprox it tol)
        || it.isApprox Vec3f.all_zero tol) = true
    · simp only [hdup, if_true]
      obtain ⟨tail, ht, hs⟩ := ih kept
      exact ⟨tail, ht, hs.cons it⟩
    · simp only [hdup]
      obtain ⟨tail, ht, hs⟩ := ih (kept ++ [it])
      exact ⟨it :: tail, by simp [ht], hs.cons₂ it⟩

theorem remove_duplicates_list_sublist (tol : ℚ) (l : List Vec3f) :
    (remove_duplicates_list tol l).Sublist l := by
  cases l with
  | nil => exact List.Sublist.refl _
  | cons first rest =>
    obtain ⟨tail, ht, hs⟩ := remove_duplicates_loop_sublist tol rest [first]
    show (remove_duplicates_loop tol [first] rest).Sublist (first :: rest)
    rw [ht]
    exact hs.cons₂ first

/-- The closeness test compares the distance of two vectors with the shorter length, so
outside the narrow band of lengths that `process` builds it is not a test of the angle:
with the default tolerance the list `(0, 0, 1)`, `(0, 0, 2)` is left as it is. -/
theorem parallel_candidates_both_retained :
    remove_duplicates_list default_tol [⟨0, 0, 1⟩, ⟨0, 0, 2⟩] = [⟨0, 0, 1⟩, ⟨0, 0, 2⟩] := by
  norm_num [remove_duplicates_list, remove_duplicates_loop, Vec3f.isApprox, Vec3f.sub,
    Vec3f.squaredNorm, Vec3f.all_zero, default_tol]

/-! ## Theorems: negligible facets -/

theorem range_thirteen : List.range 13 = [0, 1, 2, 3, 4, 5, 6, 7, 8, 9, 10, 11, 12] := by
  decide

theorem needle_down_total_min_z :
    total_min_z (projected_orienter sample_libm (needle_cube_orient_mesh (-10)) sample_params
      ⟨0, 0, 1⟩) = some (-10) := by
  simp only [total_min_z, projected_orienter, project_vertices, AutoOrienter.new, preprocess,
    needle_cube_orient_mesh, needle_cube_mesh, cube_mesh, MatrixX3f.minCoeff,
    MatrixX3f.coeffs, range_thirteen, List.flatMap_cons, List.flatMap_nil, vertex_z,
    cube_facets, List.getD_cons_zero, List.getD_cons_succ, Vec3f.dot]
  norm_num [List.getD]

theorem needle_up_total_min_z (tip : ℚ) (htip : 0 ≤ tip) :
    total_min_z (projected_orienter sample_libm (needle_cube_orient_mesh tip) sample_params
      ⟨0, 0, 1⟩) = some 0 := by
  simp only [total_min_z, projected_orienter, project_vertices, AutoOrienter.new, preprocess,
    needle_cube_orient_mesh, needle_cube_mesh, cube_mesh, MatrixX3f.minCoeff,
    MatrixX3f.coeffs, range_thirteen, List.flatMap_cons, List.flatMap_nil, vertex_z,
    cube_facets, List.getD_cons_zero, List.getD_cons_succ, Vec3f.dot]
  norm_num [List.getD, htip]

theorem get_features_bottom_value (libm : Libm) (o : AutoOrienter) (d : Vec3f) (mv : Bool)
    (tmz : ℚ) (htmz : total_min_z o = some tmz) :
    (get_features libm o d mv).map (fun c => c.bottom)
      = some (eigen_sum o.z_max.size
          (fun i => if bottom_condition o tmz i then o.areas.coeff i else 0)) := by
  obtain ⟨c, hc, hb, -⟩ := get_features_some libm o d mv tmz htmz
  rw [hc, Option.map_some', hb]

/-- Claim C17 as stated fails.  The two meshes are the unit cube with a needle facet of
area below `NEGL_FACE_SIZE = 1/10`; they differ only in the tip of the needle, `(0,0,1/2)`
against `(0,0,-10)`.  For the direction `(0, 0, 1)` the first has `bottom = 1`, the second
`bottom = 0`. -/
theorem negligible_facet_changes_bottom :
    negligible sample_params ((needle_cube_mesh (1 / 2)).facet_area 12) = true
      ∧ negligible sample_params ((needle_cube_mesh (-10)).facet_area 12) = true
      ∧ (get_features sample_libm
            (projected_orienter sample_libm (needle_cube_orient_mesh (1 / 2)) sample_params
              ⟨0, 0, 1⟩) ⟨0, 0, 1⟩ true).map (fun c => c.bottom) = some 1
      ∧ (get_features sample_libm
            (projected_orienter sample_libm (needle_cube_orient_mesh (-10)) sample_params
              ⟨0, 0, 1⟩) ⟨0, 0, 1⟩ true).map (fun c => c.bottom) = some 0 := by
  refine ⟨?_, ?_, ?_, ?_⟩
  · norm_num [negligible, sample_params, needle_cube_mesh, abs_of_pos]
  · norm_num [negligible, sample_params, needle_cube_mesh, abs_of_neg]
  · rw [get_features_bottom_value _ _ _ _ 0 (needle_up_total_min_z (1 / 2) (by norm_num))]
    simp only [eigen_sum, projected_orienter, project_vertices, AutoOrienter.new, preprocess,
      needle_cube_orient_mesh, range_thirteen, List.map_cons, List.map_nil, bottom_condition,
      facet_z_max, MAX3, vertex_z, kept_area, negligible, needle_cube_mesh, cube_mesh,
      cube_facets, List.getD_cons_zero, List.getD_cons_succ, Vec3f.dot, sample_params]
    norm_num [List.getD, abs_of_pos]
  · rw [get_features_bottom_value _ _ _ _ (-10) needle_down_total_min_z]
    simp only [eigen_sum, projected_orienter, project_vertices, AutoOrienter.new, preprocess,
      needle_cube_orient_mesh, range_thirteen, List.map_cons, List.map_nil, bottom_condition,
      facet_z_max, MAX3, vertex_z, kept_area, negligible, needle_cube_mesh, cube_mesh,
      cube_facets, List.getD_cons_zero, List.getD_cons_succ, Vec3f.dot, sample_params]
    norm_num [List.getD, abs_of_neg]
theorem eigen_sum_congr (n : Nat) (f g : Nat → ℚ) (h : ∀ i < n, f i = g i) :
    eigen_sum n f = eigen_sum n g := by
  rw [eigen_sum_eq_sum_range, eigen_sum_eq_sum_range]
  exact Finset.sum_congr rfl (fun i hi => h i (Finset.mem_range.mp hi))

theorem kept_area_negligible (params : OrientParams) (m : TriangleMesh) (i : Nat)
    (h : negligible params (m.facet_area i) = true) : kept_area params m i = 0 := by
  unfold kept_area
  rw [if_pos h]

theorem overhang_areas_zero (o : AutoOrienter) (d : Vec3f) (tmz : ℚ) (i : Nat)
    (h : o.areas.coeff i = 0) : overhang_areas o d tmz i = 0 := by
  rw [overhang_areas_eq, h]
  simp

theorem laf_areas_zero (o : AutoOrienter) (d : Vec3f) (tmz : ℚ) (i : Nat)
    (h : o.areas.coeff i = 0) : laf_areas o d tmz i = 0 := by
  rw [laf_areas_eq, h]
  simp

/-- Claim C17, amended.  Two meshes with the same number of facets that differ only in
facets whose area is below `NEGL_FACE_SIZE` in both (every other facet has the same
corners, area, normal and appearance flag) and that have the same `total_min_z` for the
direction yield feature sets with equal `bottom`, `overhang`, `contour` and `area_laf`, in
both modes. -/
theorem negligible_facets_frame (libm : Libm) (om1 om2 : OrientMesh) (params : OrientParams)
    (d : Vec3f) (min_volume : Bool) (tmz : ℚ)
    (hcount : om1.mesh.facets_count = om2.mesh.facets_count)
    (hangle : om1.overhang_angle = om2.overhang_angle)
    (hdiff : ∀ i < om1.mesh.facets_count,
      (negligible params (om1.mesh.facet_area i) = true
        ∧ negligible params (om2.mesh.facet_area i) = true)
      ∨ (om1.mesh.facet_area i = om2.mesh.facet_area i
        ∧ om1.mesh.face_normals i = om2.mesh.face_normals i
        ∧ om1.mesh.is_exterior_appearance i = om2.mesh.is_exterior_appearance i
        ∧ ∀ k < 3, om1.mesh.get_vertex i k = om2.mesh.get_vertex i k))
    (htmz1 : total_min_z (projected_orienter libm om1 params d) = some tmz)
    (htmz2 : total_min_z (projected_orienter libm om2 params d) = some tmz) :
    ∃ costs1 costs2,
      get_features libm (projected_orienter libm om1 params d) d min_volume = some costs1
      ∧ get_features libm (projected_orienter libm om2 params d) d min_volume = some costs2
      ∧ costs1.bottom = costs2.bottom ∧ costs1.overhang = costs2.overhang
      ∧ costs1.contour = costs2.contour ∧ costs1.area_laf = costs2.area_laf := by
  obtain ⟨c1, hc1, hb1, -, ho1, hl1, hct1, -⟩ :=
    get_features_some libm (projected_orienter libm om1 params d) d min_volume tmz htmz1
  obtain ⟨c2, hc2, hb2, -, ho2, hl2, hct2, -⟩ :=
    get_features_some libm (projected_orienter libm om2 params d) d min_volume tmz htmz2
  obtain ⟨hzmax1, hzmean1, -, har1, hap1, hno1, -, hpa1⟩ := projected_fields libm om1 params d
  obtain ⟨hzmax2, hzmean2, -, har2, hap2, hno2, -, hpa2⟩ := projected_fields libm om2 params d
  have hsame : ∀ i < om1.mesh.facets_count,
      ¬ (negligible params (om1.mesh.facet_area i) = true
        ∧ negligible params (om2.mesh.facet_area i) = true) →
      kept_area params om1.mesh i = kept_area params om2.mesh i
        ∧ kept_normal params om1.mesh i = kept_normal params om2.mesh i
        ∧ kept_appearance params om1.mesh i = kept_appearance params om2.mesh i
        ∧ facet_z_max om1.mesh d i = facet_z_max om2.mesh d i
        ∧ facet_z_mean om1.mesh d i = facet_z_mean om2.mesh d i := by
    intro i hi hn
    rcases hdiff i hi with h | ⟨ha, hn2, hf, hv⟩
    · exact absurd h hn
    · have h0 := hv 0 (by norm_num)
      have h1 := hv 1 (by norm_num)
      have h2 := hv 2 (by norm_num)
      simp only [kept_area, kept_normal, kept_appearance, facet_z_max, facet_z_mean, vertex_z,
        ha, hn2, hf, h0, h1, h2, and_self]
  have hterm : ∀ i < om1.mesh.facets_count,
      (if bottom_condition (projected_orienter libm om1 params d) tmz i
        then (projected_orienter libm om1 params d).areas.coeff i else 0)
        = (if bottom_condition (projected_orienter libm om2 params d) tmz i
          then (projected_orienter libm om2 params d).areas.coeff i else 0)
      ∧ overhang_areas (projected_orienter libm om1 params d) d tmz i
        = overhang_areas (projected_orienter libm om2 params d) d tmz i
      ∧ heights (projected_orienter libm om1 params d) tmz i
          * overhang_areas (projected_orienter libm om1 params d) d tmz i
          * inner (projected_orienter libm om1 params d) d i
        = heights (projected_orienter libm om2 params d) tmz i
          * overhang_areas (projected_orienter libm om2 params d) d tmz i
          * inner (projected_orienter libm om2 params d) d i
      ∧ laf_areas (projected_orienter libm om1 params d) d tmz i
        = laf_areas (projected_orienter libm om2 params d) d tmz i := by
    intro i hi
    by_cases hn : negligible params (om1.mesh.facet_area i) = true
        ∧ negligible params (om2.mesh.facet_area i) = true
    · have ha1 : (projected_orienter libm om1 params d).areas.coeff i = 0 := by
        rw [har1]; exact kept_area_negligible params om1.mesh i hn.1
      have ha2 : (projected_orienter libm om2 params d).areas.coeff i = 0 := by
        rw [har2]; exact kept_area_negligible params om2.mesh i hn.2
      rw [overhang_areas_zero _ d tmz i ha1, overhang_areas_zero _ d tmz i ha2,
        laf_areas_zero _ d tmz i ha1, laf_areas_zero _ d tmz i ha2, ha1, ha2]
      simp
    · obtain ⟨e1, e2, e3, e4, e5⟩ := hsame i hi hn
      have hov : overhang_areas (projected_orienter libm om1 params d) d tmz i
          = overhang_areas (projected_orienter libm om2 params d) d tmz i := by
        rw [overhang_areas_eq, overhang_areas_eq]
        simp only [normal_projection, hzmax1, hzmax2, har1, har2, hap1, hap2, hno1, hno2,
          hpa1, hpa2, e1, e2, e3, e4, hangle]
      refine ⟨?_, hov, ?_, ?_⟩
      · simp only [bottom_condition, hzmax1, hzmax2, har1, har2, hpa1, hpa2, e1, e4]
      · rw [hov]
        simp only [heights, inner, normal_projection, hzmean1, hzmean2, hno1, hno2, hpa1, hpa2,
          e2, e5, hangle]
      · rw [laf_areas_eq, laf_areas_eq]
        simp only [normal_projection, hzmax1, hzmax2, har1, har2, hno1, hno2, hpa1, hpa2,
          e1, e2, e4]
  have hn1 : (projected_orienter libm om1 params d).z_max.size = om1.mesh.facets_count := by
    rw [hzmax1]
  have hn2 : (projected_orienter libm om2 params d).z_max.size = om1.mesh.facets_count := by
    rw [hzmax2, hcount]
  have hm1 : (projected_orienter libm om1 params d).z_mean.size = om1.mesh.facets_count := by
    rw [hzmean1]
  have hm2 : (projected_orienter libm om2 params d).z_mean.size = om1.mesh.facets_count := by
    rw [hzmean2, hcount]
  have hr1 : (projected_orienter libm om1 params d).normals.rows = om1.mesh.facets_count := by
    rw [hno1]
  have hr2 : (projected_orienter libm om2 params d).normals.rows = om1.mesh.facets_count := by
    rw [hno2, hcount]
  have hb : c1.bottom = c2.bottom := by
    rw [hb1, hb2, hn1, hn2]
    exact eigen_sum_congr _ _ _ (fun i hi => (hterm i hi).1)
  refine ⟨c1, c2, hc1, hc2, hb, ?_, by rw [hct1, hct2, hb], ?_⟩
  · rw [ho1, ho2, hm1, hm2, hr1, hr2]
    cases min_volume
    · simp only [Bool.false_eq_true, if_false]
      exact eigen_sum_congr _ _ _ (fun i hi => by rw [(hterm i hi).2.1])
    · simp only [if_true]
      exact eigen_sum_congr _ _ _ (fun i hi => (hterm i hi).2.2.1)
  · rw [hl1, hl2, hr1, hr2]
    exact eigen_sum_congr _ _ _ (fun i hi => (hterm i hi).2.2.2)
/-- Claim C17, amended, on the cube with a needle: tips `(0,0,1/2)` and `(0,0,1/4)`,
direction `(0, 0, 1)`, where both meshes have `total_min_z = 0`. -/
theorem negligible_facets_frame_witness :
    (needle_cube_orient_mesh (1 / 2)).mesh.facets_count
        = (needle_cube_orient_mesh (1 / 4)).mesh.facets_count
      ∧ (needle_cube_orient_mesh (1 / 2)).overhang_angle
        = (needle_cube_orient_mesh (1 / 4)).overhang_angle
      ∧ (∀ i < (needle_cube_orient_mesh (1 / 2)).mesh.facets_count,
          (negligible sample_params ((needle_cube_orient_mesh (1 / 2)).mesh.facet_area i) = true
            ∧ negligible sample_params
                ((needle_cube_orient_mesh (1 / 4)).mesh.facet_area i) = true)
          ∨ ((needle_cube_orient_mesh (1 / 2)).mesh.facet_area i
              = (needle_cube_orient_mesh (1 / 4)).mesh.facet_area i
            ∧ (needle_cube_orient_mesh (1 / 2)).mesh.face_normals i
              = (needle_cube_orient_mesh (1 / 4)).mesh.face_normals i
            ∧ (needle_cube_orient_mesh (1 / 2)).mesh.is_exterior_appearance i
              = (needle_cube_orient_mesh (1 / 4)).mesh.is_exterior_appearance i
            ∧ ∀ k < 3, (needle_cube_orient_mesh (1 / 2)).mesh.get_vertex i k
              = (needle_cube_orient_mesh (1 / 4)).mesh.get_vertex i k))
      ∧ total_min_z (projected_orienter sample_libm (needle_cube_orient_mesh (1 / 2))
          sample_params ⟨0, 0, 1⟩) = some 0
      ∧ total_min_z (projected_orienter sample_libm (needle_cube_orient_mesh (1 / 4))
          sample_params ⟨0, 0, 1⟩) = some 0
      ∧ ∃ costs1 costs2,
        get_features sample_libm
            (projected_orienter sample_libm (needle_cube_orient_mesh (1 / 2)) sample_params
              ⟨0, 0, 1⟩) ⟨0, 0, 1⟩ true = some costs1
        ∧ get_features sample_libm
            (projected_orienter sample_libm (needle_cube_orient_mesh (1 / 4)) sample_params
              ⟨0, 0, 1⟩) ⟨0, 0, 1⟩ true = some costs2
        ∧ costs1.bottom = costs2.bottom ∧ costs1.overhang = costs2.overhang
        ∧ costs1.contour = costs2.contour ∧ costs1.area_laf = costs2.area_laf :=
  have h1 : (needle_cube_orient_mesh (1 / 2)).mesh.facets_count
      = (needle_cube_orient_mesh (1 / 4)).mesh.facets_count := rfl
  have h2 : (needle_cube_orient_mesh (1 / 2)).overhang_angle
      = (needle_cube_orient_mesh (1 / 4)).overhang_angle := rfl
  have h3 : ∀ i < (needle_cube_orient_mesh (1 / 2)).mesh.facets_count,
      (negligible sample_params ((needle_cube_orient_mesh (1 / 2)).mesh.facet_area i) = true
        ∧ negligible sample_params
            ((needle_cube_orient_mesh (1 / 4)).mesh.facet_area i) = true)
      ∨ ((needle_cube_orient_mesh (1 / 2)).mesh.facet_area i
          = (needle_cube_orient_mesh (1 / 4)).mesh.facet_area i
        ∧ (needle_cube_orient_mesh (1 / 2)).mesh.face_normals i
          = (needle_cube_orient_mesh (1 / 4)).mesh.face_normals i
        ∧ (needle_cube_orient_mesh (1 / 2)).mesh.is_exterior_appearance i
          = (needle_cube_orient_mesh (1 / 4)).mesh.is_exterior_appearance i
        ∧ ∀ k < 3, (needle_cube_orient_mesh (1 / 2)).mesh.get_vertex i k
          = (needle_cube_orient_mesh (1 / 4)).mesh.get_vertex i k) := by
    intro i _
    by_cases h12 : i = 12
    · left
      rw [h12]
      norm_num [negligible, sample_params, needle_cube_orient_mesh, needle_cube_mesh,
        abs_of_pos]
    · right
      simp [needle_cube_orient_mesh, needle_cube_mesh, h12]
  have h4 := needle_up_total_min_z (1 / 2) (by norm_num)
  have h5 := needle_up_total_min_z (1 / 4) (by norm_num)
  ⟨h1, h2, h3, h4, h5,
    negligible_facets_frame sample_libm (needle_cube_orient_mesh (1 / 2))
      (needle_cube_orient_mesh (1 / 4)) sample_params ⟨0, 0, 1⟩ true 0 h1 h2 h3 h4 h5⟩

/-! ## Theorems: batch orchestration -/

theorem process_some_nonzero (H : HashOrder) (libm : Libm) (o : AutoOrienter)
    (hfacets : 0 < o.mesh.facets_count) :
    ∃ d, process H libm o = some d ∧ d ≠ Vec3f.all_zero := by
  obtain ⟨results, hres, hkeys, -⟩ :=
    process_loop_spec libm (process_candidates H o) hfacets
      (process_candidates H o).orientations (process_candidates H o) []
      (fun _ => rfl) (by simpa using process_candidates_nodup H o)
  simp only [List.map_nil, List.nil_append] at hkeys
  have hpr : process_results H libm o = some results := hres
  have hperm := H.results_perm results
  cases hs : std_sort (fun p1 p2 => decide (p1.2.unprintability < p2.2.unprintability))
      (H.iterate_results results) with
  | nil =>
    have h1 := (std_sort_perm (fun p1 p2 : Vec3f × CostItems =>
      decide (p1.2.unprintability < p2.2.unprintability)) (H.iterate_results results))
    rw [hs] at h1
    have h2 : results = [] := List.Perm.eq_nil (hperm.symm.trans h1.symm)
    rw [h2] at hkeys
    obtain ⟨ctail, hctail⟩ := process_candidates_default_first H o
    rw [hctail] at hkeys
    exact absurd hkeys.symm (List.cons_ne_nil _ _)
  | cons best tail =>
    obtain ⟨hbest, -⟩ := std_sort_head_min (fun p : Vec3f × CostItems => p.2.unprintability)
      (H.iterate_results results) best tail hs
    have hbest2 : best ∈ results := hperm.mem_iff.mp hbest
    have hd : best.1 ∈ (process_candidates H o).orientations.map Vec3f.neg := by
      rw [← hkeys]; exact List.mem_map.mpr ⟨best, hbest2, rfl⟩
    obtain ⟨c, hc, hcd⟩ := List.mem_map.mp hd
    refine ⟨best.1, ?_, ?_⟩
    · unfold process
      rw [hpr]
      simp only [hs]
    · intro hzero
      have hc0 : c = Vec3f.all_zero := by
        apply neg_injective
        rw [hcd, hzero]
        simp [Vec3f.neg, Vec3f.all_zero]
      obtain ⟨rest, hrest⟩ := process_candidates_shape H o
      have hno : Vec3f.all_zero ∉ (process_candidates H o).orientations := by
        rw [hrest]
        apply remove_duplicates_loop_no_zero
        simp [Vec3f.all_zero]
      exact hno (hc0 ▸ hc)

theorem orient_one_some (H : HashOrder) (libm : Libm) (geo : Geometry) (params : OrientParams)
    (with_euler : Bool) (m : OrientMeshSlot) (hfacets : 0 < m.input.mesh.facets_count) :
    ∃ d, process H libm (AutoOrienter.new libm m.input params) = some d
      ∧ d ≠ Vec3f.all_zero
      ∧ orient_one H libm geo params with_euler m
        = some { m with
            orientation := d
            axis := (geo.rotation_from_two_vectors d ⟨0, 0, 1⟩).1
            angle := (geo.rotation_from_two_vectors d ⟨0, 0, 1⟩).2.1
            rotation_matrix := (geo.rotation_from_two_vectors d ⟨0, 0, 1⟩).2.2
            euler_angles :=
              if with_euler then
                geo.extract_euler_angles (geo.rotation_from_two_vectors d ⟨0, 0, 1⟩).2.2
              else m.euler_angles } := by
  obtain ⟨d, hd, hne⟩ :=
    process_some_nonzero H libm (AutoOrienter.new libm m.input params) hfacets
  refine ⟨d, hd, hne, ?_⟩
  unfold orient_one
  rw [hd]

theorem orient_loop_spec (H : HashOrder) (libm : Libm) (geo : Geometry) (params : OrientParams)
    (with_euler : Bool) (meshs_ : List OrientMeshSlot)
    (hfacets : ∀ m ∈ meshs_, 0 < m.input.mesh.facets_count) :
    ∀ i : Nat, ∃ meshes,
      orient_loop H libm geo params with_euler i meshs_
        = some (meshes, List.range' i meshs_.length)
      ∧ List.Forall₂
          (fun m done => orient_one H libm geo params with_euler m = some done)
          meshs_ meshes := by
  induction meshs_ with
  | nil => intro i; exact ⟨[], rfl, List.Forall₂.nil⟩
  | cons m rest ih =>
    intro i
    obtain ⟨d, -, -, hone⟩ :=
      orient_one_some H libm geo params with_euler m (hfacets m (List.mem_cons_self _ _))
    obtain ⟨meshes, hloop, hall⟩ :=
      ih (fun x hx => hfacets x (List.mem_cons_of_mem _ hx)) (i + 1)
    refine ⟨_ :: meshes, ?_, List.Forall₂.cons hone hall⟩
    unfold orient_loop
    rw [hone]
    simp only [hloop, List.length_cons, List.range'_succ]

theorem orient_sequential (H : HashOrder) (libm : Libm) (geo : Geometry)
    (meshs_ : List OrientMeshSlot) (params : OrientParams) (stopfn : Nat → Bool)
    (hseq : params.parallel = false) :
    _orient H libm geo meshs_ params stopfn = orient_loop H libm geo params false 0 meshs_ := by
  unfold _orient
  simp [hseq]

/-- Claim C18 as stated fails: with a stop predicate that answers true from the start
(so before mesh 0 is started), sequential `_orient` on the unit cube still processes
mesh 0: `progressfn` is called for it and its orientation is overwritten. -/
theorem stop_predicate_not_polled :
    ∃ meshes calls,
      _orient HashOrder.insertion sample_libm sample_geometry [cube_slot] sample_params
          (fun _ => true) = some (meshes, calls)
      ∧ calls = [0]
      ∧ meshes.length = 1
      ∧ ∀ m ∈ meshes, m.orientation ≠ cube_slot.orientation := by
  have hfacets : ∀ m ∈ [cube_slot], 0 < m.input.mesh.facets_count := by
    intro m hm
    rw [List.mem_singleton] at hm
    rw [hm]
    decide
  obtain ⟨meshes, hloop, hall⟩ :=
    orient_loop_spec HashOrder.insertion sample_libm sample_geometry sample_params false
      [cube_slot] hfacets 0
  obtain ⟨d, -, hne, hone⟩ :=
    orient_one_some HashOrder.insertion sample_libm sample_geometry sample_params false
      cube_slot (by decide)
  refine ⟨meshes, [0], ?_, rfl, hall.length_eq.symm, ?_⟩
  · rw [orient_sequential _ _ _ _ _ _ rfl, hloop]
    rfl
  · intro m hm
    cases hall with
    | cons h1 h2 =>
      cases h2
      rw [List.mem_singleton] at hm
      rw [hone] at h1
      rw [hm, ← Option.some.inj h1]
      exact hne

/-- Claim C18, amended.  In sequential mode `_orient` never polls the stop predicate:
whatever it answers, every mesh of the collection (each with at least one facet) is
processed in index order, `progressfn` is called once for each index, and every mesh
receives the direction returned by `process` for it and the rotation derived from that
direction; everything else in the mesh is kept. -/
theorem orient_processes_every_mesh (H : HashOrder) (libm : Libm) (geo : Geometry)
    (meshs_ : List OrientMeshSlot) (params : OrientParams) (stopfn : Nat → Bool)
    (hseq : params.parallel = false)
    (hfacets : ∀ m ∈ meshs_, 0 < m.input.mesh.facets_count) :
    ∃ meshes,
      _orient H libm geo meshs_ params stopfn = some (meshes, List.range meshs_.length)
      ∧ List.Forall₂
          (fun m done => ∃ d, process H libm (AutoOrienter.new libm m.input params) = some d
            ∧ done = { m with
                orientation := d
                axis := (geo.rotation_from_two_vectors d ⟨0, 0, 1⟩).1
                angle := (geo.rotation_from_two_vectors d ⟨0, 0, 1⟩).2.1
                rotation_matrix := (geo.rotation_from_two_vectors d ⟨0, 0, 1⟩).2.2 })
          meshs_ meshes := by
  obtain ⟨meshes, hloop, hall⟩ := orient_loop_spec H libm geo params false meshs_ hfacets 0
  refine ⟨meshes, ?_, ?_⟩
  · rw [orient_sequential _ _ _ _ _ _ hseq, hloop, List.range_eq_range']
  · have hmem : List.Forall₂
        (fun m done => m ∈ meshs_ ∧ orient_one H libm geo params false m = some done)
        meshs_ meshes := by
      rw [List.forall₂_iff_get] at hall ⊢
      refine ⟨hall.1, ?_⟩
      intro i h1 h2
      exact ⟨List.get_mem _ _ _, hall.2 i h1 h2⟩
    refine hmem.imp ?_
    intro m done hdone
    obtain ⟨d, hd, -, hone⟩ := orient_one_some H libm geo params false m (hfacets m hdone.1)
    refine ⟨d, hd, ?_⟩
    rw [hone] at hdone
    exact (Option.some.inj hdone.2).symm

/-- Claim C18, amended, on a collection of two unit cubes with a stop predicate that
answers true from the start. -/
theorem orient_processes_every_mesh_witness :
    sample_params.parallel = false
      ∧ (∀ m ∈ [cube_slot, cube_slot], 0 < m.input.mesh.facets_count)
      ∧ ∃ meshes,
        _orient HashOrder.insertion sample_libm sample_geometry [cube_slot, cube_slot]
            sample_params (fun _ => true)
          = some (meshes, List.range [cube_slot, cube_slot].length)
        ∧ List.Forall₂
            (fun m done => ∃ d,
              process HashOrder.insertion sample_libm
                  (AutoOrienter.new sample_libm m.input sample_params) = some d
              ∧ done = { m with
                  orientation := d
                  axis := (sample_geometry.rotation_from_two_vectors d ⟨0, 0, 1⟩).1
                  angle := (sample_geometry.rotation_from_two_vectors d ⟨0, 0, 1⟩).2.1
                  rotation_matrix :=
                    (sample_geometry.rotation_from_two_vectors d ⟨0, 0, 1⟩).2.2 })
            [cube_slot, cube_slot] meshes :=
  have h1 : sample_params.parallel = false := rfl
  have h2 : ∀ m ∈ [cube_slot, cube_slot], 0 < m.input.mesh.facets_count := by
    intro m hm
    simp only [List.mem_cons, List.mem_singleton, List.not_mem_nil, or_false, or_self] at hm
    rw [hm]
    decide
  ⟨h1, h2,
    orient_processes_every_mesh HashOrder.insertion sample_libm sample_geometry
      [cube_slot, cube_slot] sample_params (fun _ => true) h1 h2⟩

/-! ## Theorems: buckets -/

theorem area_cumulation_eq (H : HashOrder) (o : AutoOrienter) (normals_ : MatrixX3f)
    (areas_ : VectorXf) (num_directions : Nat) :
    area_cumulation H o normals_ areas_ num_directions
      = { o with orientations :=
            o.orientations ++ area_cumulation_added H normals_ areas_ num_directions } := rfl

theorem process_candidates_collect (H : HashOrder) (o : AutoOrienter) :
    process_candidates H o = remove_duplicates (process_collect H o) default_tol := rfl

theorem process_collect_orientations (H : HashOrder) (o : AutoOrienter) :
    (process_collect H o).orientations
      = ⟨0, 0, -1⟩ :: (area_cumulation_added H o.normals o.areas 10
          ++ area_cumulation_added H o.normals_hull o.areas_hull 10 ++ supplement_vecs) := by
  simp only [process_collect, area_cumulation_eq, add_supplements, List.cons_append,
    List.nil_append, List.append_assoc]

theorem umap_contains_iff {K V : Type} [DecidableEq K] (m : List (K × V)) (k : K) :
    umap_contains m k = true ↔ k ∈ m.map Prod.fst := by
  simp only [umap_contains, List.any_eq_true, decide_eq_true_eq, List.mem_map]

theorem insert_fold_spec (row : Nat → Vec3f) (is : List Nat) :
    ∀ m : List (Vec3f × ℚ), (m.map Prod.fst).Nodup →
      ((is.foldl (fun m i => umap_insert m (row i) 0) m).map Prod.fst).Nodup
      ∧ (∀ v, v ∈ (is.foldl (fun m i => umap_insert m (row i) 0) m).map Prod.fst
          ↔ v ∈ m.map Prod.fst ∨ ∃ i ∈ is, row i = v)
      ∧ ∀ p ∈ is.foldl (fun m i => umap_insert m (row i) 0) m, p ∈ m ∨ p.2 = 0 := by
  induction is with
  | nil =>
    intro m hm
    exact ⟨hm, fun v => by simp, fun p hp => Or.inl hp⟩
  | cons i rest ih =>
    intro m hm
    simp only [List.foldl_cons]
    by_cases hc : umap_contains m (row i) = true
    · have hins : umap_insert m (row i) (0 : ℚ) = m := by
        unfold umap_insert; rw [if_pos hc]
      rw [hins]
      obtain ⟨h1, h2, h3⟩ := ih m hm
      refine ⟨h1, ?_, h3⟩
      intro v
      rw [h2 v]
      constructor
      · rintro (h | ⟨j, hj, hjv⟩)
        · exact Or.inl h
        · exact Or.inr ⟨j, List.mem_cons_of_mem _ hj, hjv⟩
      · rintro (h | ⟨j, hj, hjv⟩)
        · exact Or.inl h
        · rcases List.mem_cons.mp hj with hj | hj
          · left
            rw [← hjv, hj]
            exact (umap_contains_iff m (row i)).mp hc
          · exact Or.inr ⟨j, hj, hjv⟩
    · have hins : umap_insert m (row i) (0 : ℚ) = m ++ [(row i, 0)] := by
        unfold umap_insert; rw [if_neg hc]
      rw [hins]
      have hfresh : row i ∉ m.map Prod.fst := fun h => hc ((umap_contains_iff m (row i)).mpr h)
      have hm2 : ((m ++ [(row i, (0 : ℚ))]).map Prod.fst).Nodup := by
        rw [List.map_append, List.nodup_append]
        refine ⟨hm, List.nodup_singleton _, ?_⟩
        intro a ha hb
        simp only [List.map_cons, List.map_nil, List.mem_singleton] at hb
        exact hfresh (hb ▸ ha)
      obtain ⟨h1, h2, h3⟩ := ih (m ++ [(row i, 0)]) hm2
      refine ⟨h1, ?_, ?_⟩
      · intro v
        rw [h2 v]
        simp only [List.map_append, List.map_cons, List.map_nil, List.mem_append,
          List.mem_singleton, List.mem_cons, List.not_mem_nil, or_false]
        constructor
        · rintro ((h | h) | ⟨j, hj, hjv⟩)
          · exact Or.inl h
          · exact Or.inr ⟨i, Or.inl rfl, h.symm⟩
          · exact Or.inr ⟨j, Or.inr hj, hjv⟩
        · rintro (h | ⟨j, hj, hjv⟩)
          · exact Or.inl (Or.inl h)
          · rcases hj with hj | hj
            · exact Or.inl (Or.inr (by rw [← hjv, hj]))
            · exact Or.inr ⟨j, hj, hjv⟩
      · intro p hp
        rcases h3 p hp with h | h
        · rcases List.mem_append.mp h with h | h
          · exact Or.inl h
          · rw [List.mem_singleton] at h
            exact Or.inr (by rw [h])
        · exact Or.inr h

theorem umap_add_present (m : List (Vec3f × ℚ)) (k : Vec3f) (a : ℚ)
    (h : k ∈ m.map Prod.fst) :
    umap_add m k a = m.map (fun p => if p.1 = k then (p.1, p.2 + a) else p) := by
  unfold umap_add
  rw [if_pos ((umap_contains_iff m k).mpr h)]

theorem add_fold_spec (row : Nat → Vec3f) (a : Nat → ℚ) (is : List Nat) :
    ∀ m : List (Vec3f × ℚ), (∀ i ∈ is, row i ∈ m.map Prod.fst) →
      is.foldl (fun m i => umap_add m (row i) (a i)) m
        = m.map (fun p => (p.1, p.2 + ((is.filter (fun i => row i = p.1)).map a).sum)) := by
  induction is with
  | nil =>
    intro m _
    simp
  | cons i rest ih =>
    intro m hm
    simp only [List.foldl_cons]
    rw [umap_add_present m (row i) (a i) (hm i (List.mem_cons_self _ _))]
    have hkeys : (m.map (fun p => if p.1 = row i then (p.1, p.2 + a i) else p)).map Prod.fst
        = m.map Prod.fst := by
      rw [List.map_map]
      apply List.map_congr_left
      intro p _
      simp only [Function.comp]
      split_ifs <;> rfl
    rw [ih _ (fun j hj => by rw [hkeys]; exact hm j (List.mem_cons_of_mem _ hj)), List.map_map]
    apply List.map_congr_left
    intro p _
    simp only [Function.comp]
    by_cases hp : p.1 = row i
    · have hp2 : row i = p.1 := hp.symm
      simp only [hp, if_true, List.filter_cons, decide_True, List.map_cons, List.sum_cons]
      rw [add_assoc]
    · have hp2 : ¬ row i = p.1 := fun h => hp h.symm
      simp only [hp, if_false, List.filter_cons, hp2, decide_False, Bool.false_eq_true]

theorem sum_map_filter_range (n : Nat) (q : Nat → Prop) [DecidablePred q] (a : Nat → ℚ) :
    (((List.range n).filter (fun i => decide (q i))).map a).sum
      = ∑ i ∈ (Finset.range n).filter q, a i := by
  have h : ∀ l : List Nat, ((l.filter (fun i => decide (q i))).map a).sum
      = (l.map (fun i => if decide (q i) then a i else 0)).sum := by
    intro l
    induction l with
    | nil => rfl
    | cons x l ih =>
      by_cases hx : q x
      · simp only [List.filter_cons, hx, decide_True, if_true, List.map_cons, List.sum_cons, ih]
      · simp only [List.filter_cons, hx, decide_False, Bool.false_eq_true, if_false,
          List.map_cons, List.sum_cons, ih, zero_add]
  rw [h]
  exact eigen_sum_select n (fun i => decide (q i)) q a (fun i => decide_eq_true_iff)

theorem alignments_init_spec (normals_ : MatrixX3f) (areas_ : VectorXf) :
    ((alignments_init normals_ areas_).map Prod.fst).Nodup
      ∧ (∀ v, v ∈ (alignments_init normals_ areas_).map Prod.fst ↔ v ∈ buckets normals_ areas_)
      ∧ ∀ p ∈ alignments_init normals_ areas_, p.2 = 0 := by
  obtain ⟨h1, h2, h3⟩ :=
    insert_fold_spec normals_.row (List.range areas_.size) [] List.nodup_nil
  refine ⟨h1, ?_, ?_⟩
  · intro v
    unfold alignments_init
    rw [h2 v]
    simp only [List.map_nil, List.not_mem_nil, false_or, List.mem_range, buckets,
      Finset.mem_image, Finset.mem_range]
  · intro p hp
    rcases h3 p hp with h | h
    · exact absurd h (List.not_mem_nil _)
    · exact h

theorem alignments_of_spec (normals_ : MatrixX3f) (areas_ : VectorXf) :
    ((alignments_of normals_ areas_).map Prod.fst).Nodup
      ∧ (∀ v, v ∈ (alignments_of normals_ areas_).map Prod.fst ↔ v ∈ buckets normals_ areas_)
      ∧ ∀ p ∈ alignments_of normals_ areas_, p.2 = bucket_area normals_ areas_ p.1 := by
  obtain ⟨h1, h2, h3⟩ := alignments_init_spec normals_ areas_
  have hall : ∀ i ∈ List.range areas_.size,
      normals_.row i ∈ (alignments_init normals_ areas_).map Prod.fst := by
    intro i hi
    rw [h2]
    exact Finset.mem_image.mpr ⟨i, Finset.mem_range.mpr (List.mem_range.mp hi), rfl⟩
  have hclosed := add_fold_spec normals_.row areas_.coeff (List.range areas_.size)
    (alignments_init normals_ areas_) hall
  have hkeys : (alignments_of normals_ areas_).map Prod.fst
      = (alignments_init normals_ areas_).map Prod.fst := by
    unfold alignments_of
    rw [hclosed, List.map_map]
    rfl
  refine ⟨by rw [hkeys]; exact h1, fun v => by rw [hkeys]; exact h2 v, ?_⟩
  intro p hp
  unfold alignments_of at hp
  rw [hclosed] at hp
  obtain ⟨q, hq, hqp⟩ := List.mem_map.mp hp
  rw [← hqp]
  simp only [h3 q hq, zero_add, bucket_area]
  exact sum_map_filter_range areas_.size (fun i => normals_.row i = q.1) areas_.coeff

theorem std_sort_descending (l : List (Vec3f × ℚ)) :
    (std_sort (fun p1 p2 => decide (p1.2 > p2.2)) l).Pairwise (fun x y => y.2 ≤ x.2) := by
  have hcomp : (fun p1 p2 : Vec3f × ℚ => decide (p1.2 > p2.2))
      = (fun p1 p2 => decide ((fun p : Vec3f × ℚ => -p.2) p1 < (fun p : Vec3f × ℚ => -p.2) p2)) := by
    funext p1 p2
    exact decide_eq_decide.mpr neg_lt_neg_iff.symm
  rw [hcomp]
  refine (std_sort_sorted (fun p : Vec3f × ℚ => -p.2) l).imp ?_
  intro x y hxy
  exact neg_le_neg_iff.mp hxy

theorem alignments_length (normals_ : MatrixX3f) (areas_ : VectorXf) :
    (alignments_of normals_ areas_).length = (buckets normals_ areas_).card := by
  obtain ⟨h1, h2, -⟩ := alignments_of_spec normals_ areas_
  have hfin : ((alignments_of normals_ areas_).map Prod.fst).toFinset
      = buckets normals_ areas_ := by
    ext v
    rw [List.mem_toFinset]
    exact h2 v
  rw [← hfin, List.toFinset_card_of_nodup h1, List.length_map]

theorem area_cumulation_added_spec (H : HashOrder) (normals_ : MatrixX3f) (areas_ : VectorXf)
    (num_directions : Nat) :
    (area_cumulation_added H normals_ areas_ num_directions).length
        = min num_directions (buckets normals_ areas_).card
      ∧ (area_cumulation_added H normals_ areas_ num_directions).Nodup
      ∧ (∀ v ∈ area_cumulation_added H normals_ areas_ num_directions,
          v ∈ buckets normals_ areas_)
      ∧ (area_cumulation_added H normals_ areas_ num_directions).Pairwise
          (fun u v => bucket_area normals_ areas_ v ≤ bucket_area normals_ areas_ u)
      ∧ ∀ u ∈ area_cumulation_added H normals_ areas_ num_directions,
          ∀ v ∈ buckets normals_ areas_,
            v ∉ area_cumulation_added H normals_ areas_ num_directions →
            bucket_area normals_ areas_ v ≤ bucket_area normals_ areas_ u := by
  obtain ⟨hnodup, hkeys, hvals⟩ := alignments_of_spec normals_ areas_
  have hperm : (std_sort (fun p1 p2 => decide (p1.2 > p2.2))
      (H.iterate_alignments (alignments_of normals_ areas_))).Perm
      (alignments_of normals_ areas_) :=
    (std_sort_perm _ _).trans (H.alignments_perm _)
  have hsorted := std_sort_descending (H.iterate_alignments (alignments_of normals_ areas_))
  have hvals2 : ∀ p ∈ std_sort (fun p1 p2 => decide (p1.2 > p2.2))
      (H.iterate_alignments (alignments_of normals_ areas_)),
      p.2 = bucket_area normals_ areas_ p.1 := fun p hp => hvals p (hperm.mem_iff.mp hp)
  have hlen : (std_sort (fun p1 p2 => decide (p1.2 > p2.2))
      (H.iterate_alignments (alignments_of normals_ areas_))).length
      = (buckets normals_ areas_).card := by
    rw [hperm.length_eq, alignments_length]
  unfold area_cumulation_added
  generalize std_sort (fun p1 p2 => decide (p1.2 > p2.2))
    (H.iterate_alignments (alignments_of normals_ areas_)) = sorted at hperm hsorted hvals2 hlen
  have hnodup2 : (sorted.map Prod.fst).Nodup := (hperm.map Prod.fst).nodup_iff.mpr hnodup
  have htake : (sorted.take (min num_directions sorted.length)).Sublist sorted :=
    List.take_sublist _ _
  have hsplit : sorted.take (min num_directions sorted.length)
      ++ sorted.drop (min num_directions sorted.length) = sorted := List.take_append_drop _ _
  refine ⟨?_, ?_, ?_, ?_, ?_⟩
  · rw [List.length_map, List.length_take, hlen]
    simp
  · exact (htake.map Prod.fst).nodup hnodup2
  · intro v hv
    obtain ⟨p, hp, hpv⟩ := List.mem_map.mp hv
    rw [← hpv, ← hkeys]
    exact List.mem_map.mpr ⟨p, hperm.mem_iff.mp (htake.subset hp), rfl⟩
  · rw [List.pairwise_map]
    refine (hsorted.sublist htake).imp_of_mem ?_
    intro x y hx hy hxy
    rw [← hvals2 x (htake.subset hx), ← hvals2 y (htake.subset hy)]
    exact hxy
  · intro u hu v hv hnot
    obtain ⟨p, hp, hpu⟩ := List.mem_map.mp hu
    have hvk : v ∈ (alignments_of normals_ areas_).map Prod.fst := (hkeys v).mpr hv
    obtain ⟨q, hq, hqv⟩ := List.mem_map.mp hvk
    have hq2 : q ∈ sorted := hperm.mem_iff.mpr hq
    rw [← hsplit] at hq2 hsorted
    rcases List.mem_append.mp hq2 with hq3 | hq3
    · exact absurd (List.mem_map.mpr ⟨q, hq3, hqv⟩) hnot
    · have := (List.pairwise_append.mp hsorted).2.2 p hp q hq3
      rw [← hpu, ← hqv, ← hvals2 p (htake.subset hp), ← hvals q hq]
      exact this

/-- Claim C20.  For every normals/areas input and every `num_directions`, the map built by
`area_cumulation` has exactly one entry per bucket (distinct row of the normals matrix),
holding the sum of the areas of the facets of that bucket; `area_cumulation` appends
`min(num_directions, number of buckets)` distinct bucket normals, in non-increasing order
of accumulated area, and every appended bucket has an accumulated area at least that of
every bucket that is not appended. -/
theorem area_cumulation_top_buckets (H : HashOrder) (o : AutoOrienter) (normals_ : MatrixX3f)
    (areas_ : VectorXf) (num_directions : Nat) :
    ((alignments_of normals_ areas_).map Prod.fst).Nodup
      ∧ (∀ v, v ∈ (alignments_of normals_ areas_).map Prod.fst ↔ v ∈ buckets normals_ areas_)
      ∧ (∀ p ∈ alignments_of normals_ areas_, p.2 = bucket_area normals_ areas_ p.1)
      ∧ ∃ added,
        (area_cumulation H o normals_ areas_ num_directions).orientations
          = o.orientations ++ added
        ∧ added.length = min num_directions (buckets normals_ areas_).card
        ∧ added.Nodup
        ∧ (∀ v ∈ added, v ∈ buckets normals_ areas_)
        ∧ added.Pairwise
            (fun u v => bucket_area normals_ areas_ v ≤ bucket_area normals_ areas_ u)
        ∧ ∀ u ∈ added, ∀ v ∈ buckets normals_ areas_, v ∉ added →
            bucket_area normals_ areas_ v ≤ bucket_area normals_ areas_ u := by
  obtain ⟨h1, h2, h3⟩ := alignments_of_spec normals_ areas_
  obtain ⟨g1, g2, g3, g4, g5⟩ := area_cumulation_added_spec H normals_ areas_ num_directions
  refine ⟨h1, h2, h3, area_cumulation_added H normals_ areas_ num_directions, ?_, g1, g2, g3,
    g4, g5⟩
  rw [area_cumulation_eq]

theorem buckets_eq_toFinset (normals_ : MatrixX3f) (areas_ : VectorXf) :
    buckets normals_ areas_ = ((List.range areas_.size).map normals_.row).toFinset := by
  ext v
  simp only [buckets, Finset.mem_image, Finset.mem_range, List.mem_toFinset, List.mem_map,
    List.mem_range]

theorem range_eleven : List.range 11 = [0, 1, 2, 3, 4, 5, 6, 7, 8, 9, 10] := by decide

theorem eleven_orienter_rows :
    (List.range eleven_orienter.areas.size).map eleven_orienter.normals.row = eleven_normals := by
  have hsize : eleven_orienter.areas.size = 11 := rfl
  rw [hsize, range_eleven]
  simp only [eleven_orienter, AutoOrienter.new, preprocess, kept_normal, negligible,
    eleven_mesh, eleven_normals, sample_params, List.map_cons, List.map_nil,
    List.getD_cons_zero, List.getD_cons_succ, quantize_vec3f]
  norm_num

theorem eleven_normals_nodup : eleven_normals.Nodup := by
  simp only [eleven_normals, List.nodup_cons, List.mem_cons, List.mem_singleton,
    List.not_mem_nil, Vec3f.mk.injEq, List.nodup_nil]
  norm_num

/-- Claim C15 as stated fails: for a mesh with eleven buckets `process` appends only ten
mesh-derived candidates, because the call `area_cumulation(normals, areas)` uses the
default `num_directions = 10`. -/
theorem mesh_buckets_capped :
    (buckets eleven_orienter.normals eleven_orienter.areas).card = 11
      ∧ (area_cumulation_added HashOrder.insertion eleven_orienter.normals
          eleven_orienter.areas 10).length = 10
      ∧ (process_collect HashOrder.insertion eleven_orienter).orientations
        = ⟨0, 0, -1⟩ :: (area_cumulation_added HashOrder.insertion eleven_orienter.normals
              eleven_orienter.areas 10
            ++ area_cumulation_added HashOrder.insertion eleven_orienter.normals_hull
              eleven_orienter.areas_hull 10 ++ supplement_vecs) := by
  have hcard : (buckets eleven_orienter.normals eleven_orienter.areas).card = 11 := by
    rw [buckets_eq_toFinset, eleven_orienter_rows,
      List.toFinset_card_of_nodup eleven_normals_nodup]
    rfl
  refine ⟨hcard, ?_, process_collect_orientations _ _⟩
  rw [(area_cumulation_added_spec HashOrder.insertion eleven_orienter.normals
    eleven_orienter.areas 10).1, hcard]
  rfl

/-- Claim C15, amended.  For every mesh the candidate list before deduplication is the
default direction, then `min(10, number of mesh buckets)` mesh bucket normals, then
`min(10, number of hull buckets)` hull bucket normals, then the supplemental directions;
the mesh buckets appended have accumulated areas at least those of the mesh buckets left
out. -/
theorem process_collect_counts (H : HashOrder) (o : AutoOrienter) :
    ∃ mesh_added hull_added,
      (process_collect H o).orientations
        = ⟨0, 0, -1⟩ :: (mesh_added ++ hull_added ++ supplement_vecs)
      ∧ process_candidates H o = remove_duplicates (process_collect H o) default_tol
      ∧ mesh_added.length = min 10 (buckets o.normals o.areas).card
      ∧ hull_added.length = min 10 (buckets o.normals_hull o.areas_hull).card
      ∧ (∀ v ∈ mesh_added, v ∈ buckets o.normals o.areas)
      ∧ (∀ v ∈ hull_added, v ∈ buckets o.normals_hull o.areas_hull)
      ∧ ∀ u ∈ mesh_added, ∀ v ∈ buckets o.normals o.areas, v ∉ mesh_added →
          bucket_area o.normals o.areas v ≤ bucket_area o.normals o.areas u := by
  obtain ⟨g1, -, g3, -, g5⟩ := area_cumulation_added_spec H o.normals o.areas 10
  obtain ⟨k1, -, k3, -, -⟩ := area_cumulation_added_spec H o.normals_hull o.areas_hull 10
  exact ⟨area_cumulation_added H o.normals o.areas 10,
    area_cumulation_added H o.normals_hull o.areas_hull 10,
    process_collect_orientations H o, process_candidates_collect H o, g1, k1, g3, k3, g5⟩

/-! ## Theorems: the empty-mesh edge case -/

theorem remove_duplicates_loop_keep (tol : ℚ) (kept : List Vec3f) (it : Vec3f)
    (rest : List Vec3f) (hfar : kept.any (fun it_ok => it_ok.isApprox it tol) = false)
    (hnz : it.isApprox Vec3f.all_zero tol = false) :
    remove_duplicates_loop tol kept (it :: rest)
      = remove_duplicates_loop tol (kept ++ [it]) rest := by
  rw [remove_duplicates_loop]
  simp only [hfar, hnz, Bool.or_self, Bool.false_eq_true, if_false]

theorem remove_duplicates_loop_drop (tol : ℚ) (kept : List Vec3f) (it : Vec3f)
    (rest : List Vec3f)
    (h : (kept.any (fun it_ok => it_ok.isApprox it tol) || it.isApprox Vec3f.all_zero tol)
      = true) :
    remove_duplicates_loop tol kept (it :: rest) = remove_duplicates_loop tol kept rest := by
  rw [remove_duplicates_loop]
  simp only [h, if_true]

set_option maxHeartbeats 4000000 in
theorem supplements_dedup :
    remove_duplicates_loop default_tol [⟨0, 0, -1⟩] supplement_vecs = supplement_vecs := by
  unfold supplement_vecs
  rw [remove_duplicates_loop_drop _ _ _ _
    (by norm_num [Vec3f.isApprox, Vec3f.sub, Vec3f.squaredNorm, default_tol])]
  rw [remove_duplicates_loop_keep _ _ _ _
    (by norm_num [Vec3f.isApprox, Vec3f.sub, Vec3f.squaredNorm, default_tol])
    (by norm_num [Vec3f.isApprox, Vec3f.sub, Vec3f.squaredNorm, Vec3f.all_zero, default_tol])]
  simp only [List.cons_append, List.nil_append]
  rw [remove_duplicates_loop_keep _ _ _ _
    (by norm_num [Vec3f.isApprox, Vec3f.sub, Vec3f.squaredNorm, default_tol])
    (by norm_num [Vec3f.isApprox, Vec3f.sub, Vec3f.squaredNorm, Vec3f.all_zero, default_tol])]
  simp only [List.cons_append, List.nil_append]
  rw [remove_duplicates_loop_keep _ _ _ _
    (by norm_num [Vec3f.isApprox, Vec3f.sub, Vec3f.squaredNorm, default_tol])
    (by norm_num [Vec3f.isApprox, Vec3f.sub, Vec3f.squaredNorm, Vec3f.all_zero, default_tol])]
  simp only [List.cons_append, List.nil_append]
  rw [remove_duplicates_loop_keep _ _ _ _
    (by norm_num [Vec3f.isApprox, Vec3f.sub, Vec3f.squaredNorm, default_tol])
    (by norm_num [Vec3f.isApprox, Vec3f.sub, Vec3f.squaredNorm, Vec3f.all_zero, default_tol])]
  simp only [List.cons_append, List.nil_append]
  rw [remove_duplicates_loop_keep _ _ _ _
    (by norm_num [Vec3f.isApprox, Vec3f.sub, Vec3f.squaredNorm, default_tol])
    (by norm_num [Vec3f.isApprox, Vec3f.sub, Vec3f.squaredNorm, Vec3f.all_zero, default_tol])]
  simp only [List.cons_append, List.nil_append]
  rw [remove_duplicates_loop_keep _ _ _ _
    (by norm_num [Vec3f.isApprox, Vec3f.sub, Vec3f.squaredNorm, default_tol])
    (by norm_num [Vec3f.isApprox, Vec3f.sub, Vec3f.squaredNorm, Vec3f.all_zero, default_tol])]
  simp only [List.cons_append, List.nil_append]
  rw [remove_duplicates_loop_keep _ _ _ _
    (by norm_num [Vec3f.isApprox, Vec3f.sub, Vec3f.squaredNorm, default_tol])
    (by norm_num [Vec3f.isApprox, Vec3f.sub, Vec3f.squaredNorm, Vec3f.all_zero, default_tol])]
  simp only [List.cons_append, List.nil_append]
  rw [remove_duplicates_loop_keep _ _ _ _
    (by norm_num [Vec3f.isApprox, Vec3f.sub, Vec3f.squaredNorm, default_tol])
    (by norm_num [Vec3f.isApprox, Vec3f.sub, Vec3f.squaredNorm, Vec3f.all_zero, default_tol])]
  simp only [List.cons_append, List.nil_append]
  rw [remove_duplicates_loop_keep _ _ _ _
    (by norm_num [Vec3f.isApprox, Vec3f.sub, Vec3f.squaredNorm, default_tol])
    (by norm_num [Vec3f.isApprox, Vec3f.sub, Vec3f.squaredNorm, Vec3f.all_zero, default_tol])]
  simp only [List.cons_append, List.nil_append]
  rw [remove_duplicates_loop_keep _ _ _ _
    (by norm_num [Vec3f.isApprox, Vec3f.sub, Vec3f.squaredNorm, default_tol])
    (by norm_num [Vec3f.isApprox, Vec3f.sub, Vec3f.squaredNorm, Vec3f.all_zero, default_tol])]
  simp only [List.cons_append, List.nil_append]
  rw [remove_duplicates_loop_keep _ _ _ _
    (by norm_num [Vec3f.isApprox, Vec3f.sub, Vec3f.squaredNorm, default_tol])
    (by norm_num [Vec3f.isApprox, Vec3f.sub, Vec3f.squaredNorm, Vec3f.all_zero, default_tol])]
  simp only [List.cons_append, List.nil_append]
  rw [remove_duplicates_loop_keep _ _ _ _
    (by norm_num [Vec3f.isApprox, Vec3f.sub, Vec3f.squaredNorm, default_tol])
    (by norm_num [Vec3f.isApprox, Vec3f.sub, Vec3f.squaredNorm, Vec3f.all_zero, default_tol])]
  simp only [List.cons_append, List.nil_append]
  rw [remove_duplicates_loop_keep _ _ _ _
    (by norm_num [Vec3f.isApprox, Vec3f.sub, Vec3f.squaredNorm, default_tol])
    (by norm_num [Vec3f.isApprox, Vec3f.sub, Vec3f.squaredNorm, Vec3f.all_zero, default_tol])]
  simp only [List.cons_append, List.nil_append]
  rw [remove_duplicates_loop_keep _ _ _ _
    (by norm_num [Vec3f.isApprox, Vec3f.sub, Vec3f.squaredNorm, default_tol])
    (by norm_num [Vec3f.isApprox, Vec3f.sub, Vec3f.squaredNorm, Vec3f.all_zero, default_tol])]
  simp only [List.cons_append, List.nil_append]
  rw [remove_duplicates_loop_keep _ _ _ _
    (by norm_num [Vec3f.isApprox, Vec3f.sub, Vec3f.squaredNorm, default_tol])
    (by norm_num [Vec3f.isApprox, Vec3f.sub, Vec3f.squaredNorm, Vec3f.all_zero, default_tol])]
  simp only [List.cons_append, List.nil_append]
  rw [remove_duplicates_loop_keep _ _ _ _
    (by norm_num [Vec3f.isApprox, Vec3f.sub, Vec3f.squaredNorm, default_tol])
    (by norm_num [Vec3f.isApprox, Vec3f.sub, Vec3f.squaredNorm, Vec3f.all_zero, default_tol])]
  simp only [List.cons_append, List.nil_append]
  rw [remove_duplicates_loop_keep _ _ _ _
    (by norm_num [Vec3f.isApprox, Vec3f.sub, Vec3f.squaredNorm, default_tol])
    (by norm_num [Vec3f.isApprox, Vec3f.sub, Vec3f.squaredNorm, Vec3f.all_zero, default_tol])]
  simp only [List.cons_append, List.nil_append]
  rfl

theorem new_fields (libm : Libm) (om : OrientMesh) (params : OrientParams) :
    (AutoOrienter.new libm om params).normals
        = ⟨om.mesh.facets_count, kept_normal params om.mesh⟩
      ∧ (AutoOrienter.new libm om params).areas
        = ⟨om.mesh.facets_count, kept_area params om.mesh⟩
      ∧ (AutoOrienter.new libm om params).normals_hull
        = ⟨om.convex_hull_3d.facets_count, kept_normal params om.convex_hull_3d⟩
      ∧ (AutoOrienter.new libm om params).areas_hull
        = ⟨om.convex_hull_3d.facets_count, kept_area params om.convex_hull_3d⟩ :=
  ⟨rfl, rfl, rfl, rfl⟩

theorem kept_normal_negligible (params : OrientParams) (m : TriangleMesh) (i : Nat)
    (h : negligible params (m.facet_area i) = true) :
    kept_normal params m i = Vec3f.all_zero := by
  unfold kept_normal
  rw [if_pos h]

theorem negligible_of_lt (params : OrientParams) (area : ℚ)
    (hnegl : 0 < params.NEGL_FACE_SIZE) (h : area < params.NEGL_FACE_SIZE) :
    negligible params area = true := by
  simp [negligible, hnegl, h]

theorem remove_duplicates_loop_zeros (tol : ℚ) (zs : List Vec3f)
    (hz : ∀ v ∈ zs, v = Vec3f.all_zero) (rest : List Vec3f) :
    ∀ kept : List Vec3f,
      remove_duplicates_loop tol kept (zs ++ rest) = remove_duplicates_loop tol kept rest := by
  induction zs with
  | nil => intro kept; rfl
  | cons z zs ih =>
    intro kept
    have hz0 : z = Vec3f.all_zero := hz z (List.mem_cons_self _ _)
    rw [List.cons_append, remove_duplicates_loop_drop]
    · exact ih (fun v hv => hz v (List.mem_cons_of_mem _ hv)) kept
    · rw [hz0, isApprox_all_zero_self, Bool.or_true]

/-- Claim C16.  When `NEGL_FACE_SIZE > 0` and every facet of the mesh and of its hull has
an area below it, the deduplicated candidate list of `process` is exactly the list of the
eighteen supplemental directions in its original order, whose first element is the default
direction `(0, 0, -1)`. -/
theorem empty_mesh_candidates (H : HashOrder) (libm : Libm) (om : OrientMesh)
    (params : OrientParams) (hnegl : 0 < params.NEGL_FACE_SIZE)
    (hmesh : ∀ i < om.mesh.facets_count, om.mesh.facet_area i < params.NEGL_FACE_SIZE)
    (hhull : ∀ i < om.convex_hull_3d.facets_count,
      om.convex_hull_3d.facet_area i < params.NEGL_FACE_SIZE) :
    (process_candidates H (AutoOrienter.new libm om params)).orientations = supplement_vecs
      ∧ supplement_vecs.length = 18
      ∧ supplement_vecs.head? = some ⟨0, 0, -1⟩ := by
  refine ⟨?_, rfl, rfl⟩
  obtain ⟨hno, har, hnoh, harh⟩ := new_fields libm om params
  obtain ⟨-, -, g3, -, -⟩ := area_cumulation_added_spec H
    (AutoOrienter.new libm om params).normals (AutoOrienter.new libm om params).areas 10
  obtain ⟨-, -, k3, -, -⟩ := area_cumulation_added_spec H
    (AutoOrienter.new libm om params).normals_hull (AutoOrienter.new libm om params).areas_hull
    10
  have hz1 : ∀ v ∈ area_cumulation_added H (AutoOrienter.new libm om params).normals
      (AutoOrienter.new libm om params).areas 10, v = Vec3f.all_zero := by
    intro v hv
    have hb := g3 v hv
    rw [hno, har] at hb
    simp only [buckets, Finset.mem_image, Finset.mem_range] at hb
    obtain ⟨i, hi, hiv⟩ := hb
    rw [← hiv]
    exact kept_normal_negligible params om.mesh i
      (negligible_of_lt params _ hnegl (hmesh i hi))
  have hz2 : ∀ v ∈ area_cumulation_added H (AutoOrienter.new libm om params).normals_hull
      (AutoOrienter.new libm om params).areas_hull 10, v = Vec3f.all_zero := by
    intro v hv
    have hb := k3 v hv
    rw [hnoh, harh] at hb
    simp only [buckets, Finset.mem_image, Finset.mem_range] at hb
    obtain ⟨i, hi, hiv⟩ := hb
    rw [← hiv]
    exact kept_normal_negligible params om.convex_hull_3d i
      (negligible_of_lt params _ hnegl (hhull i hi))
  rw [process_candidates_collect]
  show remove_duplicates_list default_tol
    (process_collect H (AutoOrienter.new libm om params)).orientations = supplement_vecs
  rw [process_collect_orientations]
  show remove_duplicates_loop default_tol [⟨0, 0, -1⟩] _ = supplement_vecs
  rw [List.append_assoc, remove_duplicates_loop_zeros default_tol _ hz1,
    remove_duplicates_loop_zeros default_tol _ hz2, supplements_dedup]

/-- Claim C16 on the unit cube with `NEGL_FACE_SIZE = 1`, above the facet area one half. -/
theorem empty_mesh_candidates_witness :
    0 < ({ sample_params with NEGL_FACE_SIZE := 1 } : OrientParams).NEGL_FACE_SIZE
      ∧ (∀ i < cube_orient_mesh.mesh.facets_count,
          cube_orient_mesh.mesh.facet_area i
            < ({ sample_params with NEGL_FACE_SIZE := 1 } : OrientParams).NEGL_FACE_SIZE)
      ∧ (∀ i < cube_orient_mesh.convex_hull_3d.facets_count,
          cube_orient_mesh.convex_hull_3d.facet_area i
            < ({ sample_params with NEGL_FACE_SIZE := 1 } : OrientParams).NEGL_FACE_SIZE)
      ∧ (process_candidates HashOrder.insertion
            (AutoOrienter.new sample_libm cube_orient_mesh
              { sample_params with NEGL_FACE_SIZE := 1 })).orientations = supplement_vecs
      ∧ supplement_vecs.length = 18
      ∧ supplement_vecs.head? = some ⟨0, 0, -1⟩ :=
  have h1 : 0 < ({ sample_params with NEGL_FACE_SIZE := 1 } : OrientParams).NEGL_FACE_SIZE := by
    norm_num
  have h2 : ∀ i < cube_orient_mesh.mesh.facets_count,
      cube_orient_mesh.mesh.facet_area i
        < ({ sample_params with NEGL_FACE_SIZE := 1 } : OrientParams).NEGL_FACE_SIZE := by
    intro i _
    norm_num [cube_orient_mesh, cube_mesh]
  have h3 : ∀ i < cube_orient_mesh.convex_hull_3d.facets_count,
      cube_orient_mesh.convex_hull_3d.facet_area i
        < ({ sample_params with NEGL_FACE_SIZE := 1 } : OrientParams).NEGL_FACE_SIZE := by
    intro i _
    norm_num [cube_orient_mesh, cube_mesh]
  ⟨h1, h2, h3,
    empty_mesh_candidates HashOrder.insertion sample_libm cube_orient_mesh
      { sample_params with NEGL_FACE_SIZE := 1 } h1 h2 h3⟩

/-! ## Theorems: scenarios -/

theorem eigen_sum_zero (n : Nat) (f : Nat → ℚ) (h : ∀ i < n, f i = 0) : eigen_sum n f = 0 := by
  rw [eigen_sum_eq_sum_range]
  exact Finset.sum_eq_zero (fun i hi => h i (Finset.mem_range.mp hi))

theorem cube_total_min_z (libm : Libm) (params : OrientParams) (angle : ℚ) :
    total_min_z (projected_orienter libm ⟨cube_mesh, cube_mesh, angle⟩ params
      (Vec3f.neg ⟨0, 0, -1⟩)) = some 0 := by
  simp only [total_min_z, projected_orienter, project_vertices, AutoOrienter.new, preprocess,
    cube_mesh, MatrixX3f.minCoeff, MatrixX3f.coeffs, range_twelve, List.flatMap_cons,
    List.flatMap_nil, vertex_z, cube_facets, List.getD_cons_zero, List.getD_cons_succ,
    Vec3f.dot, Vec3f.neg]
  norm_num [List.getD]

theorem cube_kept_area (params : OrientParams) (i : Nat)
    (hnegl : params.NEGL_FACE_SIZE ≤ 1 / 2) : kept_area params cube_mesh i = 1 / 2 := by
  have h : ¬ negligible params (cube_mesh.facet_area i) = true := by
    simp only [negligible, Bool.and_eq_true, decide_eq_true_eq, not_and]
    intro _
    exact not_lt.mpr hnegl
  unfold kept_area
  rw [if_neg h]
  rfl

/-- Claim C13.  For the axis-aligned unit cube (twelve facets of area one half, hull equal
to the cube) resting on the plane `z = 0`, the default candidate `(0, 0, -1)`, evaluated
for the direction `-(0, 0, -1) = (0, 0, 1)`, gives `bottom = 1` and `overhang = 0` in both
modes, for every `0 < FIRST_LAY_H <= 1`, every `ASCENT <= 0` (the value the constructor
derives from the overhang angle), so every `ASCENT` in `[-1, 0]`, and
`NEGL_FACE_SIZE <= 1/2`. -/
theorem cube_scenario (libm : Libm) (params : OrientParams) (angle : ℚ) (min_volume : Bool)
    (hflh0 : 0 < params.FIRST_LAY_H) (hflh1 : params.FIRST_LAY_H ≤ 1)
    (hasc1 : libm.cos_ascent angle ≤ 0)
    (hnegl : params.NEGL_FACE_SIZE ≤ 1 / 2) :
    ∃ costs,
      get_features libm
          (projected_orienter libm ⟨cube_mesh, cube_mesh, angle⟩ params (Vec3f.neg ⟨0, 0, -1⟩))
          (Vec3f.neg ⟨0, 0, -1⟩) min_volume = some costs
      ∧ costs.bottom = 1 ∧ costs.overhang = 0 := by
  have htmz := cube_total_min_z libm params angle
  obtain ⟨costs, hcosts, hb, -, hov, -⟩ :=
    get_features_some libm
      (projected_orienter libm ⟨cube_mesh, cube_mesh, angle⟩ params (Vec3f.neg ⟨0, 0, -1⟩))
      (Vec3f.neg ⟨0, 0, -1⟩) min_volume 0 htmz
  obtain ⟨hzmax, hzmean, -, har, hap, hno, -, hpa⟩ :=
    projected_fields libm ⟨cube_mesh, cube_mesh, angle⟩ params (Vec3f.neg ⟨0, 0, -1⟩)
  have hn1 : ¬ (1 : ℚ) < params.FIRST_LAY_H := not_lt.mpr hflh1
  have hn2 : ¬ (1 / 2 : ℚ) < params.NEGL_FACE_SIZE := not_lt.mpr hnegl
  have hn3 : ¬ (0 : ℚ) < libm.cos_ascent angle := not_lt.mpr hasc1
  have hn4 : ¬ (1 : ℚ) < libm.cos_ascent angle := fun h => hn3 (lt_trans one_pos h)
  have hzero : ∀ i < 12, overhang_areas
      (projected_orienter libm ⟨cube_mesh, cube_mesh, angle⟩ params (Vec3f.neg ⟨0, 0, -1⟩))
      (Vec3f.neg ⟨0, 0, -1⟩) 0 i = 0 := by
    intro i hi
    rw [overhang_areas_eq]
    apply if_neg
    simp only [normal_projection, hzmax, hno, hpa]
    simp only [kept_normal, negligible, facet_z_max, MAX3,
      vertex_z, cube_mesh, cube_facets, quantize_vec3f, Vec3f.dot, Vec3f.neg]
    interval_cases i <;>
      norm_num [List.getD, hflh0, hn1, hn2, hn3, hn4, Vec3f.all_zero]
  refine ⟨costs, hcosts, ?_, ?_⟩
  · have hterm : ∀ i < 12,
        (if bottom_condition
            (projected_orienter libm ⟨cube_mesh, cube_mesh, angle⟩ params (Vec3f.neg ⟨0, 0, -1⟩))
            0 i = true
          then (projected_orienter libm ⟨cube_mesh, cube_mesh, angle⟩ params
            (Vec3f.neg ⟨0, 0, -1⟩)).areas.coeff i else 0)
          = if i < 2 then 1 / 2 else 0 := by
      intro i hi
      simp only [bottom_condition, hzmax, har, hpa, cube_kept_area params _ hnegl]
      simp only [facet_z_max, MAX3, vertex_z, cube_mesh, cube_facets, Vec3f.dot, Vec3f.neg]
      interval_cases i <;> norm_num [List.getD, hflh0, hn1]
    have hsize : (projected_orienter libm ⟨cube_mesh, cube_mesh, angle⟩ params
        (Vec3f.neg ⟨0, 0, -1⟩)).z_max.size = 12 := by rw [hzmax]; rfl
    rw [hb, hsize, eigen_sum_congr 12 _ _ hterm]
    simp only [eigen_sum, range_twelve, List.map_cons, List.map_nil, List.sum_cons,
      List.sum_nil]
    norm_num
  · rw [hov]
    cases min_volume
    · simp only [Bool.false_eq_true, if_false]
      rw [hno]
      exact eigen_sum_zero _ _ (fun i hi => by rw [hzero i hi, abs_zero])
    · simp only [if_true]
      rw [hzmean]
      exact eigen_sum_zero _ _ (fun i hi => by rw [hzero i hi, mul_zero, zero_mul])

/-- Claim C13 with the sample weights and an overhang angle of sixty degrees, in volume
mode. -/
theorem cube_scenario_witness :
    0 < sample_params.FIRST_LAY_H ∧ sample_params.FIRST_LAY_H ≤ 1
      ∧ sample_libm.cos_ascent 60 ≤ 0 ∧ sample_params.NEGL_FACE_SIZE ≤ 1 / 2
      ∧ ∃ costs,
        get_features sample_libm
            (projected_orienter sample_libm ⟨cube_mesh, cube_mesh, 60⟩ sample_params
              (Vec3f.neg ⟨0, 0, -1⟩))
            (Vec3f.neg ⟨0, 0, -1⟩) true = some costs
        ∧ costs.bottom = 1 ∧ costs.overhang = 0 :=
  have h1 : 0 < sample_params.FIRST_LAY_H := by norm_num [sample_params]
  have h2 : sample_params.FIRST_LAY_H ≤ 1 := by norm_num [sample_params]
  have h3 : sample_libm.cos_ascent 60 ≤ 0 := by norm_num [sample_libm]
  have h4 : sample_params.NEGL_FACE_SIZE ≤ 1 / 2 := by norm_num [sample_params]
  ⟨h1, h2, h3, h4, cube_scenario sample_libm sample_params 60 true h1 h2 h3 h4⟩

theorem flat_score (params : OrientParams) (costs : CostItems)
    (hov : costs.overhang = 0) (hlaf : costs.area_laf = 0) (hproj : costs.area_projected = 0) :
    (target_function params costs true).1
      = params.TAR_A * params.TAR_B
        + params.RELATIVE_F * params.TAR_D
          / (params.TAR_D + params.CONTOUR_F * costs.contour + params.BOTTOM_F * costs.bottom
              + params.BOTTOM_HULL_F * costs.bottom_hull)
        + b2f (decide (costs.bottom < params.BOTTOM_MIN)) * 100 := by
  simp only [target_function, hov, hlaf, hproj, if_true]
  norm_num

theorem flat_score_lt (libm : Libm) (params : OrientParams) (c1 c2 : CostItems)
    (hw : params.pos_weights) (hsqrt : libm.sqrt_monotone)
    (hov1 : c1.overhang = 0) (hlaf1 : c1.area_laf = 0) (hproj1 : c1.area_projected = 0)
    (hov2 : c2.overhang = 0) (hlaf2 : c2.area_laf = 0) (hproj2 : c2.area_projected = 0)
    (hct1 : c1.contour = 4 * libm.sqrt c1.bottom) (hct2 : c2.contour = 4 * libm.sqrt c2.bottom)
    (hh1 : c1.bottom_hull = c1.bottom) (hh2 : c2.bottom_hull = c2.bottom)
    (h0 : 0 ≤ c1.bottom) (hlt : c1.bottom < c2.bottom) :
    (target_function params c2 true).1 < (target_function params c1 true).1 := by
  obtain ⟨-, -, hF, hCF, hBF, hBHF, -, hD, -, -, -⟩ := hw
  rw [flat_score params c1 hov1 hlaf1 hproj1, flat_score params c2 hov2 hlaf2 hproj2,
    hct1, hct2, hh1, hh2]
  have hs1 := hsqrt.1 c1.bottom
  have hs12 := hsqrt.2 c1.bottom c2.bottom h0 (le_of_lt hlt)
  have hden1 : 0 < params.TAR_D + params.CONTOUR_F * (4 * libm.sqrt c1.bottom)
      + params.BOTTOM_F * c1.bottom + params.BOTTOM_HULL_F * c1.bottom := by positivity
  have hden12 : params.TAR_D + params.CONTOUR_F * (4 * libm.sqrt c1.bottom)
      + params.BOTTOM_F * c1.bottom + params.BOTTOM_HULL_F * c1.bottom
      < params.TAR_D + params.CONTOUR_F * (4 * libm.sqrt c2.bottom)
      + params.BOTTOM_F * c2.bottom + params.BOTTOM_HULL_F * c2.bottom := by
    have e1 : params.CONTOUR_F * (4 * libm.sqrt c1.bottom)
        ≤ params.CONTOUR_F * (4 * libm.sqrt c2.bottom) :=
      mul_le_mul_of_nonneg_left (by linarith) (le_of_lt hCF)
    have e2 : params.BOTTOM_F * c1.bottom < params.BOTTOM_F * c2.bottom :=
      mul_lt_mul_of_pos_left hlt hBF
    have e3 : params.BOTTOM_HULL_F * c1.bottom < params.BOTTOM_HULL_F * c2.bottom :=
      mul_lt_mul_of_pos_left hlt hBHF
    linarith
  have hquot := div_lt_div_of_pos_left (mul_pos hF hD) hden1 hden12
  have hpen : b2f (decide (c2.bottom < params.BOTTOM_MIN)) * 100
      ≤ b2f (decide (c1.bottom < params.BOTTOM_MIN)) * 100 := by
    by_cases h2 : c2.bottom < params.BOTTOM_MIN
    · have h1 : c1.bottom < params.BOTTOM_MIN := lt_trans hlt h2
      simp [b2f, h1, h2]
    · by_cases h1 : c1.bottom < params.BOTTOM_MIN <;> simp [b2f, h1, h2]
  linarith

theorem box_directions_cases (a h : ℚ) (d : Vec3f) (b : Nat) (t L : ℚ)
    (hd : (d, b, t, L) ∈ box_directions a h) :
    (d = ⟨0, 0, 1⟩ ∧ b = 0 ∧ t = 0 ∧ L = h) ∨ (d = ⟨0, 0, -1⟩ ∧ b = 2 ∧ t = -h ∧ L = h)
      ∨ (d = ⟨0, 1, 0⟩ ∧ b = 4 ∧ t = 0 ∧ L = a) ∨ (d = ⟨0, -1, 0⟩ ∧ b = 6 ∧ t = -a ∧ L = a)
      ∨ (d = ⟨1, 0, 0⟩ ∧ b = 8 ∧ t = 0 ∧ L = a) ∨ (d = ⟨-1, 0, 0⟩ ∧ b = 10 ∧ t = -a ∧ L = a) := by
  simpa [box_directions] using hd

theorem lt_twelve_cases (i : Nat) (hi : i < 12) :
    i = 0 ∨ i = 1 ∨ i = 2 ∨ i = 3 ∨ i = 4 ∨ i = 5 ∨ i = 6 ∨ i = 7 ∨ i = 8 ∨ i = 9 ∨ i = 10
      ∨ i = 11 := by omega

theorem lt_three_cases (k : Nat) (hk : k < 3) : k = 0 ∨ k = 1 ∨ k = 2 := by omega

theorem box_vertex_range (a h : ℚ) (ha : 0 < a) (hh : 0 < h) (i k : Nat) (hi : i < 12)
    (hk : k < 3) :
    (0 ≤ ((box_mesh a h).get_vertex i k).x ∧ ((box_mesh a h).get_vertex i k).x ≤ a)
      ∧ (0 ≤ ((box_mesh a h).get_vertex i k).y ∧ ((box_mesh a h).get_vertex i k).y ≤ a)
      ∧ (0 ≤ ((box_mesh a h).get_vertex i k).z ∧ ((box_mesh a h).get_vertex i k).z ≤ h) := by
  have ha0 : (0 : ℚ) ≤ a := ha.le
  have hh0 : (0 : ℚ) ≤ h := hh.le
  rcases lt_twelve_cases i hi with
    rfl | rfl | rfl | rfl | rfl | rfl | rfl | rfl | rfl | rfl | rfl | rfl <;>
    rcases lt_three_cases k hk with rfl | rfl | rfl <;>
    simp only [box_mesh, box_facets, List.getD_cons_zero, List.getD_cons_succ, le_refl, ha0,
      hh0, and_self]

theorem box_vertex_low (a h : ℚ) (ha : 0 < a) (hh : 0 < h) (d : Vec3f) (b : Nat) (t L : ℚ)
    (hd : (d, b, t, L) ∈ box_directions a h) (i k : Nat) (hi : i < 12) (hk : k < 3) :
    t ≤ vertex_z (box_mesh a h) d i k := by
  obtain ⟨⟨hx0, hx1⟩, ⟨hy0, hy1⟩, ⟨hz0, hz1⟩⟩ := box_vertex_range a h ha hh i k hi hk
  rcases box_directions_cases a h d b t L hd with
    ⟨rfl, rfl, rfl, rfl⟩ | ⟨rfl, rfl, rfl, rfl⟩ | ⟨rfl, rfl, rfl, rfl⟩ | ⟨rfl, rfl, rfl, rfl⟩
      | ⟨rfl, rfl, rfl, rfl⟩ | ⟨rfl, rfl, rfl, rfl⟩ <;>
    simp only [vertex_z, Vec3f.dot, mul_zero, mul_one, zero_add, add_zero, mul_neg, neg_zero,
      neg_le_neg_iff] <;>
    assumption

theorem box_vertex_bed (a h : ℚ) (d : Vec3f) (b : Nat) (t L : ℚ)
    (hd : (d, b, t, L) ∈ box_directions a h) :
    b < 12 ∧ vertex_z (box_mesh a h) d b 0 = t := by
  rcases box_directions_cases a h d b t L hd with
    ⟨rfl, rfl, rfl, rfl⟩ | ⟨rfl, rfl, rfl, rfl⟩ | ⟨rfl, rfl, rfl, rfl⟩ | ⟨rfl, rfl, rfl, rfl⟩
      | ⟨rfl, rfl, rfl, rfl⟩ | ⟨rfl, rfl, rfl, rfl⟩ <;>
    norm_num [vertex_z, box_mesh, box_facets, Vec3f.dot, List.getD]

theorem box_z_max (a h : ℚ) (ha : 0 < a) (hh : 0 < h) (d : Vec3f) (b : Nat) (t L : ℚ)
    (hd : (d, b, t, L) ∈ box_directions a h) (i : Nat) (hi : i < 12) :
    facet_z_max (box_mesh a h) d i = if i = b ∨ i = b + 1 then t else t + L := by
  have h1 : max 0 h = h := max_eq_right hh.le
  have h2 : max h 0 = h := max_eq_left hh.le
  have h3 : max 0 a = a := max_eq_right ha.le
  have h4 : max a 0 = a := max_eq_left ha.le
  have h5 : max (-h) 0 = 0 := max_eq_right (by linarith)
  have h6 : max 0 (-h) = 0 := max_eq_left (by linarith)
  have h7 : max (-a) 0 = 0 := max_eq_right (by linarith)
  have h8 : max 0 (-a) = 0 := max_eq_left (by linarith)
  rcases box_directions_cases a h d b t L hd with
    ⟨rfl, rfl, rfl, rfl⟩ | ⟨rfl, rfl, rfl, rfl⟩ | ⟨rfl, rfl, rfl, rfl⟩ | ⟨rfl, rfl, rfl, rfl⟩
      | ⟨rfl, rfl, rfl, rfl⟩ | ⟨rfl, rfl, rfl, rfl⟩ <;>
    simp only [facet_z_max, MAX3, vertex_z, box_mesh, box_facets, Vec3f.dot] <;>
    rcases lt_twelve_cases i hi with
      rfl | rfl | rfl | rfl | rfl | rfl | rfl | rfl | rfl | rfl | rfl | rfl <;>
    simp only [List.getD_cons_zero, List.getD_cons_succ, mul_zero, mul_one, zero_mul,
      add_zero, zero_add, mul_neg, neg_zero, max_self, h1, h2, h3, h4, h5, h6, h7, h8,
      neg_add_cancel, Nat.reduceAdd, Nat.reduceEqDiff, OfNat.ofNat_ne_zero,
      OfNat.zero_ne_ofNat, OfNat.ofNat_ne_one, OfNat.one_ne_ofNat, or_self, or_true, true_or,
      or_false, false_or, if_true, if_false, one_ne_zero, zero_ne_one]

theorem box_projection (params : OrientParams) (a h : ℚ) (d : Vec3f) (b : Nat) (t L : ℚ)
    (hd : (d, b, t, L) ∈ box_directions a h) (i : Nat) (hi : i < 12) :
    (kept_normal params (box_mesh a h) i).dot d = 0
      ∨ (kept_normal params (box_mesh a h) i).dot d = 1
      ∨ ((kept_normal params (box_mesh a h) i).dot d = -1 ∧ (i = b ∨ i = b + 1)) := by
  have q0 : (⌊(0 : ℚ) * 1000⌋ : ℚ) / 1000 = 0 := by norm_num
  have q1 : (⌊(1 : ℚ) * 1000⌋ : ℚ) / 1000 = 1 := by norm_num
  have q2 : (⌊(-1 : ℚ) * 1000⌋ : ℚ) / 1000 = -1 := by norm_num
  unfold kept_normal
  split_ifs
  · left
    simp [Vec3f.dot, Vec3f.all_zero]
  · rcases box_directions_cases a h d b t L hd with
      ⟨rfl, rfl, rfl, rfl⟩ | ⟨rfl, rfl, rfl, rfl⟩ | ⟨rfl, rfl, rfl, rfl⟩ | ⟨rfl, rfl, rfl, rfl⟩
        | ⟨rfl, rfl, rfl, rfl⟩ | ⟨rfl, rfl, rfl, rfl⟩ <;>
      simp only [box_mesh, box_facets, quantize_vec3f, Vec3f.dot] <;>
      rcases lt_twelve_cases i hi with
        rfl | rfl | rfl | rfl | rfl | rfl | rfl | rfl | rfl | rfl | rfl | rfl <;>
      simp only [List.getD_cons_zero, List.getD_cons_succ, q0, q1, q2, mul_zero, mul_one,
        zero_mul, add_zero, zero_add, mul_neg, neg_zero, neg_neg, one_mul, neg_mul,
        Nat.reduceAdd, Nat.reduceEqDiff, OfNat.ofNat_ne_zero, OfNat.zero_ne_ofNat,
        OfNat.ofNat_ne_one, OfNat.one_ne_ofNat, or_self, or_true, true_or, or_false, false_or,
        and_true, and_false, true_and, one_ne_zero, zero_ne_one, neg_eq_zero,
        eq_self_iff_true] <;>
      norm_num

theorem box_kept_area_low (params : OrientParams) (a h : ℚ) (i : Nat) (hi : i < 4) :
    kept_area params (box_mesh a h) i = kept_area params (box_mesh a h) 0 := by
  simp [kept_area, box_mesh, hi]

theorem box_kept_area_low_bounds (params : OrientParams) (a h : ℚ) :
    0 ≤ kept_area params (box_mesh a h) 0
      ∧ kept_area params (box_mesh a h) 0 ≤ a * a / 2 := by
  have hsq : 0 ≤ a * a / 2 := div_nonneg (mul_self_nonneg a) (by norm_num)
  unfold kept_area
  split_ifs
  · exact ⟨le_refl 0, hsq⟩
  · simp only [box_mesh]
    norm_num [hsq]

theorem box_kept_area_side (params : OrientParams) (a h : ℚ) (i : Nat) (hi : 4 ≤ i)
    (hnegl : params.NEGL_FACE_SIZE ≤ a * h / 2) :
    kept_area params (box_mesh a h) i = a * h / 2 := by
  have h4 : ¬ i < 4 := not_lt.mpr hi
  have hn : ¬ negligible params ((box_mesh a h).facet_area i) = true := by
    simp only [negligible, Bool.and_eq_true, decide_eq_true_eq, not_and, box_mesh, h4, if_false]
    intro _
    exact not_lt.mpr hnegl
  unfold kept_area
  rw [if_neg hn]
  simp only [box_mesh, h4, if_false]


theorem box_total_min_z (libm : Libm) (params : OrientParams) (a h angle : ℚ) (ha : 0 < a)
    (hh : 0 < h) (d : Vec3f) (b : Nat) (t L : ℚ) (hd : (d, b, t, L) ∈ box_directions a h) :
    total_min_z (projected_orienter libm (box_orient_mesh a h angle) params d) = some t := by
  obtain ⟨tmz, htmz, hlow, i, hi, k, hk, hik⟩ :=
    total_min_z_projected (AutoOrienter.new libm (box_orient_mesh a h angle) params) d
      (show 0 < 12 by norm_num)
  obtain ⟨hb, hbed⟩ := box_vertex_bed a h d b t L hd
  have hle : tmz ≤ t := by
    have := hlow b hb 0 (by norm_num)
    rw [← hbed]
    exact this
  have hge : t ≤ tmz := by
    rw [hik]
    exact box_vertex_low a h ha hh d b t L hd i k hi hk
  have : tmz = t := le_antisymm hle hge
  rw [← this]
  exact htmz

theorem box_flat (libm : Libm) (params : OrientParams) (a h angle : ℚ) (ha : 0 < a)
    (hh : 0 < h) (d : Vec3f) (b : Nat) (t L : ℚ) (hd : (d, b, t, L) ∈ box_directions a h)
    (min_volume : Bool)
    (hasc : libm.cos_ascent angle ≤ 0) (hflh : 0 < params.FIRST_LAY_H)
    (hflhL : params.FIRST_LAY_H ≤ L)
    (hmin : 0 ≤ params.LAF_MIN) (hmax : params.LAF_MAX ≤ 1) :
    ∃ costs,
      get_features libm (projected_orienter libm (box_orient_mesh a h angle) params d) d
          min_volume = some costs
      ∧ costs.overhang = 0 ∧ costs.area_laf = 0 ∧ costs.area_projected = 0
      ∧ costs.contour = 4 * libm.sqrt costs.bottom
      ∧ costs.bottom_hull = costs.bottom
      ∧ costs.bottom = eigen_sum 12 (fun i =>
          if i = b ∨ i = b + 1 then kept_area params (box_mesh a h) i else 0) := by
  have htmz := box_total_min_z libm params a h angle ha hh d b t L hd
  obtain ⟨costs, hcosts, hb, hhull, hov, hlaf, hct, hpr, -⟩ :=
    get_features_some libm (projected_orienter libm (box_orient_mesh a h angle) params d) d
      min_volume t htmz
  obtain ⟨hzmax, hzmean, hzhull, har, hap, hno, hah, hpa⟩ :=
    projected_fields libm (box_orient_mesh a h angle) params d
  have hn3 : ¬ (0 : ℚ) < libm.cos_ascent angle := not_lt.mpr hasc
  have hzero : ∀ i < 12, overhang_areas
      (projected_orienter libm (box_orient_mesh a h angle) params d) d t i = 0 := by
    intro i hi
    rw [overhang_areas_eq]
    apply if_neg
    simp only [normal_projection, hzmax, hno, hpa]
    show ¬ ((kept_normal params (box_mesh a h) i).dot d < libm.cos_ascent angle
      ∧ ¬ facet_z_max (box_mesh a h) d i - t < params.FIRST_LAY_H)
    rcases box_projection params a h d b t L hd i hi with h0 | h1 | ⟨h2, hbed⟩
    · rw [h0]; exact fun hc => hn3 hc.1
    · rw [h1]; exact fun hc => hn3 (lt_trans one_pos hc.1)
    · rw [box_z_max a h ha hh d b t L hd i hi, if_pos hbed, sub_self]
      exact fun hc => hc.2 hflh
  have hlzero : ∀ i < 12, laf_areas
      (projected_orienter libm (box_orient_mesh a h angle) params d) d t i = 0 := by
    intro i hi
    rw [laf_areas_eq]
    apply if_neg
    simp only [normal_projection, hno, hpa]
    show ¬ (params.LAF_MIN < |(kept_normal params (box_mesh a h) i).dot d|
      ∧ |(kept_normal params (box_mesh a h) i).dot d| < params.LAF_MAX ∧ _)
    rcases box_projection params a h d b t L hd i hi with h0 | h1 | ⟨h2, -⟩
    · rw [h0, abs_zero]; exact fun hc => not_lt.mpr hmin hc.1
    · rw [h1, abs_one]; exact fun hc => not_lt.mpr hmax hc.2.1
    · rw [h2, abs_neg, abs_one]; exact fun hc => not_lt.mpr hmax hc.2.1
  have hcond : ∀ i < 12,
      (facet_z_max (box_mesh a h) d i < t + params.FIRST_LAY_H) ↔ (i = b ∨ i = b + 1) := by
    intro i hi
    rw [box_z_max a h ha hh d b t L hd i hi]
    by_cases hbed : i = b ∨ i = b + 1
    · simp only [hbed, if_true, iff_true]
      linarith
    · simp only [hbed, if_false, iff_false, not_lt]
      linarith
  have hbottom : costs.bottom = eigen_sum 12 (fun i =>
      if i = b ∨ i = b + 1 then kept_area params (box_mesh a h) i else 0) := by
    rw [hb, hzmax]
    apply eigen_sum_congr
    intro i hi
    simp only [bottom_condition, hzmax, har, hpa, decide_eq_true_eq]
    exact if_congr (hcond i hi) rfl rfl
  have hbhull : costs.bottom_hull = eigen_sum 12 (fun i =>
      if i = b ∨ i = b + 1 then kept_area params (box_mesh a h) i else 0) := by
    rw [hhull, hzhull]
    apply eigen_sum_congr
    intro i hi
    simp only [hzhull, hah, hpa, decide_eq_true_eq]
    exact if_congr (hcond i hi) rfl rfl
  refine ⟨costs, hcosts, ?_, ?_, hpr, hct, by rw [hbhull, hbottom], hbottom⟩
  · rw [hov]
    cases min_volume
    · simp only [Bool.false_eq_true, if_false]
      rw [hno]
      exact eigen_sum_zero _ _ (fun i hi => by rw [hzero i hi, abs_zero])
    · simp only [if_true]
      rw [hzmean]
      exact eigen_sum_zero _ _ (fun i hi => by rw [hzero i hi, mul_zero, zero_mul])
  · rw [hlaf, hno]
    exact eigen_sum_zero _ _ hlzero

theorem box_bed_sum (f : Nat → ℚ) (b : Nat)
    (hb : b = 0 ∨ b = 2 ∨ b = 4 ∨ b = 6 ∨ b = 8 ∨ b = 10) :
    eigen_sum 12 (fun i => if i = b ∨ i = b + 1 then f i else 0) = f b + f (b + 1) := by
  rcases hb with rfl | rfl | rfl | rfl | rfl | rfl <;>
    simp [eigen_sum, range_twelve]

theorem box_bed_index (a h : ℚ) (d : Vec3f) (b : Nat) (t L : ℚ)
    (hd : (d, b, t, L) ∈ box_directions a h) :
    (b = 0 ∨ b = 2 ∨ b = 4 ∨ b = 6 ∨ b = 8 ∨ b = 10)
      ∧ ((b < 3 ∧ L = h) ∨ (4 ≤ b ∧ L = a)) := by
  rcases box_directions_cases a h d b t L hd with
    ⟨-, rfl, -, rfl⟩ | ⟨-, rfl, -, rfl⟩ | ⟨-, rfl, -, rfl⟩ | ⟨-, rfl, -, rfl⟩
      | ⟨-, rfl, -, rfl⟩ | ⟨-, rfl, -, rfl⟩ <;> simp

theorem unprintability_of_new (libm : Libm) (om : OrientMesh) (params : OrientParams)
    (d : Vec3f) (costs : CostItems) (hmv : params.min_volume = true)
    (hc : get_features libm (projected_orienter libm om params d) d true = some costs) :
    unprintability_of libm (AutoOrienter.new libm om params) d
      = some (target_function { params with ASCENT := libm.cos_ascent om.overhang_angle }
          costs true).1 := by
  have hpa := (projected_fields libm om params d).2.2.2.2.2.2.2
  have e : project_vertices (AutoOrienter.new libm om params) d
      = projected_orienter libm om params d := rfl
  unfold unprintability_of
  simp only [e, hpa, hmv, hc, Option.map_some']

theorem pos_weights_ascent (params : OrientParams) (x : ℚ) (hw : params.pos_weights) :
    ({ params with ASCENT := x } : OrientParams).pos_weights := hw

theorem sample_sqrt_monotone : sample_libm.sqrt_monotone := by
  constructor
  · intro x
    show 0 ≤ sample_sqrt x
    unfold sample_sqrt
    positivity
  · intro x y _ hxy
    show sample_sqrt x ≤ sample_sqrt y
    unfold sample_sqrt
    have h1 : ⌊x * 1000000000000⌋ ≤ ⌊y * 1000000000000⌋ :=
      Int.floor_le_floor (mul_le_mul_of_nonneg_right hxy (by norm_num))
    have h2 : (⌊x * 1000000000000⌋).toNat ≤ (⌊y * 1000000000000⌋).toNat :=
      Int.toNat_le_toNat h1
    have h3 : Nat.sqrt (⌊x * 1000000000000⌋).toNat ≤ Nat.sqrt (⌊y * 1000000000000⌋).toNat :=
      Nat.sqrt_le_sqrt h2
    have h4 : (Nat.sqrt (⌊x * 1000000000000⌋).toNat : ℚ)
        ≤ (Nat.sqrt (⌊y * 1000000000000⌋).toNat : ℚ) := by exact_mod_cast h3
    exact div_le_div_of_nonneg_right h4 (by norm_num)

theorem sample_pos_weights : sample_params.pos_weights := by
  norm_num [OrientParams.pos_weights, sample_params]


theorem box_stand (libm : Libm) (params : OrientParams) (a h angle : ℚ) (ha : 0 < a)
    (hah : a < h) (d : Vec3f) (hd : d = ⟨0, 0, 1⟩ ∨ d = ⟨0, 0, -1⟩)
    (hasc : libm.cos_ascent angle ≤ 0) (hflh : 0 < params.FIRST_LAY_H)
    (hflh1 : params.FIRST_LAY_H ≤ a) (hmin : 0 ≤ params.LAF_MIN)
    (hmax : params.LAF_MAX ≤ 1) :
    ∃ costs,
      get_features libm (projected_orienter libm (box_orient_mesh a h angle) params d) d true
        = some costs
      ∧ costs.overhang = 0 ∧ costs.area_laf = 0 ∧ costs.area_projected = 0
      ∧ costs.contour = 4 * libm.sqrt costs.bottom
      ∧ costs.bottom_hull = costs.bottom
      ∧ costs.bottom
        = kept_area params (box_mesh a h) 0 + kept_area params (box_mesh a h) 0 := by
  have hh : 0 < h := lt_trans ha hah
  have hmem : ∃ b t, (d, b, t, h) ∈ box_directions a h ∧ b < 3 := by
    rcases hd with rfl | rfl
    · exact ⟨0, 0, by simp [box_directions], by norm_num⟩
    · exact ⟨2, -h, by simp [box_directions], by norm_num⟩
  obtain ⟨b, t, hb, hb3⟩ := hmem
  obtain ⟨c, hc, h1, h2, h3, h4, h5, h6⟩ :=
    box_flat libm params a h angle ha hh d b t h hb true hasc hflh
      (le_trans hflh1 hah.le) hmin hmax
  refine ⟨c, hc, h1, h2, h3, h4, h5, ?_⟩
  rw [h6, box_bed_sum _ b (box_bed_index a h d b t h hb).1,
    box_kept_area_low params a h b (by omega), box_kept_area_low params a h (b + 1) (by omega)]

theorem box_lay (libm : Libm) (params : OrientParams) (a h angle : ℚ) (ha : 0 < a)
    (hah : a < h) (d : Vec3f)
    (hd : d = ⟨1, 0, 0⟩ ∨ d = ⟨-1, 0, 0⟩ ∨ d = ⟨0, 1, 0⟩ ∨ d = ⟨0, -1, 0⟩)
    (hasc : libm.cos_ascent angle ≤ 0) (hflh : 0 < params.FIRST_LAY_H)
    (hflh1 : params.FIRST_LAY_H ≤ a) (hmin : 0 ≤ params.LAF_MIN)
    (hmax : params.LAF_MAX ≤ 1) (hnegl : params.NEGL_FACE_SIZE ≤ a * h / 2) :
    ∃ costs,
      get_features libm (projected_orienter libm (box_orient_mesh a h angle) params d) d true
        = some costs
      ∧ costs.overhang = 0 ∧ costs.area_laf = 0 ∧ costs.area_projected = 0
      ∧ costs.contour = 4 * libm.sqrt costs.bottom
      ∧ costs.bottom_hull = costs.bottom
      ∧ costs.bottom = a * h := by
  have hh : 0 < h := lt_trans ha hah
  have hmem : ∃ b t, (d, b, t, a) ∈ box_directions a h ∧ 4 ≤ b := by
    rcases hd with rfl | rfl | rfl | rfl
    · exact ⟨8, 0, by simp [box_directions], by norm_num⟩
    · exact ⟨10, -a, by simp [box_directions], by norm_num⟩
    · exact ⟨4, 0, by simp [box_directions], by norm_num⟩
    · exact ⟨6, -a, by simp [box_directions], by norm_num⟩
  obtain ⟨b, t, hb, hb4⟩ := hmem
  obtain ⟨c, hc, h1, h2, h3, h4, h5, h6⟩ :=
    box_flat libm params a h angle ha hh d b t a hb true hasc hflh hflh1 hmin hmax
  refine ⟨c, hc, h1, h2, h3, h4, h5, ?_⟩
  rw [h6, box_bed_sum _ b (box_bed_index a h d b t a hb).1,
    box_kept_area_side params a h b hb4 hnegl,
    box_kept_area_side params a h (b + 1) (by omega) hnegl]
  ring

/-- Claim C14, amended.  For the axis-aligned box of base `a x a` and height `h > a > 0`
(hull equal to the box), in `min_volume` mode with strictly positive weights,
`0 < FIRST_LAY_H <= a`, `ASCENT <= 0`, `0 <= LAF_MIN` and `LAF_MAX <= 1` (so in particular
`0 <= LAF_MIN < LAF_MAX <= 1`), and with the side facets not below the negligible-area
threshold (`NEGL_FACE_SIZE <= a*h/2`): the score of a direction that stands the box on an
`a x a` face (`(0,0,1)` or `(0,0,-1)`) is strictly higher than the score of a direction
that lays it on an `a x h` face (`(1,0,0)`, `(-1,0,0)`, `(0,1,0)` or `(0,-1,0)`).  The
library square root is taken non-negative and monotone. -/
theorem pillar_scenario (libm : Libm) (params : OrientParams) (a h angle : ℚ)
    (d_stand d_lay : Vec3f)
    (ha : 0 < a) (hah : a < h) (hw : params.pos_weights) (hmv : params.min_volume = true)
    (hsqrt : libm.sqrt_monotone)
    (hflh0 : 0 < params.FIRST_LAY_H) (hflh1 : params.FIRST_LAY_H ≤ a)
    (hasc : libm.cos_ascent angle ≤ 0)
    (hmin : 0 ≤ params.LAF_MIN) (hmax : params.LAF_MAX ≤ 1)
    (hnegl : params.NEGL_FACE_SIZE ≤ a * h / 2)
    (hstand : d_stand = ⟨0, 0, 1⟩ ∨ d_stand = ⟨0, 0, -1⟩)
    (hlay : d_lay = ⟨1, 0, 0⟩ ∨ d_lay = ⟨-1, 0, 0⟩ ∨ d_lay = ⟨0, 1, 0⟩ ∨ d_lay = ⟨0, -1, 0⟩) :
    ∃ s_stand s_lay,
      unprintability_of libm (AutoOrienter.new libm (box_orient_mesh a h angle) params)
          d_stand = some s_stand
      ∧ unprintability_of libm (AutoOrienter.new libm (box_orient_mesh a h angle) params)
          d_lay = some s_lay
      ∧ s_lay < s_stand := by
  obtain ⟨c1, hc1, hov1, hlaf1, hpr1, hct1, hh1, hb1⟩ :=
    box_stand libm params a h angle ha hah d_stand hstand hasc hflh0 hflh1 hmin hmax
  obtain ⟨c2, hc2, hov2, hlaf2, hpr2, hct2, hh2, hb2⟩ :=
    box_lay libm params a h angle ha hah d_lay hlay hasc hflh0 hflh1 hmin hmax hnegl
  obtain ⟨hk0, hk1⟩ := box_kept_area_low_bounds params a h
  have h0 : 0 ≤ c1.bottom := by rw [hb1]; linarith
  have hlt : c1.bottom < c2.bottom := by
    rw [hb1, hb2]
    have : a * a < a * h := mul_lt_mul_of_pos_left hah ha
    linarith
  refine ⟨_, _, unprintability_of_new libm _ params _ c1 hmv hc1,
    unprintability_of_new libm _ params _ c2 hmv hc2, ?_⟩
  exact flat_score_lt libm _ c1 c2 (pos_weights_ascent params _ hw) hsqrt hov1 hlaf1 hpr1
    hov2 hlaf2 hpr2 hct1 hct2 hh1 hh2 h0 hlt

/-- Claim C14 as stated fails: for the box of base `1 x 1` and height `2`, with the sample
weights (all strictly positive, `FIRST_LAY_H = 1/5`, `ASCENT = -1/2`, `LAF_MIN = 0.97`,
`LAF_MAX = 0.999`) and `NEGL_FACE_SIZE = 2`, every facet is below the negligible-area
threshold and the standing direction `(0,0,1)` and the lying direction `(1,0,0)` receive
the same score. -/
theorem pillar_negligible_tie :
    ∃ s,
      unprintability_of sample_libm
          (AutoOrienter.new sample_libm (box_orient_mesh 1 2 60)
            { sample_params with NEGL_FACE_SIZE := 2 }) ⟨0, 0, 1⟩ = some s
      ∧ unprintability_of sample_libm
          (AutoOrienter.new sample_libm (box_orient_mesh 1 2 60)
            { sample_params with NEGL_FACE_SIZE := 2 }) ⟨1, 0, 0⟩ = some s := by
  have hasc : sample_libm.cos_ascent 60 ≤ 0 := by norm_num [sample_libm]
  have hflh : 0 < ({ sample_params with NEGL_FACE_SIZE := 2 } : OrientParams).FIRST_LAY_H := by
    norm_num [sample_params]
  have hflh1 : ({ sample_params with NEGL_FACE_SIZE := 2 } : OrientParams).FIRST_LAY_H ≤ 1 := by
    norm_num [sample_params]
  have hflh2 : ({ sample_params with NEGL_FACE_SIZE := 2 } : OrientParams).FIRST_LAY_H ≤ 2 := by
    norm_num [sample_params]
  have hmin : 0 ≤ ({ sample_params with NEGL_FACE_SIZE := 2 } : OrientParams).LAF_MIN := by
    norm_num [sample_params]
  have hmax : ({ sample_params with NEGL_FACE_SIZE := 2 } : OrientParams).LAF_MAX ≤ 1 := by
    norm_num [sample_params]
  have hzero : ∀ (b i : Nat),
      (if i = b ∨ i = b + 1
        then kept_area { sample_params with NEGL_FACE_SIZE := 2 } (box_mesh 1 2) i else 0)
        = 0 := by
    intro b i
    have hk : kept_area { sample_params with NEGL_FACE_SIZE := 2 } (box_mesh 1 2) i = 0 := by
      apply kept_area_negligible
      by_cases h4 : i < 4 <;> norm_num [negligible, box_mesh, h4]
    rw [hk, ite_self]
  obtain ⟨c1, hc1, hov1, hlaf1, hpr1, hct1, hh1, hb1⟩ :=
    box_flat sample_libm { sample_params with NEGL_FACE_SIZE := 2 } 1 2 60 (by norm_num)
      (by norm_num) ⟨0, 0, 1⟩ 0 0 2 (by simp [box_directions]) true hasc hflh hflh2 hmin hmax
  obtain ⟨c2, hc2, hov2, hlaf2, hpr2, hct2, hh2, hb2⟩ :=
    box_flat sample_libm { sample_params with NEGL_FACE_SIZE := 2 } 1 2 60 (by norm_num)
      (by norm_num) ⟨1, 0, 0⟩ 8 0 1 (by simp [box_directions]) true hasc hflh hflh1 hmin hmax
  rw [eigen_sum_zero 12 _ (fun i _ => hzero _ i)] at hb1 hb2
  refine ⟨_, unprintability_of_new sample_libm _ _ _ c1 rfl hc1, ?_⟩
  rw [unprintability_of_new sample_libm _ _ _ c2 rfl hc2,
    flat_score _ c1 hov1 hlaf1 hpr1, flat_score _ c2 hov2 hlaf2 hpr2,
    hh1, hh2, hct1, hct2, hb1, hb2]

/-- Claim C14, amended, on the box of base `1 x 1` and height `2` with the sample weights:
standing on the face `z = 2`, lying on the face `y = 0`. -/
theorem pillar_scenario_witness :
    (0 : ℚ) < 1 ∧ (1 : ℚ) < 2 ∧ sample_params.pos_weights ∧ sample_params.min_volume = true
      ∧ sample_libm.sqrt_monotone
      ∧ 0 < sample_params.FIRST_LAY_H ∧ sample_params.FIRST_LAY_H ≤ 1
      ∧ sample_libm.cos_ascent 60 ≤ 0
      ∧ 0 ≤ sample_params.LAF_MIN ∧ sample_params.LAF_MAX ≤ 1
      ∧ sample_params.NEGL_FACE_SIZE ≤ 1 * 2 / 2
      ∧ ∃ s_stand s_lay,
        unprintability_of sample_libm
            (AutoOrienter.new sample_libm (box_orient_mesh 1 2 60) sample_params)
            ⟨0, 0, -1⟩ = some s_stand
        ∧ unprintability_of sample_libm
            (AutoOrienter.new sample_libm (box_orient_mesh 1 2 60) sample_params)
            ⟨0, 1, 0⟩ = some s_lay
        ∧ s_lay < s_stand :=
  have h1 : (0 : ℚ) < 1 := by norm_num
  have h2 : (1 : ℚ) < 2 := by norm_num
  have h3 := sample_pos_weights
  have h4 : sample_params.min_volume = true := rfl
  have h5 := sample_sqrt_monotone
  have h6 : 0 < sample_params.FIRST_LAY_H := by norm_num [sample_params]
  have h7 : sample_params.FIRST_LAY_H ≤ 1 := by norm_num [sample_params]
  have h8 : sample_libm.cos_ascent 60 ≤ 0 := by norm_num [sample_libm]
  have h9 : 0 ≤ sample_params.LAF_MIN := by norm_num [sample_params]
  have h10 : sample_params.LAF_MAX ≤ 1 := by norm_num [sample_params]
  have h11 : sample_params.NEGL_FACE_SIZE ≤ 1 * 2 / 2 := by norm_num [sample_params]
  ⟨h1, h2, h3, h4, h5, h6, h7, h8, h9, h10, h11,
    pillar_scenario sample_libm sample_params 1 2 60 ⟨0, 0, -1⟩ ⟨0, 1, 0⟩ h1 h2 h3 h4 h5 h6 h7
      h8 h9 h10 h11 (Or.inr rfl) (Or.inr (Or.inr (Or.inl rfl)))⟩

/-! ## Theorems: the three-way median -/

theorem MEDIAN3_eq_sorted_middle (z0 z1 z2 : ℚ) :
    MEDIAN3 z0 z1 z2 = spec_sorted_middle z0 z1 z2 := by
  unfold spec_sorted_middle std_sort MEDIAN3
  by_cases h1 : z2 < z1 <;> by_cases h2 : z1 < z0 <;> by_cases h3 : z2 < z0 <;>
    simp only [List.foldr, sort_insert, h1, h2, h3, decide_True, decide_False, if_true,
      Bool.false_eq_true, if_false, List.getD_cons_succ, List.getD_cons_zero, max_def,
      min_def] <;>
    split_ifs <;> linarith

theorem MEDIAN3_bounds (z0 z1 z2 : ℚ) :
    min (min z0 z1) z2 ≤ MEDIAN3 z0 z1 z2 ∧ MEDIAN3 z0 z1 z2 ≤ MAX3 z0 z1 z2 := by
  unfold MEDIAN3 MAX3
  constructor
  · exact le_trans (min_le_left _ _) (le_max_left _ _)
  · apply max_le
    · exact le_trans (min_le_left _ _) (le_trans (le_max_left _ _) (le_max_left _ _))
    · exact le_trans (min_le_left _ _) (le_max_left _ _)

theorem mean3_bounds (z0 z1 z2 : ℚ) :
    min (min z0 z1) z2 ≤ (z0 + z1 + z2) / 3 ∧ (z0 + z1 + z2) / 3 ≤ MAX3 z0 z1 z2 := by
  unfold MAX3
  have a0 : min (min z0 z1) z2 ≤ z0 := le_trans (min_le_left _ _) (min_le_left _ _)
  have a1 : min (min z0 z1) z2 ≤ z1 := le_trans (min_le_left _ _) (min_le_right _ _)
  have a2 : min (min z0 z1) z2 ≤ z2 := min_le_right _ _
  have b0 : z0 ≤ max (max z0 z1) z2 := le_trans (le_max_left _ _) (le_max_left _ _)
  have b1 : z1 ≤ max (max z0 z1) z2 := le_trans (le_max_right _ _) (le_max_left _ _)
  have b2 : z2 ≤ max (max z0 z1) z2 := le_max_right _ _
  constructor
  · rw [le_div_iff₀ (by norm_num)]
    linarith
  · rw [div_le_iff₀ (by norm_num)]
    linarith

/-- Claim C22.  For all heights `z0, z1, z2` the value `MEDIAN3(z0, z1, z2)` is the middle
entry of the sorted triple.  For every state, direction and facet index `i`, after
`project_vertices` the row `i` of `z_projected` holds the projections of the three corners,
`z_max(i)` is their `MAX3`, `z_median(i)` their `MEDIAN3` and `z_mean(i)` their mean, and
both `z_median(i)` and `z_mean(i)` lie between the least of the three heights and
`z_max(i)`. -/
theorem project_vertices_median (o : AutoOrienter) (orientation : Vec3f) (i : Nat)
    (z0 z1 z2 : ℚ) :
    MEDIAN3 z0 z1 z2 = spec_sorted_middle z0 z1 z2
      ∧ (project_vertices o orientation).z_projected.row i
          = ⟨vertex_z o.mesh orientation i 0, vertex_z o.mesh orientation i 1,
              vertex_z o.mesh orientation i 2⟩
      ∧ (project_vertices o orientation).z_max.coeff i
          = MAX3 ((project_vertices o orientation).z_projected.row i).x
              ((project_vertices o orientation).z_projected.row i).y
              ((project_vertices o orientation).z_projected.row i).z
      ∧ (project_vertices o orientation).z_median.coeff i
          = MEDIAN3 ((project_vertices o orientation).z_projected.row i).x
              ((project_vertices o orientation).z_projected.row i).y
              ((project_vertices o orientation).z_projected.row i).z
      ∧ (project_vertices o orientation).z_mean.coeff i
          = (((project_vertices o orientation).z_projected.row i).x
              + ((project_vertices o orientation).z_projected.row i).y
              + ((project_vertices o orientation).z_projected.row i).z) / 3
      ∧ min (min ((project_vertices o orientation).z_projected.row i).x
              ((project_vertices o orientation).z_projected.row i).y)
            ((project_vertices o orientation).z_projected.row i).z
          ≤ (project_vertices o orientation).z_median.coeff i
      ∧ (project_vertices o orientation).z_median.coeff i
          ≤ (project_vertices o orientation).z_max.coeff i
      ∧ min (min ((project_vertices o orientation).z_projected.row i).x
              ((project_vertices o orientation).z_projected.row i).y)
            ((project_vertices o orientation).z_projected.row i).z
          ≤ (project_vertices o orientation).z_mean.coeff i
      ∧ (project_vertices o orientation).z_mean.coeff i
          ≤ (project_vertices o orientation).z_max.coeff i :=
  ⟨MEDIAN3_eq_sorted_middle z0 z1 z2, rfl, rfl, rfl, rfl,
    (MEDIAN3_bounds _ _ _).1, (MEDIAN3_bounds _ _ _).2,
    (mean3_bounds _ _ _).1, (mean3_bounds _ _ _).2⟩

/-! ## Theorems: the divisor of the cost model -/

theorem target_function_quotient (params : OrientParams) (costs : CostItems) (mv : Bool) :
    (target_function params costs mv).1
      = (if mv then params.TAR_A * (costs.overhang / 25 + params.TAR_B) else 0)
        + target_function_dividend params costs mv / target_function_divisor params costs mv
        + b2f (decide (costs.bottom < params.BOTTOM_MIN)) * 100 := by
  cases mv
  · simp only [target_function, target_function_dividend, target_function_divisor,
      Bool.false_eq_true, if_false, zero_add]
  · simp only [target_function, target_function_dividend, target_function_divisor, if_true]

theorem eigen_sum_nonneg (n : Nat) (f : Nat → ℚ) (h : ∀ i < n, 0 ≤ f i) :
    0 ≤ eigen_sum n f := by
  rw [eigen_sum_eq_sum_range]
  exact Finset.sum_nonneg (fun i hi => h i (Finset.mem_range.mp hi))

theorem target_function_divisor_ge (params : OrientParams) (costs : CostItems) (mv : Bool)
    (hweights : params.nonneg_weights) (hfields : costs.nonneg_fields) :
    params.TAR_D ≤ target_function_divisor params costs mv
      ∧ 0 < target_function_divisor params costs mv := by
  obtain ⟨_, _, _, hCF, hBF, hBHF, _, hD, hE, _, hPA⟩ := hweights
  obtain ⟨hov, hb, hbh, hct, _, hap⟩ := hfields
  have h1 := mul_nonneg hCF hct
  have h2 := mul_nonneg hBF hb
  have h3 := mul_nonneg hBHF hbh
  have h4 := mul_nonneg hE (div_nonneg hov (by norm_num : (0 : ℚ) ≤ 25))
  have h5 := mul_nonneg hPA hap
  cases mv
  · simp only [target_function_divisor, Bool.false_eq_true, if_false]
    constructor <;> linarith
  · simp only [target_function_divisor, if_true]
    constructor <;> linarith

theorem get_features_nonneg_fields (libm : Libm) (om : OrientMesh) (params : OrientParams)
    (d : Vec3f) (mv : Bool) (hfacets : 0 < om.mesh.facets_count)
    (hsqrt : libm.sqrt_nonneg) (hsupp : 0 ≤ params.APPERANCE_FACE_SUPP)
    (hareas : ∀ i < om.mesh.facets_count, 0 ≤ om.mesh.facet_area i)
    (hhull : ∀ i < om.convex_hull_3d.facets_count, 0 ≤ om.convex_hull_3d.facet_area i) :
    ∃ costs, get_features libm (projected_orienter libm om params d) d mv = some costs
      ∧ costs.nonneg_fields := by
  have hf : 0 < (AutoOrienter.new libm om params).mesh.facets_count := hfacets
  obtain ⟨tmz, htmz, hlow, -⟩ := total_min_z_projected (AutoOrienter.new libm om params) d hf
  obtain ⟨costs, hcosts, hb, hbh, hov, hlaf, hct, hproj, -⟩ :=
    get_features_some libm (projected_orienter libm om params d) d mv tmz htmz
  obtain ⟨hzmax, hzmean, hzhull, har, happ, hno, harh, hpa⟩ := projected_fields libm om params d
  refine ⟨costs, hcosts, ?_⟩
  have hbottom : 0 ≤ costs.bottom := by
    rw [hb]
    apply eigen_sum_nonneg
    intro i hi
    have hi' : i < om.mesh.facets_count := by rw [hzmax] at hi; exact hi
    split_ifs
    · rw [har]
      exact kept_area_nonneg params om.mesh i (hareas i hi')
    · exact le_refl 0
  have hbhull : 0 ≤ costs.bottom_hull := by
    rw [hbh]
    apply eigen_sum_nonneg
    intro i hi
    have hi' : i < om.convex_hull_3d.facets_count := by rw [hzhull] at hi; exact hi
    split_ifs
    · rw [harh]
      exact kept_area_nonneg params om.convex_hull_3d i (hhull i hi')
    · exact le_refl 0
  have hover : 0 ≤ costs.overhang := by
    rw [hov]
    cases mv
    · simp only [Bool.false_eq_true, if_false]
      exact eigen_sum_nonneg _ _ (fun i _ => abs_nonneg _)
    · simp only [if_true]
      apply eigen_sum_nonneg
      intro i hi
      have hi' : i < om.mesh.facets_count := by rw [hzmean] at hi; exact hi
      have h1 : 0 ≤ heights (projected_orienter libm om params d) tmz i := by
        unfold heights
        rw [hzmean]
        show 0 ≤ facet_z_mean om.mesh d i - tmz
        have a0 : tmz ≤ vertex_z om.mesh d i 0 := hlow i hi' 0 (by norm_num)
        have a1 : tmz ≤ vertex_z om.mesh d i 1 := hlow i hi' 1 (by norm_num)
        have a2 : tmz ≤ vertex_z om.mesh d i 2 := hlow i hi' 2 (by norm_num)
        unfold facet_z_mean
        rw [sub_nonneg, le_div_iff₀ (by norm_num)]
        linarith
      have h2 : 0 ≤ overhang_areas (projected_orienter libm om params d) d tmz i := by
        rw [overhang_areas_eq]
        split_ifs
        · rw [har, happ, hpa]
          have k1 := kept_area_nonneg params om.mesh i (hareas i hi')
          have k2 := kept_appearance_nonneg params om.mesh i
          exact mul_nonneg k1 (add_nonneg zero_le_one (mul_nonneg k2 hsupp))
        · exact le_refl 0
      have h3 : 0 ≤ inner (projected_orienter libm om params d) d i := abs_nonneg _
      exact mul_nonneg (mul_nonneg h1 h2) h3
  have hlafn : 0 ≤ costs.area_laf := by
    rw [hlaf]
    apply eigen_sum_nonneg
    intro i hi
    have hi' : i < om.mesh.facets_count := by rw [hno] at hi; exact hi
    rw [laf_areas_eq]
    split_ifs
    · rw [har]
      exact kept_area_nonneg params om.mesh i (hareas i hi')
    · exact le_refl 0
  have hcontour : 0 ≤ costs.contour := by
    rw [hct]
    exact mul_nonneg (by norm_num) (hsqrt _ hbottom)
  exact ⟨hover, hbottom, hbhull, hcontour, hlafn, le_of_eq hproj.symm⟩

/-- Claim C21.  For a mesh with at least one facet whose facet areas, and those of its
hull, are not negative, a candidate direction, a `sqrt` that is not negative on arguments
that are not negative, weights that are not negative with `TAR_D > 0`, and
`APPERANCE_FACE_SUPP >= 0`: in both modes `get_features` returns a feature set whose
fields `overhang`, `bottom`, `bottom_hull`, `contour`, `area_laf` and `area_projected` are
not negative, the divisor of the quotient in `target_function` for this feature set is at
least `TAR_D`, hence positive, and the cost is the mode term plus dividend over this
divisor plus the bottom penalty. -/
theorem cost_model_divisor_positive (libm : Libm) (om : OrientMesh) (params : OrientParams)
    (d : Vec3f) (mv : Bool) (hfacets : 0 < om.mesh.facets_count)
    (hsqrt : libm.sqrt_nonneg) (hweights : params.nonneg_weights)
    (hsupp : 0 ≤ params.APPERANCE_FACE_SUPP)
    (hareas : ∀ i < om.mesh.facets_count, 0 ≤ om.mesh.facet_area i)
    (hhull : ∀ i < om.convex_hull_3d.facets_count, 0 ≤ om.convex_hull_3d.facet_area i) :
    ∃ costs, get_features libm (projected_orienter libm om params d) d mv = some costs
      ∧ costs.nonneg_fields
      ∧ params.TAR_D
          ≤ target_function_divisor (projected_orienter libm om params d).params costs mv
      ∧ 0 < target_function_divisor (projected_orienter libm om params d).params costs mv
      ∧ (target_function (projected_orienter libm om params d).params costs mv).1
          = (if mv then params.TAR_A * (costs.overhang / 25 + params.TAR_B) else 0)
            + target_function_dividend (projected_orienter libm om params d).params costs mv
              / target_function_divisor (projected_orienter libm om params d).params costs mv
            + b2f (decide (costs.bottom < params.BOTTOM_MIN)) * 100 := by
  obtain ⟨costs, hcosts, hfields⟩ :=
    get_features_nonneg_fields libm om params d mv hfacets hsqrt hsupp hareas hhull
  have hw : (projected_orienter libm om params d).params.nonneg_weights := hweights
  obtain ⟨hge, hpos⟩ :=
    target_function_divisor_ge (projected_orienter libm om params d).params costs mv hw hfields
  exact ⟨costs, hcosts, hfields, hge, hpos,
    target_function_quotient (projected_orienter libm om params d).params costs mv⟩

/-- Claim C21 on the unit cube, direction `(0, 0, 1)`, sample weights, volume-minimizing
mode. -/
theorem cost_model_divisor_positive_witness :
    0 < cube_orient_mesh.mesh.facets_count
      ∧ sample_libm.sqrt_nonneg ∧ sample_params.nonneg_weights
      ∧ 0 ≤ sample_params.APPERANCE_FACE_SUPP
      ∧ (∀ i < cube_orient_mesh.mesh.facets_count, 0 ≤ cube_orient_mesh.mesh.facet_area i)
      ∧ (∀ i < cube_orient_mesh.convex_hull_3d.facets_count,
          0 ≤ cube_orient_mesh.convex_hull_3d.facet_area i)
      ∧ ∃ costs,
        get_features sample_libm
            (projected_orienter sample_libm cube_orient_mesh sample_params ⟨0, 0, 1⟩)
            ⟨0, 0, 1⟩ true = some costs
          ∧ costs.nonneg_fields
          ∧ sample_params.TAR_D
              ≤ target_function_divisor
                  (projected_orienter sample_libm cube_orient_mesh sample_params
                    ⟨0, 0, 1⟩).params costs true
          ∧ 0 < target_function_divisor
                  (projected_orienter sample_libm cube_orient_mesh sample_params
                    ⟨0, 0, 1⟩).params costs true
          ∧ (target_function
                (projected_orienter sample_libm cube_orient_mesh sample_params
                  ⟨0, 0, 1⟩).params costs true).1
              = (if true = true then sample_params.TAR_A
                    * (costs.overhang / 25 + sample_params.TAR_B) else 0)
                + target_function_dividend
                    (projected_orienter sample_libm cube_orient_mesh sample_params
                      ⟨0, 0, 1⟩).params costs true
                  / target_function_divisor
                      (projected_orienter sample_libm cube_orient_mesh sample_params
                        ⟨0, 0, 1⟩).params costs true
                + b2f (decide (costs.bottom < sample_params.BOTTOM_MIN)) * 100 :=
  have hf : 0 < cube_orient_mesh.mesh.facets_count := by decide
  have hs : sample_libm.sqrt_nonneg := fun x _ => by
    show 0 ≤ sample_sqrt x
    unfold sample_sqrt
    positivity
  have hw : sample_params.nonneg_weights := by
    norm_num [OrientParams.nonneg_weights, sample_params]
  have hp : 0 ≤ sample_params.APPERANCE_FACE_SUPP := by norm_num [sample_params]
  have ha : ∀ i < cube_orient_mesh.mesh.facets_count,
      0 ≤ cube_orient_mesh.mesh.facet_area i := fun i _ => by
    norm_num [cube_orient_mesh, cube_mesh]
  have hh : ∀ i < cube_orient_mesh.convex_hull_3d.facets_count,
      0 ≤ cube_orient_mesh.convex_hull_3d.facet_area i := fun i _ => by
    norm_num [cube_orient_mesh, cube_mesh]
  ⟨hf, hs, hw, hp, ha, hh,
    cost_model_divisor_positive sample_libm cube_orient_mesh sample_params ⟨0, 0, 1⟩ true
      hf hs hw hp ha hh⟩

/-! ## Theorems: the projected-area weight -/

theorem get_features_proj_weight (libm : Libm) (o : AutoOrienter) (w : ℚ) (d : Vec3f)
    (mv : Bool) :
    get_features libm { o with params := { o.params with TAR_PROJ_AREA := w } } d mv
      = get_features libm o d mv := rfl

theorem project_vertices_proj_weight (o : AutoOrienter) (w : ℚ) (d : Vec3f) :
    project_vertices { o with params := { o.params with TAR_PROJ_AREA := w } } d
      = { project_vertices o d with
          params := { (project_vertices o d).params with TAR_PROJ_AREA := w } } := rfl

theorem new_proj_weight (libm : Libm) (om : OrientMesh) (params : OrientParams) (w : ℚ) :
    AutoOrienter.new libm om { params with TAR_PROJ_AREA := w }
      = { AutoOrienter.new libm om params with
          params := { (AutoOrienter.new libm om params).params with TAR_PROJ_AREA := w } } :=
  rfl

theorem target_function_proj_weight (params : OrientParams) (w : ℚ) (costs : CostItems)
    (mv : Bool) (h : costs.area_projected = 0) :
    target_function { params with TAR_PROJ_AREA := w } costs mv
      = target_function params costs mv := by
  simp only [target_function, h, mul_zero]

theorem get_features_area_projected (libm : Libm) (o : AutoOrienter) (d : Vec3f) (mv : Bool)
    (costs : CostItems) (h : get_features libm o d mv = some costs) :
    costs.area_projected = 0 := by
  unfold get_features at h
  cases htmz : total_min_z o with
  | none => rw [htmz] at h; exact absurd h (by simp)
  | some tmz =>
    rw [htmz] at h
    simp only [Option.some.injEq] at h
    rw [← h]
    rfl

theorem process_loop_proj_weight (libm : Libm) (w : ℚ) (l : List Vec3f) :
    ∀ (o : AutoOrienter) (results : List (Vec3f × CostItems)),
      process_loop libm { o with params := { o.params with TAR_PROJ_AREA := w } } l results
        = process_loop libm o l results := by
  induction l with
  | nil => intro o results; rfl
  | cons c rest ih =>
    intro o results
    unfold process_loop
    simp only [project_vertices_proj_weight, get_features_proj_weight]
    cases hc : get_features libm (project_vertices o c.neg) c.neg
        (project_vertices o c.neg).params.min_volume with
    | none => rfl
    | some costs =>
      have h0 := get_features_area_projected libm _ _ _ costs hc
      simp only [target_function_proj_weight _ w costs _ h0]
      exact ih (project_vertices o c.neg) _

theorem process_candidates_orientations_eq (H : HashOrder) (o : AutoOrienter) :
    (process_candidates H o).orientations
      = remove_duplicates_list default_tol
          (⟨0, 0, -1⟩ :: (area_cumulation_added H o.normals o.areas 10
            ++ area_cumulation_added H o.normals_hull o.areas_hull 10 ++ supplement_vecs)) := by
  rw [process_candidates_collect]
  show remove_duplicates_list default_tol (process_collect H o).orientations = _
  rw [process_collect_orientations]

theorem process_candidates_orientations_proj_weight (H : HashOrder) (o : AutoOrienter)
    (w : ℚ) :
    (process_candidates H
        { o with params := { o.params with TAR_PROJ_AREA := w } }).orientations
      = (process_candidates H o).orientations := by
  rw [process_candidates_orientations_eq, process_candidates_orientations_eq]

theorem process_candidates_proj_weight (H : HashOrder) (o : AutoOrienter) (w : ℚ) :
    process_candidates H { o with params := { o.params with TAR_PROJ_AREA := w } }
      = { process_candidates H o with
          params := { (process_candidates H o).params with TAR_PROJ_AREA := w } } := by
  rw [process_candidates_eq H { o with params := { o.params with TAR_PROJ_AREA := w } },
    process_candidates_orientations_proj_weight]
  conv_rhs => rw [process_candidates_eq H o]

theorem process_proj_weight (H : HashOrder) (libm : Libm) (o : AutoOrienter) (w : ℚ) :
    process H libm { o with params := { o.params with TAR_PROJ_AREA := w } }
      = process H libm o := by
  unfold process process_results
  rw [process_candidates_proj_weight, process_loop_proj_weight]

theorem map_target_proj_weight {β : Type} (params : OrientParams) (w : ℚ) (mv : Bool)
    (sel : ℚ × CostItems → β) (g : Option CostItems)
    (hg : ∀ c, g = some c → c.area_projected = 0) :
    g.map (fun c => sel (target_function { params with TAR_PROJ_AREA := w } c mv))
      = g.map (fun c => sel (target_function params c mv)) := by
  cases g with
  | none => simp only [Option.map_none']
  | some c => simp only [Option.map_some', target_function_proj_weight params w c mv (hg c rfl)]

theorem unprintability_proj_weight (libm : Libm) (o : AutoOrienter) (w : ℚ) (d : Vec3f) :
    unprintability_of libm { o with params := { o.params with TAR_PROJ_AREA := w } } d
      = unprintability_of libm o d :=
  map_target_proj_weight (project_vertices o d).params w
    (project_vertices o d).params.min_volume Prod.fst
    (get_features libm (project_vertices o d) d (project_vertices o d).params.min_volume)
    (fun c hc => get_features_area_projected libm _ _ _ c hc)

theorem evaluate_proj_weight (libm : Libm) (o : AutoOrienter) (w : ℚ) (d : Vec3f) :
    evaluate libm { o with params := { o.params with TAR_PROJ_AREA := w } } d
      = evaluate libm o d :=
  map_target_proj_weight (project_vertices o d).params w
    (project_vertices o d).params.min_volume Prod.snd
    (get_features libm (project_vertices o d) d (project_vertices o d).params.min_volume)
    (fun c hc => get_features_area_projected libm _ _ _ c hc)

/-- Claim C23.  For a mesh with at least one facet and a candidate direction,
`get_features` returns a feature set whose `area_projected` is `0` (the field is never
assigned and keeps the zero of `CostItems()`).  For two parameter sets that differ only in
`TAR_PROJ_AREA`, `process` builds the same candidate list, every direction gets the same
unprintability and the same stored feature set, and `process` returns the same result. -/
theorem score_ignores_proj_area_weight (H : HashOrder) (libm : Libm) (om : OrientMesh)
    (params : OrientParams) (w : ℚ) (d : Vec3f) (hfacets : 0 < om.mesh.facets_count) :
    ∃ costs u,
      get_features libm (projected_orienter libm om params d) d params.min_volume = some costs
        ∧ costs.area_projected = 0
        ∧ unprintability_of libm (AutoOrienter.new libm om params) d = some u
        ∧ unprintability_of libm
            (AutoOrienter.new libm om { params with TAR_PROJ_AREA := w }) d = some u
        ∧ evaluate libm (AutoOrienter.new libm om { params with TAR_PROJ_AREA := w }) d
            = evaluate libm (AutoOrienter.new libm om params) d
        ∧ (process_candidates H
              (AutoOrienter.new libm om { params with TAR_PROJ_AREA := w })).orientations
            = (process_candidates H (AutoOrienter.new libm om params)).orientations
        ∧ process H libm (AutoOrienter.new libm om { params with TAR_PROJ_AREA := w })
            = process H libm (AutoOrienter.new libm om params) := by
  have hf : 0 < (AutoOrienter.new libm om params).mesh.facets_count := hfacets
  obtain ⟨tmz, htmz, -, -⟩ := total_min_z_projected (AutoOrienter.new libm om params) d hf
  obtain ⟨costs, hcosts, -, -, -, -, -, hproj, -⟩ :=
    get_features_some libm (projected_orienter libm om params d) d params.min_volume tmz htmz
  have hu : unprintability_of libm (AutoOrienter.new libm om params) d
      = some (target_function (projected_orienter libm om params d).params costs
          params.min_volume).1 := by
    have e : project_vertices (AutoOrienter.new libm om params) d
        = projected_orienter libm om params d := rfl
    have em : (projected_orienter libm om params d).params.min_volume = params.min_volume :=
      rfl
    unfold unprintability_of
    simp only [e, em, hcosts, Option.map_some']
  refine ⟨costs, _, hcosts, hproj, hu, ?_, ?_, ?_, ?_⟩
  · rw [new_proj_weight, unprintability_proj_weight, hu]
  · rw [new_proj_weight, evaluate_proj_weight]
  · rw [new_proj_weight, process_candidates_orientations_proj_weight]
  · rw [new_proj_weight, process_proj_weight]

/-- Claim C23 on the unit cube, direction `(0, 0, 1)`: the sample weights and the sample
weights with `TAR_PROJ_AREA` raised from `1/10` to `5`. -/
theorem score_ignores_proj_area_weight_witness :
    0 < cube_orient_mesh.mesh.facets_count
      ∧ ∃ costs u,
        get_features sample_libm
            (projected_orienter sample_libm cube_orient_mesh sample_params ⟨0, 0, 1⟩)
            ⟨0, 0, 1⟩ sample_params.min_volume = some costs
          ∧ costs.area_projected = 0
          ∧ unprintability_of sample_libm
              (AutoOrienter.new sample_libm cube_orient_mesh sample_params) ⟨0, 0, 1⟩ = some u
          ∧ unprintability_of sample_libm
              (AutoOrienter.new sample_libm cube_orient_mesh
                { sample_params with TAR_PROJ_AREA := 5 }) ⟨0, 0, 1⟩ = some u
          ∧ evaluate sample_libm
              (AutoOrienter.new sample_libm cube_orient_mesh
                { sample_params with TAR_PROJ_AREA := 5 }) ⟨0, 0, 1⟩
              = evaluate sample_libm
                  (AutoOrienter.new sample_libm cube_orient_mesh sample_params) ⟨0, 0, 1⟩
          ∧ (process_candidates HashOrder.insertion
                (AutoOrienter.new sample_libm cube_orient_mesh
                  { sample_params with TAR_PROJ_AREA := 5 })).orientations
              = (process_candidates HashOrder.insertion
                  (AutoOrienter.new sample_libm cube_orient_mesh sample_params)).orientations
          ∧ process HashOrder.insertion sample_libm
              (AutoOrienter.new sample_libm cube_orient_mesh
                { sample_params with TAR_PROJ_AREA := 5 })
              = process HashOrder.insertion sample_libm
                  (AutoOrienter.new sample_libm cube_orient_mesh sample_params) :=
  have hf : 0 < cube_orient_mesh.mesh.facets_count := by decide
  ⟨hf, score_ignores_proj_area_weight HashOrder.insertion sample_libm cube_orient_mesh
    sample_params 5 ⟨0, 0, 1⟩ hf⟩

/-! ## Theorems: a second deduplication pass -/

theorem remove_duplicates_loop_tail (tol : ℚ) (rest : List Vec3f) :
    ∀ kept : List Vec3f, ∃ tail,
      remove_duplicates_loop tol kept rest = kept ++ tail
        ∧ ∀ b ∈ tail, b.isApprox Vec3f.all_zero tol = false := by
  induction rest with
  | nil => intro kept; exact ⟨[], by simp [remove_duplicates_loop], by simp⟩
  | cons it rest ih =>
    intro kept
    unfold remove_duplicates_loop
    by_cases hdup : (kept.any (fun it_ok => it_ok.isApprox it tol)
        || it.isApprox Vec3f.all_zero tol) = true
    · simp only [hdup, if_true]
      exact ih kept
    · simp only [hdup]
      obtain ⟨tail, ht, hz⟩ := ih (kept ++ [it])
      refine ⟨it :: tail, by simp [ht], ?_⟩
      intro b hb
      rcases List.mem_cons.mp hb with hb | hb
      · subst hb
        simp only [Bool.or_eq_true, not_or, Bool.not_eq_true] at hdup
        exact hdup.2
      · exact hz b hb

theorem remove_duplicates_loop_fixed (tol : ℚ) (rest : List Vec3f) :
    ∀ kept : List Vec3f,
      (kept ++ rest).Pairwise (fun a b => a.isApprox b tol = false) →
      (∀ b ∈ rest, b.isApprox Vec3f.all_zero tol = false) →
      remove_duplicates_loop tol kept rest = kept ++ rest := by
  induction rest with
  | nil => intro kept _ _; simp [remove_duplicates_loop]
  | cons it rest ih =>
    intro kept hp hz
    have hfar : kept.any (fun it_ok => it_ok.isApprox it tol) = false := by
      rw [List.any_eq_false]
      intro a ha
      have := (List.pairwise_append.mp hp).2.2 a ha it (List.mem_cons_self _ _)
      simp [this]
    rw [remove_duplicates_loop_keep tol kept it rest hfar (hz it (List.mem_cons_self _ _))]
    rw [ih (kept ++ [it]) (by simpa using hp)
      (fun b hb => hz b (List.mem_cons_of_mem _ hb))]
    simp

/-- Claim C24.  For every tolerance and every non-empty candidate list `first :: rest`,
`remove_duplicates` returns a sublist of its input (entries in their original order) whose
first entry is `first`, and a second call with the same tolerance returns the same list;
likewise on the orienter state. -/
theorem remove_duplicates_idempotent (tol : ℚ) (first : Vec3f) (rest : List Vec3f)
    (o : AutoOrienter) :
    (remove_duplicates_list tol (first :: rest)).Sublist (first :: rest)
      ∧ (remove_duplicates_list tol (first :: rest)).head? = some first
      ∧ remove_duplicates_list tol (remove_duplicates_list tol (first :: rest))
          = remove_duplicates_list tol (first :: rest)
      ∧ remove_duplicates
            (remove_duplicates { o with orientations := first :: rest } tol) tol
          = remove_duplicates { o with orientations := first :: rest } tol := by
  obtain ⟨tail, ht, hz⟩ := remove_duplicates_loop_tail tol rest [first]
  have hp := remove_duplicates_loop_pairwise tol rest [first] (List.pairwise_singleton _ _)
  have hl : remove_duplicates_list tol (first :: rest) = first :: tail := by
    show remove_duplicates_loop tol [first] rest = first :: tail
    rw [ht]
    rfl
  have hidem : remove_duplicates_list tol (remove_duplicates_list tol (first :: rest))
      = remove_duplicates_list tol (first :: rest) := by
    rw [hl]
    show remove_duplicates_loop tol [first] tail = first :: tail
    rw [ht] at hp
    rw [remove_duplicates_loop_fixed tol tail [first] hp hz]
    rfl
  refine ⟨remove_duplicates_list_sublist tol _, by rw [hl]; rfl, hidem, ?_⟩
  unfold remove_duplicates
  simp only [hidem]

/-! ## Theorems: the angular separation of the final candidates -/

end Slic3r.orientation

/-! ## Theorems: the spin control -/

/-- Claim C25.  For a control whose range was set to `mn <= mx`, after `SetValue(v)` the
value returned by `GetValue()` is `mn` if `v < mn`, `mx` if `v > mx` and `v` otherwise; it
lies between `mn` and `mx`; and `SetValue(GetValue())` leaves the control as it is, value
and text included. -/
theorem SpinInput.SetValue_clamps (wx : WxString) (s : SpinInput) (mn mx v : Int)
    (hrange : mn ≤ mx) :
    ((s.SetRange mn mx).SetValue wx v).GetValue
        = (if v < mn then mn else if v > mx then mx else v)
      ∧ mn ≤ ((s.SetRange mn mx).SetValue wx v).GetValue
      ∧ ((s.SetRange mn mx).SetValue wx v).GetValue ≤ mx
      ∧ ((s.SetRange mn mx).SetValue wx v).SetValue wx
            ((s.SetRange mn mx).SetValue wx v).GetValue
          = (s.SetRange mn mx).SetValue wx v := by
  have hval : ((s.SetRange mn mx).SetValue wx v).GetValue
      = (if v < mn then mn else if v > mx then mx else v) := rfl
  have hlo : mn ≤ (if v < mn then mn else if v > mx then mx else v) := by
    split_ifs <;> omega
  have hhi : (if v < mn then mn else if v > mx then mx else v) ≤ mx := by
    split_ifs <;> omega
  refine ⟨hval, hval ▸ hlo, hval ▸ hhi, ?_⟩
  have h1 : ¬ (if v < mn then mn else if v > mx then mx else v) < mn := not_lt.mpr hlo
  have h2 : ¬ (if v < mn then mn else if v > mx then mx else v) > mx := not_lt.mpr hhi
  simp only [SpinInput.SetValue, SpinInput.SetRange, SpinInput.GetValue, h1, h2, if_false]

/-- Claim C25 on a control with the range `0..10` and the request `SetValue(42)`. -/
theorem SpinInput.SetValue_clamps_witness :
    (0 : Int) ≤ 10
      ∧ ((sample_spin.SetRange 0 10).SetValue sample_wx 42).GetValue
          = (if (42 : Int) < 0 then 0 else if (42 : Int) > 10 then 10 else 42)
      ∧ 0 ≤ ((sample_spin.SetRange 0 10).SetValue sample_wx 42).GetValue
      ∧ ((sample_spin.SetRange 0 10).SetValue sample_wx 42).GetValue ≤ 10
      ∧ ((sample_spin.SetRange 0 10).SetValue sample_wx 42).SetValue sample_wx
            ((sample_spin.SetRange 0 10).SetValue sample_wx 42).GetValue
          = (sample_spin.SetRange 0 10).SetValue sample_wx 42 :=
  ⟨by decide, SpinInput.SetValue_clamps sample_wx sample_spin 0 10 42 (by decide)⟩
